import Mathlib

/-!
# QCA7000 serial framing (`qca_framing.c`)

A shallow embedding of the Atheros/QCA7000 frame encoder (`QcaFrmCreateHeader`,
`QcaFrmCreateFooter`, `QcaFrmAddQID`) and of the receive state machine
(`QcaFrmFsmInit`, `QcaFrmFsmDecode`), followed by theorems about them.

Conventions of the embedding.

* A byte buffer is a `List Nat` whose elements are bytes (values below 256).  A pointer
  argument `uint8_t *buf` becomes the list of the bytes that start at the pointer; a store
  `buf[i] = v` is `List.set`, which leaves the list alone when `i` is outside it.
* `uint8_t`, `uint16_t` and `uint32_t` stores are written with an explicit `% 2^w`.
* The decoder state is a C enumeration; it is an `Int` here, so that `state--` and
  `state -= len` are plain integer subtraction.
* `qca_framing.h` is not part of the source tree.  The constants it defines are either
  fields of `QcaFrmConsts` (no value is given anywhere) or definitions whose doc comment
  says where the value comes from.
-/

namespace QcaFraming

/-! ## Constants and types of `qca_framing.h` -/

/-- Modelled from the spec: the constants of `qca_framing.h` for which neither the source
nor the spec gives a value.  `HW_LEN0` is the numeric value of the initial state
`QCAFRM_HW_LEN0`, `ETHMINLEN` the minimum Ethernet frame length `QCAFRM_ETHMINLEN`, and the
remaining four are the result codes `QCAFRM_GATHER`, `QCAFRM_NOHEAD`, `QCAFRM_INVLEN` and
`QCAFRM_NOTAIL`. -/
structure QcaFrmConsts where
  HW_LEN0 : Int
  ETHMINLEN : Nat
  GATHER : Int
  NOHEAD : Int
  INVLEN : Int
  NOTAIL : Int
deriving DecidableEq

/-- Modelled from the spec: what the spec says about the constants of `QcaFrmConsts`.
The twelve header states and the two footer states are distinct case labels of one
`switch` (so `HW_LEN0 - 11` lies above `QCAFRM_WAIT_551 = 1`), the minimum Ethernet length
is a positive lower bound, a completed frame is reported as a non-negative byte count, and
the four result codes are distinct from each other and from every count of a completed
frame (`GATHER` is not positive, the three error codes are negative). -/
def QcaFrmConsts.WF (K : QcaFrmConsts) : Prop :=
  13 ≤ K.HW_LEN0 ∧ 0 < K.ETHMINLEN ∧ K.GATHER ≤ 0 ∧
  K.NOHEAD < 0 ∧ K.INVLEN < 0 ∧ K.NOTAIL < 0 ∧
  K.NOHEAD ≠ K.GATHER ∧ K.INVLEN ≠ K.GATHER ∧ K.NOTAIL ≠ K.GATHER ∧
  K.NOHEAD ≠ K.INVLEN ∧ K.NOHEAD ≠ K.NOTAIL ∧ K.INVLEN ≠ K.NOTAIL

instance (K : QcaFrmConsts) : Decidable K.WF := by
  unfold QcaFrmConsts.WF; infer_instance

/-- A concrete set of constants: initial state `0x8000`, minimum Ethernet length 60 (the
minimum-size frame of the spec's example), `GATHER = 0` and three negative error codes. -/
def refConsts : QcaFrmConsts :=
  { HW_LEN0 := 0x8000, ETHMINLEN := 60, GATHER := 0,
    NOHEAD := -1001, INVLEN := -1003, NOTAIL := -1002 }

/-- Modelled from the spec: `QCAFRM_HEADER_LEN`, "header size = 8 bytes". -/
def QCAFRM_HEADER_LEN : Int := 8

/-- Modelled from the spec: `QCAFRM_FOOTER_LEN`, "footer size = 2 bytes". -/
def QCAFRM_FOOTER_LEN : Int := 2

/-- Modelled from the spec: `QCAFRM_QID_LEN`, "QID tag size = 2 bytes". -/
def QCAFRM_QID_LEN : Int := 2

/-- Modelled from the spec: `QCAFRM_VERSION_SHIFT`; the version's low 3 bits go "into the
top of the length's high byte", that is, they are shifted left by 5. -/
def QCAFRM_VERSION_SHIFT : Nat := 5

/-- Modelled from the spec: `QCAFRM_VERSION_MASK`; the "upper 3 bits" of byte 5. -/
def QCAFRM_VERSION_MASK : Nat := 0xE0

/-- Modelled from the spec: `__cpu_to_le16` on a little-endian host, where the 16-bit value
is already in wire order. -/
def cpu_to_le16 (len : Nat) : Nat := len

/-- Modelled from the spec: the macro `MIN`, the smaller of its two arguments. -/
def MIN (a b : Nat) : Nat := if a < b then a else b

/-! ### The state enumeration

Modelled from the spec: "states form a strictly descending countdown sequence" that starts
at the initial state; the decoder moves from one named state to the next with `state--`.
The two footer states are the end of the countdown that payload gathering runs, which
starts at `len + 1`: `QCAFRM_WAIT_551 = 1` and `QCAFRM_WAIT_552 = 0`. -/

/-- Modelled from the spec: the initial state of the enumeration `QcaFrmState`. -/
def QCAFRM_HW_LEN0 (K : QcaFrmConsts) : Int := K.HW_LEN0
/-- Modelled from the spec: the enumeration `QcaFrmState`, one step below `QCAFRM_HW_LEN0`. -/
def QCAFRM_HW_LEN1 (K : QcaFrmConsts) : Int := K.HW_LEN0 - 1
/-- Modelled from the spec: the enumeration `QcaFrmState`, two steps below the initial state. -/
def QCAFRM_HW_LEN2 (K : QcaFrmConsts) : Int := K.HW_LEN0 - 2
/-- Modelled from the spec: the enumeration `QcaFrmState`, three steps below the initial state. -/
def QCAFRM_HW_LEN3 (K : QcaFrmConsts) : Int := K.HW_LEN0 - 3
/-- Modelled from the spec: the enumeration `QcaFrmState`, first preamble byte. -/
def QCAFRM_WAIT_AA1 (K : QcaFrmConsts) : Int := K.HW_LEN0 - 4
/-- Modelled from the spec: the enumeration `QcaFrmState`, second preamble byte. -/
def QCAFRM_WAIT_AA2 (K : QcaFrmConsts) : Int := K.HW_LEN0 - 5
/-- Modelled from the spec: the enumeration `QcaFrmState`, third preamble byte. -/
def QCAFRM_WAIT_AA3 (K : QcaFrmConsts) : Int := K.HW_LEN0 - 6
/-- Modelled from the spec: the enumeration `QcaFrmState`, fourth preamble byte. -/
def QCAFRM_WAIT_AA4 (K : QcaFrmConsts) : Int := K.HW_LEN0 - 7
/-- Modelled from the spec: the enumeration `QcaFrmState`, low length byte. -/
def QCAFRM_WAIT_LEN_BYTE0 (K : QcaFrmConsts) : Int := K.HW_LEN0 - 8
/-- Modelled from the spec: the enumeration `QcaFrmState`, high length byte. -/
def QCAFRM_WAIT_LEN_BYTE1 (K : QcaFrmConsts) : Int := K.HW_LEN0 - 9
/-- Modelled from the spec: the enumeration `QcaFrmState`, first reserved byte. -/
def QCAFRM_WAIT_RSVD_BYTE1 (K : QcaFrmConsts) : Int := K.HW_LEN0 - 10
/-- Modelled from the spec: the enumeration `QcaFrmState`, second reserved byte. -/
def QCAFRM_WAIT_RSVD_BYTE2 (K : QcaFrmConsts) : Int := K.HW_LEN0 - 11
/-- Modelled from the spec: the enumeration `QcaFrmState`, first footer byte. -/
def QCAFRM_WAIT_551 : Int := 1
/-- Modelled from the spec: the enumeration `QcaFrmState`, second footer byte. -/
def QCAFRM_WAIT_552 : Int := 0

/-- Modelled from the spec: the decoder handle `QcaFrmHdl` with its three fields; `len` and
`offset` are 16-bit unsigned like the payload length and the buffer capacity they are
compared with, `state` holds a value of the enumeration. -/
structure QcaFrmHdl where
  state : Int
  offset : Nat
  len : Nat
deriving DecidableEq

/-! ## The encoder -/

/-- `QcaFrmCreateHeader`: the buffer after the call and the returned length. -/
def QcaFrmCreateHeader (buf : List Nat) (len : Nat) (protocol_version : Nat) : List Nat × Int :=
  let len := cpu_to_le16 len
  let buf := buf.set 0 0xAA
  let buf := buf.set 1 0xAA
  let buf := buf.set 2 0xAA
  let buf := buf.set 3 0xAA
  let buf := buf.set 4 (((len >>> 0) &&& 0xFF) % 256)
  let buf := buf.set 5 (((len >>> 8) &&& 0xFF) % 256)
  let buf := buf.set 6 0
  let buf := buf.set 7 0
  if protocol_version ≠ 0 then
    let temp := buf.getD 5 0
    let buf := buf.set 5 ((((((protocol_version <<< QCAFRM_VERSION_SHIFT) % 4294967296)
                  &&& QCAFRM_VERSION_MASK) ||| temp) &&& 0xFF) % 256)
    let buf := buf.set 6 (((protocol_version >>> (8 - QCAFRM_VERSION_SHIFT)) &&& 0xFF) % 256)
    let buf := buf.set 7 (((protocol_version >>> (16 - QCAFRM_VERSION_SHIFT)) &&& 0xFF) % 256)
    (buf, QCAFRM_HEADER_LEN)
  else
    (buf, QCAFRM_HEADER_LEN)

/-- `QcaFrmCreateFooter`: the buffer after the call and the returned length. -/
def QcaFrmCreateFooter (buf : List Nat) : List Nat × Int :=
  let buf := buf.set 0 0x55
  let buf := buf.set 1 0x55
  (buf, QCAFRM_FOOTER_LEN)

/-- `QcaFrmAddQID`: the buffer after the call and the returned length. -/
def QcaFrmAddQID (buf : List Nat) (qid : Nat) : List Nat × Int :=
  let buf := buf.set 0 0x00
  let buf := buf.set 1 qid
  (buf, QCAFRM_QID_LEN)

/-! ## The decoder -/

/-- `QcaFrmFsmInit`: only the state field is written. -/
def QcaFrmFsmInit (K : QcaFrmConsts) (frmHdl : QcaFrmHdl) : QcaFrmHdl :=
  { frmHdl with state := QCAFRM_HW_LEN0 K }

/-- `memcpy(&buf[off], src, n)` with `src` holding exactly the `n` bytes copied: byte `i`
of `src` is stored at index `off + i`. -/
def memcpy : List Nat → Nat → List Nat → List Nat
  | buf, _, [] => buf
  | buf, off, b :: src => memcpy (buf.set off b) (off + 1) src

/-- What one call of `QcaFrmFsmDecode` leaves behind: the returned code, `*bytes_proc`, the
handle and the output buffer. -/
structure DecodeOut where
  ret : Int
  bytes_proc : Nat
  frmHdl : QcaFrmHdl
  buf : List Nat
deriving DecidableEq

/-- `QcaFrmFsmDecode`.  `recvBuf` is the input chunk and `recvLen` its length; the first
byte is read unconditionally, so callers pass a non-empty chunk.  The `switch` is an
if-chain over the case labels in source order, with `default` last. -/
def QcaFrmFsmDecode (K : QcaFrmConsts) (frmHdl : QcaFrmHdl) (buf : List Nat) (buf_len : Nat)
    (recvBuf : List Nat) : DecodeOut :=
  let recvLen := recvBuf.length
  let recvByte := recvBuf.headD 0
  let s := frmHdl.state
  if s = QCAFRM_HW_LEN0 K ∨ s = QCAFRM_HW_LEN1 K then
    if recvByte ≠ 0x00 then
      ⟨K.GATHER, 1, { frmHdl with state := QCAFRM_HW_LEN0 K }, buf⟩
    else
      ⟨K.GATHER, 1, { frmHdl with state := s - 1 }, buf⟩
  else if s = QCAFRM_HW_LEN2 K ∨ s = QCAFRM_HW_LEN3 K then
    ⟨K.GATHER, 1, { frmHdl with state := s - 1 }, buf⟩
  else if s = QCAFRM_WAIT_AA1 K ∨ s = QCAFRM_WAIT_AA2 K ∨ s = QCAFRM_WAIT_AA3 K
      ∨ s = QCAFRM_WAIT_AA4 K then
    if recvByte ≠ 0xAA then
      ⟨K.NOHEAD, 1, { frmHdl with state := QCAFRM_HW_LEN0 K }, buf⟩
    else
      ⟨K.GATHER, 1, { frmHdl with state := s - 1 }, buf⟩
  else if s = QCAFRM_WAIT_LEN_BYTE0 K then
    ⟨K.GATHER, 1, { frmHdl with len := recvByte % 65536, state := s - 1 }, buf⟩
  else if s = QCAFRM_WAIT_LEN_BYTE1 K then
    ⟨K.GATHER, 1,
      { frmHdl with len := (frmHdl.len ||| (recvByte <<< 8)) % 65536, state := s - 1 }, buf⟩
  else if s = QCAFRM_WAIT_RSVD_BYTE1 K then
    ⟨K.GATHER, 1, { frmHdl with state := s - 1 }, buf⟩
  else if s = QCAFRM_WAIT_RSVD_BYTE2 K then
    if frmHdl.len > buf_len ∨ frmHdl.len < K.ETHMINLEN then
      ⟨K.INVLEN, 1, { frmHdl with state := QCAFRM_HW_LEN0 K }, buf⟩
    else
      ⟨K.GATHER, 1, { frmHdl with state := (frmHdl.len : Int) + 1, offset := 0 }, buf⟩
  else if s = QCAFRM_WAIT_551 then
    if recvByte ≠ 0x55 then
      ⟨K.NOTAIL, 1, { frmHdl with state := QCAFRM_HW_LEN0 K }, buf⟩
    else
      ⟨K.GATHER, 1, { frmHdl with state := s - 1 }, buf⟩
  else if s = QCAFRM_WAIT_552 then
    if recvByte ≠ 0x55 then
      ⟨K.NOTAIL, 1, { frmHdl with state := QCAFRM_HW_LEN0 K }, buf⟩
    else
      ⟨(frmHdl.offset : Int), 1, { frmHdl with state := QCAFRM_HW_LEN0 K }, buf⟩
  else
    -- `frmHdl->len - frmHdl->offset` is an `int`; `MIN` compares it with the `uint32_t`
    -- `recvLen`, so it is converted to 32 bits unsigned; the result goes into a `uint16_t`.
    let len := (MIN recvLen ((((frmHdl.len : Int) - (frmHdl.offset : Int)) % 4294967296).toNat))
                % 65536
    ⟨K.GATHER, len,
      { frmHdl with state := s - (len : Int), offset := (frmHdl.offset + len) % 65536 },
      memcpy buf frmHdl.offset (recvBuf.take len)⟩

/-! ## The caller's loop

Modelled from the spec: "callers must advance their input cursor by that amount and
re-invoke for leftover bytes".  A run records every call. -/

/-- The decoder handle, the output buffer, and the log of the calls made so far: the
returned code and `bytes_proc` of each call, oldest first. -/
structure Run where
  frmHdl : QcaFrmHdl
  buf : List Nat
  log : List (Int × Nat)
deriving DecidableEq

/-- One call of `QcaFrmFsmDecode` on the chunk `recvBuf`, recorded in the log. -/
def Run.call (K : QcaFrmConsts) (buf_len : Nat) (r : Run) (recvBuf : List Nat) : Run :=
  let o := QcaFrmFsmDecode K r.frmHdl r.buf buf_len recvBuf
  { frmHdl := o.frmHdl, buf := o.buf, log := r.log ++ [(o.ret, o.bytes_proc)] }

/-- Modelled from the spec: the caller's loop over one chunk.  `QcaFrmFsmDecode` is called
on the bytes of the chunk that are left and the cursor advances by `bytes_proc`, until the
chunk is used up.  `fuel` bounds the number of calls; `none` means the loop did not finish
within `fuel` calls. -/
def feed (K : QcaFrmConsts) (buf_len : Nat) : Nat → Run → List Nat → Option Run
  | _, r, [] => some r
  | 0, _, _ :: _ => none
  | fuel + 1, r, b :: rest =>
      let r1 := r.call K buf_len (b :: rest)
      let bytes_proc := (QcaFrmFsmDecode K r.frmHdl r.buf buf_len (b :: rest)).bytes_proc
      feed K buf_len fuel r1 ((b :: rest).drop bytes_proc)

/-- Modelled from the spec: the caller's loop over a sequence of chunks, one chunk after
the other, each with as many calls allowed as the chunk has bytes. -/
def feedChunks (K : QcaFrmConsts) (buf_len : Nat) : Run → List (List Nat) → Option Run
  | r, [] => some r
  | r, c :: cs => (feed K buf_len c.length r c).bind (fun r1 => feedChunks K buf_len r1 cs)

/-- The decoder driven one byte per call: `QcaFrmFsmDecode` on the one-byte chunk `[b]`
for every byte `b` of the stream. -/
def runBytes (K : QcaFrmConsts) (buf_len : Nat) (r : Run) (bytes : List Nat) : Run :=
  bytes.foldl (fun r b => r.call K buf_len [b]) r

/-- Number of input bytes consumed by the calls of a log. -/
def consumed (log : List (Int × Nat)) : Nat := (log.map Prod.snd).sum

/-- The calls of a log that returned something else than `GATHER`: for each, the number of
input bytes consumed up to and including that call, and the returned code.  `pos` is the
number of bytes consumed before the log starts. -/
def events (K : QcaFrmConsts) : Nat → List (Int × Nat) → List (Nat × Int)
  | _, [] => []
  | pos, (ret, n) :: log =>
      if ret = K.GATHER then events K (pos + n) log
      else (pos + n, ret) :: events K (pos + n) log

/-- A run that starts with the handle `h`, the output buffer `buf` and an empty log. -/
def Run.start (h : QcaFrmHdl) (buf : List Nat) : Run := { frmHdl := h, buf := buf, log := [] }

/-- The encoded frame: header for the payload's length, payload, footer. -/
def encodeFrame (payload : List Nat) (protocol_version : Nat) : List Nat :=
  (QcaFrmCreateHeader (List.replicate 8 0) payload.length protocol_version).1
    ++ payload ++ (QcaFrmCreateFooter (List.replicate 2 0)).1

/-- The named states of the enumeration: the twelve header states and the two footer
states.  Every other state value is handled by the `default` branch (payload gathering). -/
def isNamed (K : QcaFrmConsts) (s : Int) : Prop :=
  (K.HW_LEN0 - 11 ≤ s ∧ s ≤ K.HW_LEN0) ∨ s = QCAFRM_WAIT_551 ∨ s = QCAFRM_WAIT_552

instance (K : QcaFrmConsts) (s : Int) : Decidable (isNamed K s) := by
  unfold isNamed; infer_instance

/-! ## Reachable handles and invariants -/

/-- The handles reachable from `QcaFrmFsmInit` (applied to a handle with arbitrary `len`
and `offset`) by calls of `QcaFrmFsmDecode` with any output buffer, capacity and input
chunk. -/
inductive Reach (K : QcaFrmConsts) : QcaFrmHdl → Prop
  | init (h : QcaFrmHdl) : Reach K (QcaFrmFsmInit K h)
  | decode (h : QcaFrmHdl) (buf : List Nat) (buf_len : Nat) (recvBuf : List Nat) :
      Reach K h → Reach K (QcaFrmFsmDecode K h buf buf_len recvBuf).frmHdl

/-- Invariant of the reachable handles: `len` is a 16-bit value once the decoder is past
the length bytes, and in a gathering state (`default` branch) `offset ≤ len` and the state
is `len + 1 - offset`. -/
def HdlInv (K : QcaFrmConsts) (h : QcaFrmHdl) : Prop :=
  ((K.HW_LEN0 - 9 ≤ h.state ∧ h.state ≤ K.HW_LEN0) ∨ h.len < 65536)
  ∧ (¬ isNamed K h.state → h.offset ≤ h.len ∧ h.state = (h.len : Int) + 1 - (h.offset : Int))

/-- A handle whose gathering countdown `len + 1 - offset` stays below the named header
states: `offset ≤ len`, the state is `len + 1 - offset`, `len` is a 16-bit value and
`len + 1` lies below `QCAFRM_WAIT_RSVD_BYTE2`. -/
def GatherOK (K : QcaFrmConsts) (h : QcaFrmHdl) : Prop :=
  h.offset ≤ h.len ∧ h.state = (h.len : Int) + 1 - (h.offset : Int) ∧ h.len < 65536
  ∧ (h.len : Int) + 1 < K.HW_LEN0 - 11

/-- A handle that is in a named state or gathers with `GatherOK`. -/
def StepOK (K : QcaFrmConsts) (h : QcaFrmHdl) : Prop :=
  ¬ isNamed K h.state → GatherOK K h

/-- Every handle met while the bytes are decoded one byte per call satisfies `StepOK`. -/
def AllOK (K : QcaFrmConsts) (buf_len : Nat) : Run → List Nat → Prop
  | _, [] => True
  | r, b :: bs => StepOK K r.frmHdl ∧ AllOK K buf_len (r.call K buf_len [b]) bs

/-- Two runs that agree on everything but the calls that returned `GATHER`: same handle,
same output buffer, same number of bytes consumed, and the same calls with a result other
than `GATHER` at the same positions of the input. -/
def Run.Equiv (K : QcaFrmConsts) (r r' : Run) : Prop :=
  r.frmHdl = r'.frmHdl ∧ r.buf = r'.buf ∧ consumed r.log = consumed r'.log
  ∧ events K 0 r.log = events K 0 r'.log

/-- The handles reachable from `QcaFrmFsmInit` by calls of `QcaFrmFsmDecode` that all pass
the same output capacity `C` (any output buffer, any input chunk). -/
inductive ReachCap (K : QcaFrmConsts) (C : Nat) : QcaFrmHdl → Prop
  | init (h : QcaFrmHdl) : ReachCap K C (QcaFrmFsmInit K h)
  | decode (h : QcaFrmHdl) (buf : List Nat) (recvBuf : List Nat) :
      ReachCap K C h → ReachCap K C (QcaFrmFsmDecode K h buf C recvBuf).frmHdl

/-- Invariant of the reachable handles in the two footer states: all of the payload has
been copied, `offset = len`. -/
def FootInv (h : QcaFrmHdl) : Prop :=
  (h.state = QCAFRM_WAIT_551 ∨ h.state = QCAFRM_WAIT_552) → h.offset = h.len

/-- Invariant of the handles reachable with one capacity `C`: outside the twelve header
states (that is, while gathering and in the footer states) `len` has passed the length
check against `C`. -/
def CapInv (K : QcaFrmConsts) (C : Nat) (h : QcaFrmHdl) : Prop :=
  ¬ (K.HW_LEN0 - 11 ≤ h.state ∧ h.state ≤ K.HW_LEN0) → K.ETHMINLEN ≤ h.len ∧ h.len ≤ C

/-- A sequence of calls of `QcaFrmFsmDecode`: call `i` gets the capacity and the input chunk
of the `i`-th pair, the handle and the output buffer left by the call before.  The result
is what every call leaves behind (`ret`, `bytes_proc`, handle, output buffer). -/
def decodeCalls (K : QcaFrmConsts) : QcaFrmHdl → List Nat → List (Nat × List Nat) → List DecodeOut
  | _, _, [] => []
  | h, buf, (buf_len, recvBuf) :: rest =>
      QcaFrmFsmDecode K h buf buf_len recvBuf
        :: decodeCalls K (QcaFrmFsmDecode K h buf buf_len recvBuf).frmHdl
            (QcaFrmFsmDecode K h buf buf_len recvBuf).buf rest

/-- The four states whose input byte is not looked at: `QCAFRM_HW_LEN2`, `QCAFRM_HW_LEN3`,
`QCAFRM_WAIT_RSVD_BYTE1` and `QCAFRM_WAIT_RSVD_BYTE2`. -/
def isIgnoring (K : QcaFrmConsts) (s : Int) : Prop :=
  s = QCAFRM_HW_LEN2 K ∨ s = QCAFRM_HW_LEN3 K ∨ s = QCAFRM_WAIT_RSVD_BYTE1 K
    ∨ s = QCAFRM_WAIT_RSVD_BYTE2 K

/-- Two sequences of calls that pass the same capacities and the same input chunks, except
that the chunks of a call may differ when the handle is in one of the four states of
`isIgnoring` at that call (the handles are those of the first sequence). -/
def SameButIgnored (K : QcaFrmConsts) :
    QcaFrmHdl → List Nat → List (Nat × List Nat) → List (Nat × List Nat) → Prop
  | _, _, [], [] => True
  | h, buf, (buf_len, recvBuf) :: rest, (buf_len', recvBuf') :: rest' =>
      buf_len = buf_len' ∧ (recvBuf = recvBuf' ∨ isIgnoring K h.state)
      ∧ SameButIgnored K (QcaFrmFsmDecode K h buf buf_len recvBuf).frmHdl
          (QcaFrmFsmDecode K h buf buf_len recvBuf).buf rest rest'
  | _, _, [], _ :: _ => False
  | _, _, _ :: _, [] => False

instance (K : QcaFrmConsts) (s : Int) : Decidable (isIgnoring K s) := by
  unfold isIgnoring; infer_instance

/-- `SameButIgnored` can be decided by running the first sequence of calls. -/
def SameButIgnored.dec (K : QcaFrmConsts) :
    (h : QcaFrmHdl) → (buf : List Nat) → (calls calls' : List (Nat × List Nat)) →
    Decidable (SameButIgnored K h buf calls calls')
  | _, _, [], [] => isTrue trivial
  | h, buf, (buf_len, recvBuf) :: rest, (buf_len', recvBuf') :: rest' =>
      have : Decidable (SameButIgnored K (QcaFrmFsmDecode K h buf buf_len recvBuf).frmHdl
          (QcaFrmFsmDecode K h buf buf_len recvBuf).buf rest rest') :=
        SameButIgnored.dec K _ _ rest rest'
      inferInstanceAs (Decidable (buf_len = buf_len' ∧ (recvBuf = recvBuf' ∨ isIgnoring K h.state)
        ∧ SameButIgnored K (QcaFrmFsmDecode K h buf buf_len recvBuf).frmHdl
            (QcaFrmFsmDecode K h buf buf_len recvBuf).buf rest rest'))
  | _, _, [], _ :: _ => isFalse (fun h => h)
  | _, _, _ :: _, [] => isFalse (fun h => h)

instance (K : QcaFrmConsts) (h : QcaFrmHdl) (buf : List Nat)
    (calls calls' : List (Nat × List Nat)) : Decidable (SameButIgnored K h buf calls calls') :=
  SameButIgnored.dec K h buf calls calls'

/-- Two handles in the same state that agree on every field the decoder can read before it
writes it: `len` from `QCAFRM_WAIT_LEN_BYTE1` on, `offset` once the length is validated. -/
def StaleRel (K : QcaFrmConsts) (h1 h2 : QcaFrmHdl) : Prop :=
  h1.state = h2.state
  ∧ ((h1.state < K.HW_LEN0 - 8 ∨ K.HW_LEN0 < h1.state) → h1.len = h2.len)
  ∧ ((h1.state < K.HW_LEN0 - 11 ∨ K.HW_LEN0 < h1.state) → h1.offset = h2.offset)

/-- What the state says about the bytes decoded so far, for the states between the initial
state and `QCAFRM_WAIT_AA1`: in `QCAFRM_HW_LEN1` the last byte was `00`, in
`QCAFRM_HW_LEN2` the last two bytes were `00 00`, in `QCAFRM_HW_LEN3` they were followed by
one more byte and in `QCAFRM_WAIT_AA1` by two more bytes. -/
def HwHistory (K : QcaFrmConsts) (bytes : List Nat) (st : Int) : Prop :=
  (st = QCAFRM_HW_LEN1 K → ∃ pre, bytes = pre ++ [0])
  ∧ (st = QCAFRM_HW_LEN2 K → ∃ pre, bytes = pre ++ [0, 0])
  ∧ (st = QCAFRM_HW_LEN3 K → ∃ pre x, bytes = pre ++ [0, 0, x])
  ∧ (st = QCAFRM_WAIT_AA1 K → ∃ pre x y, bytes = pre ++ [0, 0, x, y])

/-- What a run of the caller's loop leaves behind when everything a call returns is kept:
the decoder handle, the output buffer, and for every call made so far its result,
`bytes_proc`, and the handle and output buffer after the call, oldest first. -/
structure Trace where
  frmHdl : QcaFrmHdl
  buf : List Nat
  outs : List DecodeOut
deriving DecidableEq

/-- One call of `QcaFrmFsmDecode` on the chunk `recvBuf`, recorded in full. -/
def Trace.call (K : QcaFrmConsts) (buf_len : Nat) (t : Trace) (recvBuf : List Nat) : Trace :=
  let o := QcaFrmFsmDecode K t.frmHdl t.buf buf_len recvBuf
  { frmHdl := o.frmHdl, buf := o.buf, outs := t.outs ++ [o] }

/-- Modelled from the spec: the caller's loop over one chunk, as `feed`, with every call
recorded in full. -/
def feedTrace (K : QcaFrmConsts) (buf_len : Nat) : Nat → Trace → List Nat → Option Trace
  | _, t, [] => some t
  | 0, _, _ :: _ => none
  | fuel + 1, t, b :: rest =>
      let t1 := t.call K buf_len (b :: rest)
      let bytes_proc := (QcaFrmFsmDecode K t.frmHdl t.buf buf_len (b :: rest)).bytes_proc
      feedTrace K buf_len fuel t1 ((b :: rest).drop bytes_proc)

/-- Modelled from the spec: the caller's loop over a sequence of chunks, as `feedChunks`,
with every call recorded in full. -/
def feedChunksTrace (K : QcaFrmConsts) (buf_len : Nat) : Trace → List (List Nat) → Option Trace
  | t, [] => some t
  | t, c :: cs =>
      (feedTrace K buf_len c.length t c).bind (fun t1 => feedChunksTrace K buf_len t1 cs)

/-- A trace that starts with the handle `h`, the output buffer `buf` and no call made. -/
def Trace.start (h : QcaFrmHdl) (buf : List Nat) : Trace := { frmHdl := h, buf := buf, outs := [] }

/-- The run of a trace: the same handle and buffer, and of every call only the result and
`bytes_proc`. -/
def Trace.toRun (t : Trace) : Run :=
  { frmHdl := t.frmHdl, buf := t.buf, log := t.outs.map (fun o => (o.ret, o.bytes_proc)) }

/-- Two chunks that differ only in bytes consumed in the four states of `isIgnoring`, when
the first chunk is fed through the caller's loop from the handle `h` and the output buffer
`buf`: the chunks have the same length, and at every call of the loop either the handle is
in one of the four states or the bytes the call consumes are the same in both chunks.
Bytes the loop does not get to (no calls left) are the same. -/
def SameFed (K : QcaFrmConsts) (buf_len : Nat) :
    Nat → QcaFrmHdl → List Nat → List Nat → List Nat → Prop
  | _, _, _, [], c' => c' = []
  | 0, _, _, b :: rest, c' => c' = b :: rest
  | fuel + 1, h, buf, b :: rest, c' =>
      c'.length = (b :: rest).length
      ∧ (isIgnoring K h.state
          ∨ c'.take (QcaFrmFsmDecode K h buf buf_len (b :: rest)).bytes_proc
              = (b :: rest).take (QcaFrmFsmDecode K h buf buf_len (b :: rest)).bytes_proc)
      ∧ SameFed K buf_len fuel (QcaFrmFsmDecode K h buf buf_len (b :: rest)).frmHdl
          (QcaFrmFsmDecode K h buf buf_len (b :: rest)).buf
          ((b :: rest).drop (QcaFrmFsmDecode K h buf buf_len (b :: rest)).bytes_proc)
          (c'.drop (QcaFrmFsmDecode K h buf buf_len (b :: rest)).bytes_proc)

/-- Two input streams, each given as its sequence of chunks, that differ only in bytes
consumed in the four states of `isIgnoring` when the first stream is fed through the
caller's loop: the same number of chunks, and chunk by chunk `SameFed`, from the handle and
the output buffer the chunks before have left. -/
def SameStream (K : QcaFrmConsts) (buf_len : Nat) :
    Trace → List (List Nat) → List (List Nat) → Prop
  | _, [], cs' => cs' = []
  | _, _ :: _, [] => False
  | t, c :: cs, c' :: cs' =>
      SameFed K buf_len c.length t.frmHdl t.buf c c'
      ∧ (∀ t1, feedTrace K buf_len c.length t c = some t1 → SameStream K buf_len t1 cs cs')
      ∧ (feedTrace K buf_len c.length t c = none → cs' = cs)

/-- `SameFed` can be decided by running the caller's loop on the first chunk. -/
def SameFed.dec (K : QcaFrmConsts) (buf_len : Nat) :
    (fuel : Nat) → (h : QcaFrmHdl) → (buf c c' : List Nat) →
    Decidable (SameFed K buf_len fuel h buf c c')
  | 0, _, _, [], c' => inferInstanceAs (Decidable (c' = []))
  | _ + 1, _, _, [], c' => inferInstanceAs (Decidable (c' = []))
  | 0, _, _, b :: rest, c' => inferInstanceAs (Decidable (c' = b :: rest))
  | fuel + 1, h, buf, b :: rest, c' =>
      have : Decidable (SameFed K buf_len fuel (QcaFrmFsmDecode K h buf buf_len (b :: rest)).frmHdl
          (QcaFrmFsmDecode K h buf buf_len (b :: rest)).buf
          ((b :: rest).drop (QcaFrmFsmDecode K h buf buf_len (b :: rest)).bytes_proc)
          (c'.drop (QcaFrmFsmDecode K h buf buf_len (b :: rest)).bytes_proc)) :=
        SameFed.dec K buf_len fuel _ _ _ _
      inferInstanceAs (Decidable (c'.length = (b :: rest).length
        ∧ (isIgnoring K h.state
            ∨ c'.take (QcaFrmFsmDecode K h buf buf_len (b :: rest)).bytes_proc
                = (b :: rest).take (QcaFrmFsmDecode K h buf buf_len (b :: rest)).bytes_proc)
        ∧ SameFed K buf_len fuel (QcaFrmFsmDecode K h buf buf_len (b :: rest)).frmHdl
            (QcaFrmFsmDecode K h buf buf_len (b :: rest)).buf
            ((b :: rest).drop (QcaFrmFsmDecode K h buf buf_len (b :: rest)).bytes_proc)
            (c'.drop (QcaFrmFsmDecode K h buf buf_len (b :: rest)).bytes_proc)))

instance (K : QcaFrmConsts) (buf_len fuel : Nat) (h : QcaFrmHdl) (buf c c' : List Nat) :
    Decidable (SameFed K buf_len fuel h buf c c') :=
  SameFed.dec K buf_len fuel h buf c c'

/-- `SameStream` can be decided by running the caller's loop on the first stream. -/
def SameStream.dec (K : QcaFrmConsts) (buf_len : Nat) :
    (t : Trace) → (cs cs' : List (List Nat)) → Decidable (SameStream K buf_len t cs cs')
  | _, [], cs' => inferInstanceAs (Decidable (cs' = []))
  | _, _ :: _, [] => isFalse (fun h => h)
  | t, c :: cs, c' :: cs' =>
      match hf : feedTrace K buf_len c.length t c with
      | some t1 =>
          have : Decidable (SameStream K buf_len t1 cs cs') := SameStream.dec K buf_len t1 cs cs'
          decidable_of_iff
            (SameFed K buf_len c.length t.frmHdl t.buf c c' ∧ SameStream K buf_len t1 cs cs')
            ⟨fun p => ⟨p.1, fun t2 e => by rw [hf] at e; cases e; exact p.2,
                fun e => (by rw [hf] at e; cases e)⟩,
              fun p => ⟨p.1, p.2.1 t1 hf⟩⟩
      | none =>
          decidable_of_iff (SameFed K buf_len c.length t.frmHdl t.buf c c' ∧ cs' = cs)
            ⟨fun p => ⟨p.1, fun t2 e => (by rw [hf] at e; cases e), fun _ => p.2⟩,
              fun p => ⟨p.1, p.2.2 hf⟩⟩

instance (K : QcaFrmConsts) (buf_len : Nat) (t : Trace) (cs cs' : List (List Nat)) :
    Decidable (SameStream K buf_len t cs cs') :=
  SameStream.dec K buf_len t cs cs'

/-- Invariant of the reachable handles outside the twelve header states (that is, while
gathering and in the footer states): `len` is not one of the twelve lengths
`HW_LEN0 - 12 .. HW_LEN0 - 1` for which `len + 1` is the value of a header state. -/
def OverlayInv (K : QcaFrmConsts) (h : QcaFrmHdl) : Prop :=
  ¬ (K.HW_LEN0 - 11 ≤ h.state ∧ h.state ≤ K.HW_LEN0) →
    ¬ (K.HW_LEN0 - 12 ≤ (h.len : Int) ∧ (h.len : Int) ≤ K.HW_LEN0 - 1)

/-- The value of the local variable `len` in the `default` branch of `QcaFrmFsmDecode`. -/
def gatherLen (frmHdl : QcaFrmHdl) (recvLen : Nat) : Nat :=
  (MIN recvLen ((((frmHdl.len : Int) - (frmHdl.offset : Int)) % 4294967296).toNat)) % 65536

/-! ## One lemma per branch of the `switch` -/

theorem decode_hw_len01 (K : QcaFrmConsts) (frmHdl : QcaFrmHdl) (buf : List Nat)
    (buf_len : Nat) (recvBuf : List Nat)
    (hs : frmHdl.state = QCAFRM_HW_LEN0 K ∨ frmHdl.state = QCAFRM_HW_LEN1 K) :
    QcaFrmFsmDecode K frmHdl buf buf_len recvBuf =
      if recvBuf.headD 0 ≠ 0x00 then
        ⟨K.GATHER, 1, { frmHdl with state := QCAFRM_HW_LEN0 K }, buf⟩
      else ⟨K.GATHER, 1, { frmHdl with state := frmHdl.state - 1 }, buf⟩ := by
  unfold QcaFrmFsmDecode
  exact if_pos hs

theorem decode_hw_len23 (K : QcaFrmConsts) (frmHdl : QcaFrmHdl) (buf : List Nat)
    (buf_len : Nat) (recvBuf : List Nat)
    (hs : frmHdl.state = QCAFRM_HW_LEN2 K ∨ frmHdl.state = QCAFRM_HW_LEN3 K) :
    QcaFrmFsmDecode K frmHdl buf buf_len recvBuf =
      ⟨K.GATHER, 1, { frmHdl with state := frmHdl.state - 1 }, buf⟩ := by
  unfold QcaFrmFsmDecode
  simp only [QCAFRM_HW_LEN0, QCAFRM_HW_LEN1, QCAFRM_HW_LEN2, QCAFRM_HW_LEN3] at hs ⊢
  repeat rw [if_neg (by omega)]
  rw [if_pos (by omega)]

theorem decode_wait_aa (K : QcaFrmConsts) (frmHdl : QcaFrmHdl) (buf : List Nat)
    (buf_len : Nat) (recvBuf : List Nat)
    (hs : frmHdl.state = QCAFRM_WAIT_AA1 K ∨ frmHdl.state = QCAFRM_WAIT_AA2 K
      ∨ frmHdl.state = QCAFRM_WAIT_AA3 K ∨ frmHdl.state = QCAFRM_WAIT_AA4 K) :
    QcaFrmFsmDecode K frmHdl buf buf_len recvBuf =
      if recvBuf.headD 0 ≠ 0xAA then
        ⟨K.NOHEAD, 1, { frmHdl with state := QCAFRM_HW_LEN0 K }, buf⟩
      else ⟨K.GATHER, 1, { frmHdl with state := frmHdl.state - 1 }, buf⟩ := by
  unfold QcaFrmFsmDecode
  simp only [QCAFRM_HW_LEN0, QCAFRM_HW_LEN1, QCAFRM_HW_LEN2, QCAFRM_HW_LEN3, QCAFRM_WAIT_AA1,
    QCAFRM_WAIT_AA2, QCAFRM_WAIT_AA3, QCAFRM_WAIT_AA4] at hs ⊢
  repeat rw [if_neg (by omega)]
  rw [if_pos (by omega)]

theorem decode_len_byte0 (K : QcaFrmConsts) (frmHdl : QcaFrmHdl) (buf : List Nat)
    (buf_len : Nat) (recvBuf : List Nat) (hs : frmHdl.state = QCAFRM_WAIT_LEN_BYTE0 K) :
    QcaFrmFsmDecode K frmHdl buf buf_len recvBuf =
      ⟨K.GATHER, 1,
        { frmHdl with len := recvBuf.headD 0 % 65536, state := frmHdl.state - 1 }, buf⟩ := by
  unfold QcaFrmFsmDecode
  simp only [QCAFRM_HW_LEN0, QCAFRM_HW_LEN1, QCAFRM_HW_LEN2, QCAFRM_HW_LEN3, QCAFRM_WAIT_AA1,
    QCAFRM_WAIT_AA2, QCAFRM_WAIT_AA3, QCAFRM_WAIT_AA4, QCAFRM_WAIT_LEN_BYTE0] at hs ⊢
  repeat rw [if_neg (by omega)]
  rw [if_pos (by omega)]

theorem decode_len_byte1 (K : QcaFrmConsts) (frmHdl : QcaFrmHdl) (buf : List Nat)
    (buf_len : Nat) (recvBuf : List Nat) (hs : frmHdl.state = QCAFRM_WAIT_LEN_BYTE1 K) :
    QcaFrmFsmDecode K frmHdl buf buf_len recvBuf =
      ⟨K.GATHER, 1,
        { frmHdl with len := (frmHdl.len ||| (recvBuf.headD 0 <<< 8)) % 65536,
                      state := frmHdl.state - 1 }, buf⟩ := by
  unfold QcaFrmFsmDecode
  simp only [QCAFRM_HW_LEN0, QCAFRM_HW_LEN1, QCAFRM_HW_LEN2, QCAFRM_HW_LEN3, QCAFRM_WAIT_AA1,
    QCAFRM_WAIT_AA2, QCAFRM_WAIT_AA3, QCAFRM_WAIT_AA4, QCAFRM_WAIT_LEN_BYTE0,
    QCAFRM_WAIT_LEN_BYTE1] at hs ⊢
  repeat rw [if_neg (by omega)]
  rw [if_pos (by omega)]

theorem decode_rsvd1 (K : QcaFrmConsts) (frmHdl : QcaFrmHdl) (buf : List Nat)
    (buf_len : Nat) (recvBuf : List Nat) (hs : frmHdl.state = QCAFRM_WAIT_RSVD_BYTE1 K) :
    QcaFrmFsmDecode K frmHdl buf buf_len recvBuf =
      ⟨K.GATHER, 1, { frmHdl with state := frmHdl.state - 1 }, buf⟩ := by
  unfold QcaFrmFsmDecode
  simp only [QCAFRM_HW_LEN0, QCAFRM_HW_LEN1, QCAFRM_HW_LEN2, QCAFRM_HW_LEN3, QCAFRM_WAIT_AA1,
    QCAFRM_WAIT_AA2, QCAFRM_WAIT_AA3, QCAFRM_WAIT_AA4, QCAFRM_WAIT_LEN_BYTE0,
    QCAFRM_WAIT_LEN_BYTE1, QCAFRM_WAIT_RSVD_BYTE1] at hs ⊢
  repeat rw [if_neg (by omega)]
  rw [if_pos (by omega)]

theorem decode_rsvd2 (K : QcaFrmConsts) (frmHdl : QcaFrmHdl) (buf : List Nat)
    (buf_len : Nat) (recvBuf : List Nat) (hs : frmHdl.state = QCAFRM_WAIT_RSVD_BYTE2 K) :
    QcaFrmFsmDecode K frmHdl buf buf_len recvBuf =
      if frmHdl.len > buf_len ∨ frmHdl.len < K.ETHMINLEN then
        ⟨K.INVLEN, 1, { frmHdl with state := QCAFRM_HW_LEN0 K }, buf⟩
      else
        ⟨K.GATHER, 1, { frmHdl with state := (frmHdl.len : Int) + 1, offset := 0 }, buf⟩ := by
  unfold QcaFrmFsmDecode
  simp only [QCAFRM_HW_LEN0, QCAFRM_HW_LEN1, QCAFRM_HW_LEN2, QCAFRM_HW_LEN3, QCAFRM_WAIT_AA1,
    QCAFRM_WAIT_AA2, QCAFRM_WAIT_AA3, QCAFRM_WAIT_AA4, QCAFRM_WAIT_LEN_BYTE0,
    QCAFRM_WAIT_LEN_BYTE1, QCAFRM_WAIT_RSVD_BYTE1, QCAFRM_WAIT_RSVD_BYTE2] at hs ⊢
  repeat rw [if_neg (by omega)]
  rw [if_pos (by omega)]

theorem decode_wait_551 (K : QcaFrmConsts) (h13 : 13 ≤ K.HW_LEN0) (frmHdl : QcaFrmHdl)
    (buf : List Nat) (buf_len : Nat) (recvBuf : List Nat)
    (hs : frmHdl.state = QCAFRM_WAIT_551) :
    QcaFrmFsmDecode K frmHdl buf buf_len recvBuf =
      if recvBuf.headD 0 ≠ 0x55 then
        ⟨K.NOTAIL, 1, { frmHdl with state := QCAFRM_HW_LEN0 K }, buf⟩
      else ⟨K.GATHER, 1, { frmHdl with state := frmHdl.state - 1 }, buf⟩ := by
  unfold QcaFrmFsmDecode
  simp only [QCAFRM_HW_LEN0, QCAFRM_HW_LEN1, QCAFRM_HW_LEN2, QCAFRM_HW_LEN3, QCAFRM_WAIT_AA1,
    QCAFRM_WAIT_AA2, QCAFRM_WAIT_AA3, QCAFRM_WAIT_AA4, QCAFRM_WAIT_LEN_BYTE0,
    QCAFRM_WAIT_LEN_BYTE1, QCAFRM_WAIT_RSVD_BYTE1, QCAFRM_WAIT_RSVD_BYTE2, QCAFRM_WAIT_551]
    at hs ⊢
  repeat rw [if_neg (by omega)]
  rw [if_pos (by omega)]

theorem decode_wait_552 (K : QcaFrmConsts) (h13 : 13 ≤ K.HW_LEN0) (frmHdl : QcaFrmHdl)
    (buf : List Nat) (buf_len : Nat) (recvBuf : List Nat)
    (hs : frmHdl.state = QCAFRM_WAIT_552) :
    QcaFrmFsmDecode K frmHdl buf buf_len recvBuf =
      if recvBuf.headD 0 ≠ 0x55 then
        ⟨K.NOTAIL, 1, { frmHdl with state := QCAFRM_HW_LEN0 K }, buf⟩
      else ⟨(frmHdl.offset : Int), 1, { frmHdl with state := QCAFRM_HW_LEN0 K }, buf⟩ := by
  unfold QcaFrmFsmDecode
  simp only [QCAFRM_HW_LEN0, QCAFRM_HW_LEN1, QCAFRM_HW_LEN2, QCAFRM_HW_LEN3, QCAFRM_WAIT_AA1,
    QCAFRM_WAIT_AA2, QCAFRM_WAIT_AA3, QCAFRM_WAIT_AA4, QCAFRM_WAIT_LEN_BYTE0,
    QCAFRM_WAIT_LEN_BYTE1, QCAFRM_WAIT_RSVD_BYTE1, QCAFRM_WAIT_RSVD_BYTE2, QCAFRM_WAIT_551,
    QCAFRM_WAIT_552] at hs ⊢
  repeat rw [if_neg (by omega)]
  rw [if_pos (by omega)]

theorem decode_default (K : QcaFrmConsts) (frmHdl : QcaFrmHdl) (buf : List Nat)
    (buf_len : Nat) (recvBuf : List Nat) (hs : ¬ isNamed K frmHdl.state) :
    QcaFrmFsmDecode K frmHdl buf buf_len recvBuf =
      ⟨K.GATHER, gatherLen frmHdl recvBuf.length,
        { frmHdl with state := frmHdl.state - (gatherLen frmHdl recvBuf.length : Int),
                      offset := (frmHdl.offset + gatherLen frmHdl recvBuf.length) % 65536 },
        memcpy buf frmHdl.offset (recvBuf.take (gatherLen frmHdl recvBuf.length))⟩ := by
  unfold QcaFrmFsmDecode gatherLen
  simp only [isNamed, QCAFRM_HW_LEN0, QCAFRM_HW_LEN1, QCAFRM_HW_LEN2, QCAFRM_HW_LEN3,
    QCAFRM_WAIT_AA1, QCAFRM_WAIT_AA2, QCAFRM_WAIT_AA3, QCAFRM_WAIT_AA4, QCAFRM_WAIT_LEN_BYTE0,
    QCAFRM_WAIT_LEN_BYTE1, QCAFRM_WAIT_RSVD_BYTE1, QCAFRM_WAIT_RSVD_BYTE2, QCAFRM_WAIT_551,
    QCAFRM_WAIT_552] at hs ⊢
  repeat rw [if_neg (by omega)]

/-- Case analysis over the branches of `QcaFrmFsmDecode`: a property of the result holds as
soon as it holds for what each branch returns. -/
theorem decode_elim (K : QcaFrmConsts) (h13 : 13 ≤ K.HW_LEN0) (frmHdl : QcaFrmHdl)
    (buf : List Nat) (buf_len : Nat) (recvBuf : List Nat) (P : DecodeOut → Prop)
    (hw_reset : (frmHdl.state = QCAFRM_HW_LEN0 K ∨ frmHdl.state = QCAFRM_HW_LEN1 K) →
      recvBuf.headD 0 ≠ 0 →
      P ⟨K.GATHER, 1, { frmHdl with state := QCAFRM_HW_LEN0 K }, buf⟩)
    (hw_next : (frmHdl.state = QCAFRM_HW_LEN0 K ∨ frmHdl.state = QCAFRM_HW_LEN1 K) →
      recvBuf.headD 0 = 0 →
      P ⟨K.GATHER, 1, { frmHdl with state := frmHdl.state - 1 }, buf⟩)
    (hw_skip : (frmHdl.state = QCAFRM_HW_LEN2 K ∨ frmHdl.state = QCAFRM_HW_LEN3 K) →
      P ⟨K.GATHER, 1, { frmHdl with state := frmHdl.state - 1 }, buf⟩)
    (aa_bad : (frmHdl.state = QCAFRM_WAIT_AA1 K ∨ frmHdl.state = QCAFRM_WAIT_AA2 K
        ∨ frmHdl.state = QCAFRM_WAIT_AA3 K ∨ frmHdl.state = QCAFRM_WAIT_AA4 K) →
      recvBuf.headD 0 ≠ 0xAA →
      P ⟨K.NOHEAD, 1, { frmHdl with state := QCAFRM_HW_LEN0 K }, buf⟩)
    (aa_ok : (frmHdl.state = QCAFRM_WAIT_AA1 K ∨ frmHdl.state = QCAFRM_WAIT_AA2 K
        ∨ frmHdl.state = QCAFRM_WAIT_AA3 K ∨ frmHdl.state = QCAFRM_WAIT_AA4 K) →
      recvBuf.headD 0 = 0xAA →
      P ⟨K.GATHER, 1, { frmHdl with state := frmHdl.state - 1 }, buf⟩)
    (len0 : frmHdl.state = QCAFRM_WAIT_LEN_BYTE0 K →
      P ⟨K.GATHER, 1,
        { frmHdl with len := recvBuf.headD 0 % 65536, state := frmHdl.state - 1 }, buf⟩)
    (len1 : frmHdl.state = QCAFRM_WAIT_LEN_BYTE1 K →
      P ⟨K.GATHER, 1,
        { frmHdl with len := (frmHdl.len ||| (recvBuf.headD 0 <<< 8)) % 65536,
                      state := frmHdl.state - 1 }, buf⟩)
    (rsvd1 : frmHdl.state = QCAFRM_WAIT_RSVD_BYTE1 K →
      P ⟨K.GATHER, 1, { frmHdl with state := frmHdl.state - 1 }, buf⟩)
    (rsvd2_bad : frmHdl.state = QCAFRM_WAIT_RSVD_BYTE2 K →
      (frmHdl.len > buf_len ∨ frmHdl.len < K.ETHMINLEN) →
      P ⟨K.INVLEN, 1, { frmHdl with state := QCAFRM_HW_LEN0 K }, buf⟩)
    (rsvd2_ok : frmHdl.state = QCAFRM_WAIT_RSVD_BYTE2 K →
      ¬ (frmHdl.len > buf_len ∨ frmHdl.len < K.ETHMINLEN) →
      P ⟨K.GATHER, 1, { frmHdl with state := (frmHdl.len : Int) + 1, offset := 0 }, buf⟩)
    (gather : ¬ isNamed K frmHdl.state →
      P ⟨K.GATHER, gatherLen frmHdl recvBuf.length,
        { frmHdl with state := frmHdl.state - (gatherLen frmHdl recvBuf.length : Int),
                      offset := (frmHdl.offset + gatherLen frmHdl recvBuf.length) % 65536 },
        memcpy buf frmHdl.offset (recvBuf.take (gatherLen frmHdl recvBuf.length))⟩)
    (f1_bad : frmHdl.state = QCAFRM_WAIT_551 → recvBuf.headD 0 ≠ 0x55 →
      P ⟨K.NOTAIL, 1, { frmHdl with state := QCAFRM_HW_LEN0 K }, buf⟩)
    (f1_ok : frmHdl.state = QCAFRM_WAIT_551 → recvBuf.headD 0 = 0x55 →
      P ⟨K.GATHER, 1, { frmHdl with state := frmHdl.state - 1 }, buf⟩)
    (f2_bad : frmHdl.state = QCAFRM_WAIT_552 → recvBuf.headD 0 ≠ 0x55 →
      P ⟨K.NOTAIL, 1, { frmHdl with state := QCAFRM_HW_LEN0 K }, buf⟩)
    (f2_ok : frmHdl.state = QCAFRM_WAIT_552 → recvBuf.headD 0 = 0x55 →
      P ⟨(frmHdl.offset : Int), 1, { frmHdl with state := QCAFRM_HW_LEN0 K }, buf⟩) :
    P (QcaFrmFsmDecode K frmHdl buf buf_len recvBuf) := by
  by_cases c1 : frmHdl.state = QCAFRM_HW_LEN0 K ∨ frmHdl.state = QCAFRM_HW_LEN1 K
  · rw [decode_hw_len01 K frmHdl buf buf_len recvBuf c1]
    split_ifs with hb
    · exact hw_reset c1 hb
    · exact hw_next c1 (not_not.mp hb)
  by_cases c2 : frmHdl.state = QCAFRM_HW_LEN2 K ∨ frmHdl.state = QCAFRM_HW_LEN3 K
  · rw [decode_hw_len23 K frmHdl buf buf_len recvBuf c2]; exact hw_skip c2
  by_cases c3 : frmHdl.state = QCAFRM_WAIT_AA1 K ∨ frmHdl.state = QCAFRM_WAIT_AA2 K
        ∨ frmHdl.state = QCAFRM_WAIT_AA3 K ∨ frmHdl.state = QCAFRM_WAIT_AA4 K
  · rw [decode_wait_aa K frmHdl buf buf_len recvBuf c3]
    split_ifs with hb
    · exact aa_bad c3 hb
    · exact aa_ok c3 (not_not.mp hb)
  by_cases c4 : frmHdl.state = QCAFRM_WAIT_LEN_BYTE0 K
  · rw [decode_len_byte0 K frmHdl buf buf_len recvBuf c4]; exact len0 c4
  by_cases c5 : frmHdl.state = QCAFRM_WAIT_LEN_BYTE1 K
  · rw [decode_len_byte1 K frmHdl buf buf_len recvBuf c5]; exact len1 c5
  by_cases c6 : frmHdl.state = QCAFRM_WAIT_RSVD_BYTE1 K
  · rw [decode_rsvd1 K frmHdl buf buf_len recvBuf c6]; exact rsvd1 c6
  by_cases c7 : frmHdl.state = QCAFRM_WAIT_RSVD_BYTE2 K
  · rw [decode_rsvd2 K frmHdl buf buf_len recvBuf c7]
    split_ifs with hl
    · exact rsvd2_bad c7 hl
    · exact rsvd2_ok c7 hl
  by_cases c8 : frmHdl.state = QCAFRM_WAIT_551
  · rw [decode_wait_551 K h13 frmHdl buf buf_len recvBuf c8]
    split_ifs with hb
    · exact f1_bad c8 hb
    · exact f1_ok c8 (not_not.mp hb)
  by_cases c9 : frmHdl.state = QCAFRM_WAIT_552
  · rw [decode_wait_552 K h13 frmHdl buf buf_len recvBuf c9]
    split_ifs with hb
    · exact f2_bad c9 hb
    · exact f2_ok c9 (not_not.mp hb)
  have hd : ¬ isNamed K frmHdl.state := by
    simp only [isNamed, QCAFRM_HW_LEN0, QCAFRM_HW_LEN1, QCAFRM_HW_LEN2, QCAFRM_HW_LEN3,
      QCAFRM_WAIT_AA1, QCAFRM_WAIT_AA2, QCAFRM_WAIT_AA3, QCAFRM_WAIT_AA4,
      QCAFRM_WAIT_LEN_BYTE0, QCAFRM_WAIT_LEN_BYTE1, QCAFRM_WAIT_RSVD_BYTE1,
      QCAFRM_WAIT_RSVD_BYTE2, QCAFRM_WAIT_551, QCAFRM_WAIT_552] at *
    omega
  rw [decode_default K frmHdl buf buf_len recvBuf hd]; exact gather hd


/-! ## Length validation, error handling, preamble and footer -/

/-- C4: in the state `QCAFRM_WAIT_RSVD_BYTE2`, for every input byte and every output
capacity, the call returns `INVLEN` (and the state is then initial) exactly when
`len > buf_len` or `len < QCAFRM_ETHMINLEN`; otherwise it returns `GATHER`, sets `offset`
to 0 and the state to `len + 1`.  In particular `len = buf_len` is accepted (when it is not
below the Ethernet minimum), and `len = buf_len + 1`, a length below the minimum and
`len = 0` give `INVLEN`. -/
theorem C4_length_validation (K : QcaFrmConsts) (hK : K.WF) (frmHdl : QcaFrmHdl)
    (buf : List Nat) (buf_len : Nat) (b : Nat) (rest : List Nat)
    (hs : frmHdl.state = QCAFRM_WAIT_RSVD_BYTE2 K) (o : DecodeOut)
    (ho : QcaFrmFsmDecode K frmHdl buf buf_len (b :: rest) = o) :
    (o.ret = K.INVLEN ↔ (frmHdl.len > buf_len ∨ frmHdl.len < K.ETHMINLEN))
    ∧ ((o.ret = K.INVLEN ∧ o.frmHdl.state = QCAFRM_HW_LEN0 K)
        ↔ (frmHdl.len > buf_len ∨ frmHdl.len < K.ETHMINLEN))
    ∧ (¬ (frmHdl.len > buf_len ∨ frmHdl.len < K.ETHMINLEN) →
        o.ret = K.GATHER ∧ o.frmHdl.offset = 0 ∧ o.frmHdl.state = (frmHdl.len : Int) + 1)
    ∧ (frmHdl.len = buf_len → K.ETHMINLEN ≤ buf_len →
        o.ret = K.GATHER ∧ o.frmHdl.state = (buf_len : Int) + 1)
    ∧ (frmHdl.len = buf_len + 1 → o.ret = K.INVLEN)
    ∧ (frmHdl.len < K.ETHMINLEN → o.ret = K.INVLEN)
    ∧ (frmHdl.len = 0 → o.ret = K.INVLEN) := by
  obtain ⟨h13, hmin, hg, hnh, hil, hnt, d1, d2, d3, d4, d5, d6⟩ := hK
  subst ho
  rw [decode_rsvd2 K frmHdl buf buf_len (b :: rest) hs]
  by_cases hc : frmHdl.len > buf_len ∨ frmHdl.len < K.ETHMINLEN
  · rw [if_pos hc]
    simp only [hc, true_and, and_self, iff_true, not_true_eq_false, false_implies, implies_true]
    refine ⟨?_, ?_⟩
    · intro h1 h2; omega
    · trivial
  · rw [if_neg hc]
    simp only [hc, iff_false, not_false_eq_true, true_implies, and_self, true_and]
    refine ⟨fun h => d2 h.symm, fun h => d2 h.1.symm, ?_, ?_, ?_, ?_⟩
    · intro h1 _; rw [h1]
    · intro h1; omega
    · intro h1; omega
    · intro h1; omega

/-- Witness for C4: with the reference constants, a handle in `QCAFRM_WAIT_RSVD_BYTE2` whose
`len` equals the capacity 1522 is accepted and moves to the gathering state 1523. -/
theorem C4_length_validation_witness :
    refConsts.WF ∧ (⟨32757, 7, 1522⟩ : QcaFrmHdl).state = QCAFRM_WAIT_RSVD_BYTE2 refConsts
    ∧ (QcaFrmFsmDecode refConsts ⟨32757, 7, 1522⟩ [] 1522 [0]).ret = refConsts.GATHER
    ∧ (QcaFrmFsmDecode refConsts ⟨32757, 7, 1522⟩ [] 1522 [0]).frmHdl.state = 1523 :=
  ⟨by decide, by decide,
    (C4_length_validation refConsts (by decide) ⟨32757, 7, 1522⟩ [] 1522 0 [] (by decide) _
      rfl).2.2.2.1 rfl (by decide)⟩

/-- C6: for every handle, every output capacity and every input chunk, a call that returns
`NOHEAD`, `INVLEN` or `NOTAIL` leaves the handle in the initial state `QCAFRM_HW_LEN0` and
does not change the output buffer. -/
theorem C6_error_resets_state (K : QcaFrmConsts) (hK : K.WF) (frmHdl : QcaFrmHdl)
    (buf : List Nat) (buf_len : Nat) (b : Nat) (rest : List Nat) (o : DecodeOut)
    (ho : QcaFrmFsmDecode K frmHdl buf buf_len (b :: rest) = o)
    (herr : o.ret = K.NOHEAD ∨ o.ret = K.INVLEN ∨ o.ret = K.NOTAIL) :
    o.frmHdl.state = QCAFRM_HW_LEN0 K ∧ o.buf = buf := by
  obtain ⟨h13, hmin, hg, hnh, hil, hnt, d1, d2, d3, d4, d5, d6⟩ := hK
  subst ho
  revert herr
  apply decode_elim K h13 frmHdl buf buf_len (b :: rest)
    (fun o => (o.ret = K.NOHEAD ∨ o.ret = K.INVLEN ∨ o.ret = K.NOTAIL) →
      o.frmHdl.state = QCAFRM_HW_LEN0 K ∧ o.buf = buf)
  all_goals intros
  all_goals simp_all
  all_goals omega

/-- Witness for C6: a non-`0x55` byte in `QCAFRM_WAIT_551` returns `NOTAIL`; the state is
initial afterwards and the buffer is the one passed in. -/
theorem C6_error_resets_state_witness :
    refConsts.WF
    ∧ (QcaFrmFsmDecode refConsts ⟨1, 60, 60⟩ [1, 2, 3] 1522 [0x54, 0x55]).ret = refConsts.NOTAIL
    ∧ (QcaFrmFsmDecode refConsts ⟨1, 60, 60⟩ [1, 2, 3] 1522 [0x54, 0x55]).frmHdl.state
        = QCAFRM_HW_LEN0 refConsts
    ∧ (QcaFrmFsmDecode refConsts ⟨1, 60, 60⟩ [1, 2, 3] 1522 [0x54, 0x55]).buf = [1, 2, 3] :=
  ⟨by decide, by decide,
    C6_error_resets_state refConsts (by decide) ⟨1, 60, 60⟩ [1, 2, 3] 1522 0x54 [0x55] _ rfl
      (Or.inr (Or.inr (by decide)))⟩


/-- C7: a call returns `NOHEAD` exactly when the handle is in one of the four preamble
states and the first input byte is not `0xAA`; then one byte is consumed and the state is
initial.  On `0xAA` in a preamble state the call returns `GATHER` and the state goes one
step down.  Hence from `QCAFRM_WAIT_AA1`, fed one byte per call four bytes of which exactly
the one at index `k` is not `0xAA`, the first `k` calls return `GATHER` and the next one
returns `NOHEAD`. -/
theorem C7_header_corruption (K : QcaFrmConsts) (hK : K.WF) (frmHdl : QcaFrmHdl)
    (buf : List Nat) (buf_len : Nat) (b : Nat) (rest : List Nat) :
    (∀ o : DecodeOut, QcaFrmFsmDecode K frmHdl buf buf_len (b :: rest) = o →
      (o.ret = K.NOHEAD ↔
        ((frmHdl.state = QCAFRM_WAIT_AA1 K ∨ frmHdl.state = QCAFRM_WAIT_AA2 K
          ∨ frmHdl.state = QCAFRM_WAIT_AA3 K ∨ frmHdl.state = QCAFRM_WAIT_AA4 K) ∧ b ≠ 0xAA))
      ∧ (o.ret = K.NOHEAD → o.bytes_proc = 1 ∧ o.frmHdl.state = QCAFRM_HW_LEN0 K)
      ∧ ((frmHdl.state = QCAFRM_WAIT_AA1 K ∨ frmHdl.state = QCAFRM_WAIT_AA2 K
          ∨ frmHdl.state = QCAFRM_WAIT_AA3 K ∨ frmHdl.state = QCAFRM_WAIT_AA4 K) → b = 0xAA →
        o.ret = K.GATHER ∧ o.bytes_proc = 1 ∧ o.frmHdl.state = frmHdl.state - 1))
    ∧ (∀ (bs : List Nat) (k : Nat), frmHdl.state = QCAFRM_WAIT_AA1 K → bs.length = 4 →
        k < 4 → (∀ i, i < 4 → (bs.getD i 0 = 0xAA ↔ i ≠ k)) →
        ((runBytes K buf_len (Run.start frmHdl buf) bs).log.map Prod.fst).take (k + 1)
          = List.replicate k K.GATHER ++ [K.NOHEAD]) := by
  obtain ⟨h13, hmin, hg, hnh, hil, hnt, d1, d2, d3, d4, d5, d6⟩ := hK
  constructor
  · intro o ho
    subst ho
    apply decode_elim K h13 frmHdl buf buf_len (b :: rest)
      (fun o => (o.ret = K.NOHEAD ↔
        ((frmHdl.state = QCAFRM_WAIT_AA1 K ∨ frmHdl.state = QCAFRM_WAIT_AA2 K
          ∨ frmHdl.state = QCAFRM_WAIT_AA3 K ∨ frmHdl.state = QCAFRM_WAIT_AA4 K) ∧ b ≠ 0xAA))
      ∧ (o.ret = K.NOHEAD → o.bytes_proc = 1 ∧ o.frmHdl.state = QCAFRM_HW_LEN0 K)
      ∧ ((frmHdl.state = QCAFRM_WAIT_AA1 K ∨ frmHdl.state = QCAFRM_WAIT_AA2 K
          ∨ frmHdl.state = QCAFRM_WAIT_AA3 K ∨ frmHdl.state = QCAFRM_WAIT_AA4 K) → b = 0xAA →
        o.ret = K.GATHER ∧ o.bytes_proc = 1 ∧ o.frmHdl.state = frmHdl.state - 1))
    all_goals intros
    all_goals dsimp only [QCAFRM_HW_LEN0, QCAFRM_HW_LEN1, QCAFRM_HW_LEN2, QCAFRM_HW_LEN3,
      QCAFRM_WAIT_AA1, QCAFRM_WAIT_AA2, QCAFRM_WAIT_AA3, QCAFRM_WAIT_AA4,
      QCAFRM_WAIT_LEN_BYTE0, QCAFRM_WAIT_LEN_BYTE1, QCAFRM_WAIT_RSVD_BYTE1,
      QCAFRM_WAIT_RSVD_BYTE2, QCAFRM_WAIT_551, QCAFRM_WAIT_552, isNamed, List.headD_cons] at *
    all_goals omega
  · intro bs k hs hlen hk hbs
    match bs, hlen with
    | [b0, b1, b2, b3], _ =>
      have e0 := hbs 0 (by omega)
      have e1 := hbs 1 (by omega)
      have e2 := hbs 2 (by omega)
      have e3 := hbs 3 (by omega)
      simp only [List.getD_cons_zero, List.getD_cons_succ] at e0 e1 e2 e3
      have aa : ∀ (h : QcaFrmHdl) (x : Nat),
          (h.state = QCAFRM_WAIT_AA1 K ∨ h.state = QCAFRM_WAIT_AA2 K
            ∨ h.state = QCAFRM_WAIT_AA3 K ∨ h.state = QCAFRM_WAIT_AA4 K) →
          QcaFrmFsmDecode K h buf buf_len [x] =
            if x ≠ 0xAA then ⟨K.NOHEAD, 1, { h with state := QCAFRM_HW_LEN0 K }, buf⟩
            else ⟨K.GATHER, 1, { h with state := h.state - 1 }, buf⟩ := by
        intro h x hh
        simpa using decode_wait_aa K h buf buf_len [x] hh
      simp only [QCAFRM_WAIT_AA1, QCAFRM_WAIT_AA2, QCAFRM_WAIT_AA3, QCAFRM_WAIT_AA4] at aa hs
      interval_cases k
      · have h0 : b0 ≠ 170 := by simpa using e0
        simp [runBytes, Run.call, Run.start, aa frmHdl b0 (Or.inl hs), h0]
      · have h0 : b0 = 170 := by simpa using e0
        have h1 : b1 ≠ 170 := by simpa using e1
        subst h0
        simp [runBytes, Run.call, Run.start, aa frmHdl 170 (Or.inl hs), h1,
          aa ⟨frmHdl.state - 1, frmHdl.offset, frmHdl.len⟩ b1 (by simp; omega)]
      · have h0 : b0 = 170 := by simpa using e0
        have h1 : b1 = 170 := by simpa using e1
        have h2 : b2 ≠ 170 := by simpa using e2
        subst h0 h1
        simp [runBytes, Run.call, Run.start, aa frmHdl 170 (Or.inl hs), h2,
          aa ⟨frmHdl.state - 1, frmHdl.offset, frmHdl.len⟩ 170 (by simp; omega),
          aa ⟨frmHdl.state - 1 - 1, frmHdl.offset, frmHdl.len⟩ b2 (by simp; omega)]
      · have h0 : b0 = 170 := by simpa using e0
        have h1 : b1 = 170 := by simpa using e1
        have h2 : b2 = 170 := by simpa using e2
        have h3 : b3 ≠ 170 := by simpa using e3
        subst h0 h1 h2
        simp [runBytes, Run.call, Run.start, aa frmHdl 170 (Or.inl hs), h3,
          aa ⟨frmHdl.state - 1, frmHdl.offset, frmHdl.len⟩ 170 (by simp; omega),
          aa ⟨frmHdl.state - 1 - 1, frmHdl.offset, frmHdl.len⟩ 170 (by simp; omega),
          aa ⟨frmHdl.state - 1 - 1 - 1, frmHdl.offset, frmHdl.len⟩ b3 (by simp; omega)]

/-- Witness for C7: from `QCAFRM_WAIT_AA1`, the bytes `AA AA 13 AA` give `GATHER`, `GATHER`
and then `NOHEAD` on the third call. -/
theorem C7_header_corruption_witness :
    refConsts.WF
    ∧ ((runBytes refConsts 1522 (Run.start ⟨32764, 0, 0⟩ []) [0xAA, 0xAA, 0x13, 0xAA]).log.map
        Prod.fst).take 3 = [refConsts.GATHER, refConsts.GATHER, refConsts.NOHEAD] :=
  ⟨by decide,
    (C7_header_corruption refConsts (by decide) ⟨32764, 0, 0⟩ [] 1522 0 []).2
      [0xAA, 0xAA, 0x13, 0xAA] 2 (by decide) (by decide) (by decide) (by decide)⟩

/-- C8: a call returns `NOTAIL` exactly when the handle is in one of the two footer states
and the first input byte is not `0x55`, and the state is then initial.  In
`QCAFRM_WAIT_551` a `0x55` byte returns `GATHER` and moves to `QCAFRM_WAIT_552`; in
`QCAFRM_WAIT_552` a `0x55` byte returns the handle's `offset` and resets the state to
initial.  In every other state the call returns `GATHER` or one of the three error codes,
never a completed-frame length. -/
theorem C8_footer_handling (K : QcaFrmConsts) (hK : K.WF) (frmHdl : QcaFrmHdl)
    (buf : List Nat) (buf_len : Nat) (b : Nat) (rest : List Nat) (o : DecodeOut)
    (ho : QcaFrmFsmDecode K frmHdl buf buf_len (b :: rest) = o) :
    (o.ret = K.NOTAIL ↔
      ((frmHdl.state = QCAFRM_WAIT_551 ∨ frmHdl.state = QCAFRM_WAIT_552) ∧ b ≠ 0x55))
    ∧ (o.ret = K.NOTAIL → o.frmHdl.state = QCAFRM_HW_LEN0 K)
    ∧ (frmHdl.state = QCAFRM_WAIT_551 → b = 0x55 →
        o.ret = K.GATHER ∧ o.frmHdl.state = QCAFRM_WAIT_552)
    ∧ (frmHdl.state = QCAFRM_WAIT_552 → b = 0x55 →
        o.ret = (frmHdl.offset : Int) ∧ o.frmHdl.state = QCAFRM_HW_LEN0 K)
    ∧ (frmHdl.state ≠ QCAFRM_WAIT_552 →
        o.ret = K.GATHER ∨ o.ret = K.NOHEAD ∨ o.ret = K.INVLEN ∨ o.ret = K.NOTAIL) := by
  obtain ⟨h13, hmin, hg, hnh, hil, hnt, d1, d2, d3, d4, d5, d6⟩ := hK
  subst ho
  apply decode_elim K h13 frmHdl buf buf_len (b :: rest)
    (fun o => (o.ret = K.NOTAIL ↔
      ((frmHdl.state = QCAFRM_WAIT_551 ∨ frmHdl.state = QCAFRM_WAIT_552) ∧ b ≠ 0x55))
    ∧ (o.ret = K.NOTAIL → o.frmHdl.state = QCAFRM_HW_LEN0 K)
    ∧ (frmHdl.state = QCAFRM_WAIT_551 → b = 0x55 →
        o.ret = K.GATHER ∧ o.frmHdl.state = QCAFRM_WAIT_552)
    ∧ (frmHdl.state = QCAFRM_WAIT_552 → b = 0x55 →
        o.ret = (frmHdl.offset : Int) ∧ o.frmHdl.state = QCAFRM_HW_LEN0 K)
    ∧ (frmHdl.state ≠ QCAFRM_WAIT_552 →
        o.ret = K.GATHER ∨ o.ret = K.NOHEAD ∨ o.ret = K.INVLEN ∨ o.ret = K.NOTAIL))
  all_goals intros
  all_goals dsimp only [QCAFRM_HW_LEN0, QCAFRM_HW_LEN1, QCAFRM_HW_LEN2, QCAFRM_HW_LEN3,
    QCAFRM_WAIT_AA1, QCAFRM_WAIT_AA2, QCAFRM_WAIT_AA3, QCAFRM_WAIT_AA4,
    QCAFRM_WAIT_LEN_BYTE0, QCAFRM_WAIT_LEN_BYTE1, QCAFRM_WAIT_RSVD_BYTE1,
    QCAFRM_WAIT_RSVD_BYTE2, QCAFRM_WAIT_551, QCAFRM_WAIT_552, isNamed, List.headD_cons] at *
  all_goals omega

/-- Witness for C8: in `QCAFRM_WAIT_552` with `offset = 60` a `0x55` byte returns 60 and the
state is initial afterwards. -/
theorem C8_footer_handling_witness :
    refConsts.WF
    ∧ (QcaFrmFsmDecode refConsts ⟨0, 60, 60⟩ [] 1522 [0x55]).ret = 60
    ∧ (QcaFrmFsmDecode refConsts ⟨0, 60, 60⟩ [] 1522 [0x55]).frmHdl.state
        = QCAFRM_HW_LEN0 refConsts :=
  ⟨by decide,
    (C8_footer_handling refConsts (by decide) ⟨0, 60, 60⟩ [] 1522 0x55 [] _ rfl).2.2.2.1
      rfl rfl⟩


/-! ## The header encoder -/

theorem and_255 (x : Nat) : x &&& 255 = x % 256 := Nat.and_pow_two_sub_one_eq_mod x 8

theorem mod32_and_224 (x : Nat) : (x % 4294967296) &&& 224 = x &&& 224 := by
  have h : x % 4294967296 = x &&& 4294967295 := (Nat.and_pow_two_sub_one_eq_mod x 32).symm
  rw [h, Nat.and_assoc]
  rfl

theorem and_224_eq (x : Nat) : x &&& 224 = (x % 256) &&& 224 := by
  rw [← and_255, Nat.and_assoc]
  rfl

theorem and_224_small : ∀ y, y < 8 → (y * 32) &&& 224 = y * 32 := by decide

theorem shl5_and_224 (v : Nat) : (v <<< 5) &&& 224 = (v % 8) * 32 := by
  rw [Nat.shiftLeft_eq, and_224_eq]
  have h : v * 2 ^ 5 % 256 = (v % 8) * 32 := by omega
  rw [h]
  exact and_224_small _ (by omega)

theorem or_and_self_left (a b : Nat) : (a ||| b) &&& a = a := by
  apply Nat.eq_of_testBit_eq
  intro i
  rw [Nat.testBit_and, Nat.testBit_or]
  cases a.testBit i <;> cases b.testBit i <;> rfl

theorem length_ge_eight (buf : List Nat) (h : 8 ≤ buf.length) :
    ∃ a0 a1 a2 a3 a4 a5 a6 a7 t, buf = a0 :: a1 :: a2 :: a3 :: a4 :: a5 :: a6 :: a7 :: t := by
  match buf, h with
  | a0 :: a1 :: a2 :: a3 :: a4 :: a5 :: a6 :: a7 :: t, _ => exact ⟨a0, a1, a2, a3, a4, a5, a6, a7, t, rfl⟩

theorem createHeader_zero (buf : List Nat) (L : Nat) (hL : L < 65536) (hbuf : 8 ≤ buf.length) :
    QcaFrmCreateHeader buf L 0
      = ([0xAA, 0xAA, 0xAA, 0xAA, L % 256, L / 256, 0x00, 0x00] ++ buf.drop 8, 8) := by
  obtain ⟨a0, a1, a2, a3, a4, a5, a6, a7, t, rfl⟩ := length_ge_eight buf hbuf
  have h1 : (L >>> 8 &&& 255) % 256 = L / 256 := by
    rw [and_255, Nat.shiftRight_eq_div_pow]; omega
  have h0 : (L >>> 0 &&& 255) % 256 = L % 256 := by
    rw [and_255, Nat.shiftRight_zero]; omega
  simp only [QcaFrmCreateHeader, cpu_to_le16, h0, h1]
  simp [QCAFRM_HEADER_LEN]

theorem createHeader_nonzero (buf : List Nat) (L v : Nat) (hL : L < 65536) (hv0 : v ≠ 0)
    (hbuf : 8 ≤ buf.length) :
    QcaFrmCreateHeader buf L v
      = ([0xAA, 0xAA, 0xAA, 0xAA, L % 256, (L / 256) ||| ((v % 8) * 32),
          (v / 8) % 256, (v / 2048) % 256] ++ buf.drop 8, 8) := by
  obtain ⟨a0, a1, a2, a3, a4, a5, a6, a7, t, rfl⟩ := length_ge_eight buf hbuf
  have h1 : (L >>> 8 &&& 255) % 256 = L / 256 := by
    rw [and_255, Nat.shiftRight_eq_div_pow]; omega
  have h0 : (L >>> 0 &&& 255) % 256 = L % 256 := by
    rw [and_255, Nat.shiftRight_zero]; omega
  have h6 : (v >>> (8 - QCAFRM_VERSION_SHIFT) &&& 255) % 256 = (v / 8) % 256 := by
    rw [and_255, Nat.shiftRight_eq_div_pow]; simp [QCAFRM_VERSION_SHIFT]
  have h7 : (v >>> (16 - QCAFRM_VERSION_SHIFT) &&& 255) % 256 = (v / 2048) % 256 := by
    rw [and_255, Nat.shiftRight_eq_div_pow]; simp [QCAFRM_VERSION_SHIFT]
  have h5 : ((((((v <<< QCAFRM_VERSION_SHIFT) % 4294967296) &&& QCAFRM_VERSION_MASK)
      ||| (L / 256)) &&& 255) % 256) = (L / 256) ||| ((v % 8) * 32) := by
    have e : ((v <<< QCAFRM_VERSION_SHIFT) % 4294967296) &&& QCAFRM_VERSION_MASK = (v % 8) * 32 := by
      show ((v <<< 5) % 4294967296) &&& 224 = (v % 8) * 32
      rw [mod32_and_224, shl5_and_224]
    rw [e, and_255, Nat.mod_mod, Nat.lor_comm]
    apply Nat.mod_eq_of_lt
    exact Nat.or_lt_two_pow (n := 8) (by omega) (by omega)
  simp only [QcaFrmCreateHeader, cpu_to_le16, h0, h1, if_pos hv0]
  simp [QCAFRM_HEADER_LEN, h5, h6, h7]


/-- C9: with protocol version 0 and a 16-bit length `L`, `QcaFrmCreateHeader` writes the 8
bytes `AA AA AA AA, L mod 256, L div 256, 00, 00` at indices 0..7, leaves every byte at
index 8 and above as it was, and returns 8. -/
theorem C9_create_header_v0 (buf : List Nat) (L : Nat) (hL : L < 65536)
    (hbuf : 8 ≤ buf.length) :
    QcaFrmCreateHeader buf L 0
      = ([0xAA, 0xAA, 0xAA, 0xAA, L % 256, L / 256, 0x00, 0x00] ++ buf.drop 8, 8)
    ∧ (QcaFrmCreateHeader buf L 0).1.length = buf.length
    ∧ ∀ i, 8 ≤ i → (QcaFrmCreateHeader buf L 0).1[i]? = buf[i]? := by
  rw [createHeader_zero buf L hL hbuf]
  refine ⟨rfl, ?_, ?_⟩
  · simp; omega
  · intro i hi
    obtain ⟨j, rfl⟩ : ∃ j, i = j + 8 := ⟨i - 8, by omega⟩
    show (_ :: _ :: _ :: _ :: _ :: _ :: _ :: _ :: List.drop 8 buf)[j + 1 + 1 + 1 + 1 + 1 + 1 + 1 + 1]?
      = buf[j + 8]?
    simp only [List.getElem?_cons_succ, List.getElem?_drop]
    rw [Nat.add_comm]

/-- Witness for C9: length 60 gives the header `AA AA AA AA 3C 00 00 00`. -/
theorem C9_create_header_v0_witness :
    QcaFrmCreateHeader (List.replicate 8 0) 60 0
      = ([0xAA, 0xAA, 0xAA, 0xAA, 0x3C, 0x00, 0x00, 0x00], 8) :=
  (C9_create_header_v0 (List.replicate 8 0) 60 (by decide) (by decide)).1

/-- C10: with a nonzero protocol version `v` (32-bit or not) and a 16-bit length `L`, bytes 0..4 are
as for version 0, byte 5 is `(L div 256) ||| ((v <<< 5) &&& 0xE0)` (the low 3 bits of `v` in
the top 3 bits of the byte, OR-ed onto the length's high byte, whose bits stay set), byte 6
is `(v >>> 3) &&& 0xFF`, byte 7 is `(v >>> 11) &&& 0xFF`, and 8 is returned; two versions
that agree on their low 19 bits give the same header. -/
theorem C10_create_header_version (buf : List Nat) (L v : Nat) (hL : L < 65536)
    (hv0 : v ≠ 0) (hbuf : 8 ≤ buf.length) :
    QcaFrmCreateHeader buf L v
      = ([0xAA, 0xAA, 0xAA, 0xAA, L % 256, (L / 256) ||| ((v <<< 5) &&& 0xE0),
          (v >>> 3) &&& 0xFF, (v >>> 11) &&& 0xFF] ++ buf.drop 8, 8)
    ∧ (v <<< 5) &&& 0xE0 = (v % 8) * 32
    ∧ ((L / 256) ||| ((v <<< 5) &&& 0xE0)) &&& (L / 256) = L / 256
    ∧ (QcaFrmCreateHeader buf L v).1.take 5 = (QcaFrmCreateHeader buf L 0).1.take 5
    ∧ (∀ w, w % 2 ^ 19 = v % 2 ^ 19 →
        QcaFrmCreateHeader buf L w = QcaFrmCreateHeader buf L v) := by
  have e5 : (v <<< 5) &&& 0xE0 = (v % 8) * 32 := shl5_and_224 v
  have e6 : (v >>> 3) &&& 0xFF = (v / 8) % 256 := by
    rw [and_255, Nat.shiftRight_eq_div_pow]
  have e7 : (v >>> 11) &&& 0xFF = (v / 2048) % 256 := by
    rw [and_255, Nat.shiftRight_eq_div_pow]
  rw [createHeader_nonzero buf L v hL hv0 hbuf, createHeader_zero buf L hL hbuf, e5, e6, e7]
  refine ⟨rfl, rfl, or_and_self_left _ _, rfl, ?_⟩
  intro w hw
  by_cases hw0 : w = 0
  · subst hw0
    rw [createHeader_zero buf L hL hbuf]
    have a : v % 8 * 32 = 0 := by omega
    have b : v / 8 % 256 = 0 := by omega
    have c : v / 2048 % 256 = 0 := by omega
    rw [a, b, c, Nat.or_zero]
  · rw [createHeader_nonzero buf L w hL hw0 hbuf]
    have a : w % 8 = v % 8 := by omega
    have b : w / 8 % 256 = v / 8 % 256 := by omega
    have c : w / 2048 % 256 = v / 2048 % 256 := by omega
    rw [a, b, c]

/-- Witness for C10: length `0x0123` and version `0x80005` give byte 5 `0xA1`, byte 6 `0x00`
and byte 7 `0x00`, the same header as version 5. -/
theorem C10_create_header_version_witness :
    QcaFrmCreateHeader (List.replicate 8 0) 0x0123 0x80005
        = ([0xAA, 0xAA, 0xAA, 0xAA, 0x23, 0xA1, 0x00, 0x00], 8)
    ∧ QcaFrmCreateHeader (List.replicate 8 0) 0x0123 5
        = QcaFrmCreateHeader (List.replicate 8 0) 0x0123 0x80005 :=
  ⟨(C10_create_header_version (List.replicate 8 0) 0x0123 0x80005 (by decide) (by decide)
      (by decide)).1,
   (C10_create_header_version (List.replicate 8 0) 0x0123 0x80005 (by decide) (by decide)
      (by decide)).2.2.2.2 5 (by decide)⟩


/-! ## Consumption bound -/

theorem gatherLen_eq (h : QcaFrmHdl) (n : Nat) (h1 : h.offset ≤ h.len) (h2 : h.len < 65536) :
    gatherLen h n = min n (h.len - h.offset) := by
  unfold gatherLen MIN
  have e : (((h.len : Int) - (h.offset : Int)) % 4294967296).toNat = h.len - h.offset := by
    omega
  rw [e]
  split_ifs with c
  · rw [Nat.min_eq_left (by omega)]; omega
  · rw [Nat.min_eq_right (by omega)]; omega

theorem hdlInv_init (K : QcaFrmConsts) (h13 : 13 ≤ K.HW_LEN0) (h : QcaFrmHdl) :
    HdlInv K (QcaFrmFsmInit K h) := by
  simp only [HdlInv, QcaFrmFsmInit, QCAFRM_HW_LEN0, isNamed, QCAFRM_WAIT_551, QCAFRM_WAIT_552]
  omega

theorem hdlInv_decode (K : QcaFrmConsts) (h13 : 13 ≤ K.HW_LEN0) (h : QcaFrmHdl)
    (buf : List Nat) (buf_len : Nat) (recvBuf : List Nat) (hi : HdlInv K h) :
    HdlInv K (QcaFrmFsmDecode K h buf buf_len recvBuf).frmHdl := by
  apply decode_elim K h13 h buf buf_len recvBuf (fun o => HdlInv K o.frmHdl)
  case gather =>
    intro hn
    obtain ⟨i1, i2⟩ := hi
    have i3 := i2 hn
    have i4 : h.len < 65536 := by
      simp only [isNamed, QCAFRM_WAIT_551, QCAFRM_WAIT_552] at hn; omega
    have hg := gatherLen_eq h recvBuf.length i3.1 i4
    have hg2 : gatherLen h recvBuf.length ≤ h.len - h.offset := by rw [hg]; exact Nat.min_le_right _ _
    simp only [HdlInv, isNamed, QCAFRM_WAIT_551, QCAFRM_WAIT_552] at hn ⊢
    omega
  all_goals intros
  all_goals simp only [HdlInv, QCAFRM_HW_LEN0, QCAFRM_HW_LEN1, QCAFRM_HW_LEN2, QCAFRM_HW_LEN3,
      QCAFRM_WAIT_AA1, QCAFRM_WAIT_AA2, QCAFRM_WAIT_AA3, QCAFRM_WAIT_AA4,
      QCAFRM_WAIT_LEN_BYTE0, QCAFRM_WAIT_LEN_BYTE1, QCAFRM_WAIT_RSVD_BYTE1,
      QCAFRM_WAIT_RSVD_BYTE2, QCAFRM_WAIT_551, QCAFRM_WAIT_552, isNamed] at *
  all_goals omega

theorem hdlInv_of_reach (K : QcaFrmConsts) (h13 : 13 ≤ K.HW_LEN0) (h : QcaFrmHdl)
    (hr : Reach K h) : HdlInv K h := by
  induction hr with
  | init h => exact hdlInv_init K h13 h
  | decode h buf buf_len recvBuf _ ih => exact hdlInv_decode K h13 h buf buf_len recvBuf ih

theorem reach_runBytes (K : QcaFrmConsts) (buf_len : Nat) (bs : List Nat) (r : Run)
    (hr : Reach K r.frmHdl) : Reach K (runBytes K buf_len r bs).frmHdl := by
  induction bs generalizing r with
  | nil => exact hr
  | cons b bs ih => exact ih _ (Reach.decode r.frmHdl r.buf buf_len [b] hr)

/-- C5: for every handle reachable from `QcaFrmFsmInit` by `QcaFrmFsmDecode` calls and
every non-empty input chunk, `1 ≤ bytes_proc ≤ recvLen`; `bytes_proc` is 1 in every named
state (header, length, reserved, footer) and exceeds 1 only in a gathering state. -/
theorem C5_consumption_bound (K : QcaFrmConsts) (hK : K.WF) (h : QcaFrmHdl)
    (hr : Reach K h) (buf : List Nat) (buf_len : Nat) (b : Nat) (rest : List Nat) :
    1 ≤ (QcaFrmFsmDecode K h buf buf_len (b :: rest)).bytes_proc
    ∧ (QcaFrmFsmDecode K h buf buf_len (b :: rest)).bytes_proc ≤ (b :: rest).length
    ∧ (isNamed K h.state → (QcaFrmFsmDecode K h buf buf_len (b :: rest)).bytes_proc = 1)
    ∧ (1 < (QcaFrmFsmDecode K h buf buf_len (b :: rest)).bytes_proc → ¬ isNamed K h.state) := by
  have h13 : 13 ≤ K.HW_LEN0 := hK.1
  have hi := hdlInv_of_reach K h13 h hr
  apply decode_elim K h13 h buf buf_len (b :: rest)
    (fun o => 1 ≤ o.bytes_proc ∧ o.bytes_proc ≤ (b :: rest).length
      ∧ (isNamed K h.state → o.bytes_proc = 1) ∧ (1 < o.bytes_proc → ¬ isNamed K h.state))
  case gather =>
    intro hn
    obtain ⟨i1, i2⟩ := hi
    have i3 := i2 hn
    have i4 : h.len < 65536 := by
      simp only [isNamed, QCAFRM_WAIT_551, QCAFRM_WAIT_552] at hn; omega
    have hg := gatherLen_eq h (b :: rest).length i3.1 i4
    have hpos : 1 ≤ h.len - h.offset := by
      simp only [isNamed, QCAFRM_WAIT_551, QCAFRM_WAIT_552] at hn; omega
    dsimp only
    rw [hg]
    refine ⟨?_, Nat.min_le_left _ _, fun hh => absurd hh hn, fun _ => hn⟩
    exact Nat.le_min.mpr ⟨by simp, hpos⟩
  all_goals intros
  all_goals dsimp only [List.length_cons]
  all_goals omega

/-- Witness for C5: after `QcaFrmFsmInit` and the bytes `00 00 00 00 AA AA AA AA 3C 00 00 00`
the decoder gathers; a call on a 3-byte chunk consumes between 1 and 3 bytes. -/
theorem C5_consumption_bound_witness :
    refConsts.WF
    ∧ Reach refConsts (runBytes refConsts 1522
        (Run.start (QcaFrmFsmInit refConsts ⟨0, 0, 0⟩) [])
        [0, 0, 0, 0, 0xAA, 0xAA, 0xAA, 0xAA, 0x3C, 0, 0, 0]).frmHdl
    ∧ 1 ≤ (QcaFrmFsmDecode refConsts (runBytes refConsts 1522
        (Run.start (QcaFrmFsmInit refConsts ⟨0, 0, 0⟩) [])
        [0, 0, 0, 0, 0xAA, 0xAA, 0xAA, 0xAA, 0x3C, 0, 0, 0]).frmHdl [] 1522 [1, 2, 3]).bytes_proc
    ∧ (QcaFrmFsmDecode refConsts (runBytes refConsts 1522
        (Run.start (QcaFrmFsmInit refConsts ⟨0, 0, 0⟩) [])
        [0, 0, 0, 0, 0xAA, 0xAA, 0xAA, 0xAA, 0x3C, 0, 0, 0]).frmHdl [] 1522 [1, 2, 3]).bytes_proc
        ≤ 3 :=
  ⟨by decide, reach_runBytes refConsts 1522 _ _ (Reach.init _),
    (C5_consumption_bound refConsts (by decide) _
      (reach_runBytes refConsts 1522 _ _ (Reach.init _)) [] 1522 1 [2, 3]).1,
    (C5_consumption_bound refConsts (by decide) _
      (reach_runBytes refConsts 1522 _ _ (Reach.init _)) [] 1522 1 [2, 3]).2.1⟩


/-! ## Chunked decoding against byte-by-byte decoding -/

theorem consumed_append (l1 l2 : List (Int × Nat)) :
    consumed (l1 ++ l2) = consumed l1 + consumed l2 := by
  simp [consumed]

theorem events_append (K : QcaFrmConsts) (l1 l2 : List (Int × Nat)) (pos : Nat) :
    events K pos (l1 ++ l2) = events K pos l1 ++ events K (pos + consumed l1) l2 := by
  induction l1 generalizing pos with
  | nil => simp [events, consumed]
  | cons x l1 ih =>
    obtain ⟨ret, n⟩ := x
    have e : pos + consumed ((ret, n) :: l1) = pos + n + consumed l1 := by
      simp [consumed]; omega
    rw [e]
    simp only [List.cons_append, events, List.append_eq, ih]
    split_ifs <;> simp

theorem events_replicate_gather (K : QcaFrmConsts) (k pos : Nat) :
    events K pos (List.replicate k (K.GATHER, 1)) = [] := by
  induction k generalizing pos with
  | zero => rfl
  | succ k ih => simp [List.replicate_succ, events, ih]

theorem consumed_replicate_one (k : Nat) (x : Int) :
    consumed (List.replicate k (x, 1)) = k := by
  simp [consumed]

theorem Run.Equiv.refl (K : QcaFrmConsts) (r : Run) : Run.Equiv K r r :=
  ⟨rfl, rfl, rfl, rfl⟩

theorem Run.Equiv.symm {K : QcaFrmConsts} {r r' : Run} (h : Run.Equiv K r r') :
    Run.Equiv K r' r :=
  ⟨h.1.symm, h.2.1.symm, h.2.2.1.symm, h.2.2.2.symm⟩

theorem Run.Equiv.trans {K : QcaFrmConsts} {r1 r2 r3 : Run} (h : Run.Equiv K r1 r2)
    (h' : Run.Equiv K r2 r3) : Run.Equiv K r1 r3 :=
  ⟨h.1.trans h'.1, h.2.1.trans h'.2.1, h.2.2.1.trans h'.2.2.1, h.2.2.2.trans h'.2.2.2⟩

theorem call_congr (K : QcaFrmConsts) (buf_len : Nat) (r r' : Run) (c : List Nat)
    (h : Run.Equiv K r r') : Run.Equiv K (r.call K buf_len c) (r'.call K buf_len c) := by
  obtain ⟨h1, h2, h3, h4⟩ := h
  simp only [Run.Equiv, Run.call, h1, h2, consumed_append, events_append, h3, h4, and_self]

theorem runBytes_cons (K : QcaFrmConsts) (buf_len : Nat) (r : Run) (b : Nat) (bs : List Nat) :
    runBytes K buf_len r (b :: bs) = runBytes K buf_len (r.call K buf_len [b]) bs := rfl

theorem runBytes_append (K : QcaFrmConsts) (buf_len : Nat) (r : Run) (a b : List Nat) :
    runBytes K buf_len r (a ++ b) = runBytes K buf_len (runBytes K buf_len r a) b := by
  simp [runBytes, List.foldl_append]

theorem runBytes_congr (K : QcaFrmConsts) (buf_len : Nat) (bs : List Nat) (r r' : Run)
    (h : Run.Equiv K r r') : Run.Equiv K (runBytes K buf_len r bs) (runBytes K buf_len r' bs) := by
  induction bs generalizing r r' with
  | nil => exact h
  | cons b bs ih =>
    rw [runBytes_cons, runBytes_cons]
    exact ih _ _ (call_congr K buf_len r r' [b] h)

theorem allOK_congr (K : QcaFrmConsts) (buf_len : Nat) (bs : List Nat) (r r' : Run)
    (h : Run.Equiv K r r') (ha : AllOK K buf_len r bs) : AllOK K buf_len r' bs := by
  induction bs generalizing r r' with
  | nil => trivial
  | cons b bs ih =>
    exact ⟨h.1 ▸ ha.1, ih _ _ (call_congr K buf_len r r' [b] h) ha.2⟩

theorem allOK_append (K : QcaFrmConsts) (buf_len : Nat) (a b : List Nat) (r : Run) :
    AllOK K buf_len r (a ++ b)
      ↔ AllOK K buf_len r a ∧ AllOK K buf_len (runBytes K buf_len r a) b := by
  induction a generalizing r with
  | nil => simp [AllOK, runBytes]
  | cons x a ih =>
    simp only [List.cons_append, AllOK, List.append_eq, runBytes_cons, ih, and_assoc]


theorem decode_named_head (K : QcaFrmConsts) (h13 : 13 ≤ K.HW_LEN0) (h : QcaFrmHdl)
    (buf : List Nat) (buf_len : Nat) (b : Nat) (rest : List Nat) (hn : isNamed K h.state) :
    QcaFrmFsmDecode K h buf buf_len (b :: rest) = QcaFrmFsmDecode K h buf buf_len [b] := by
  by_cases c1 : h.state = QCAFRM_HW_LEN0 K ∨ h.state = QCAFRM_HW_LEN1 K
  · rw [decode_hw_len01 _ _ _ _ _ c1, decode_hw_len01 _ _ _ _ _ c1]; rfl
  by_cases c2 : h.state = QCAFRM_HW_LEN2 K ∨ h.state = QCAFRM_HW_LEN3 K
  · rw [decode_hw_len23 _ _ _ _ _ c2, decode_hw_len23 _ _ _ _ _ c2]
  by_cases c3 : h.state = QCAFRM_WAIT_AA1 K ∨ h.state = QCAFRM_WAIT_AA2 K
        ∨ h.state = QCAFRM_WAIT_AA3 K ∨ h.state = QCAFRM_WAIT_AA4 K
  · rw [decode_wait_aa _ _ _ _ _ c3, decode_wait_aa _ _ _ _ _ c3]; rfl
  by_cases c4 : h.state = QCAFRM_WAIT_LEN_BYTE0 K
  · rw [decode_len_byte0 _ _ _ _ _ c4, decode_len_byte0 _ _ _ _ _ c4]; rfl
  by_cases c5 : h.state = QCAFRM_WAIT_LEN_BYTE1 K
  · rw [decode_len_byte1 _ _ _ _ _ c5, decode_len_byte1 _ _ _ _ _ c5]; rfl
  by_cases c6 : h.state = QCAFRM_WAIT_RSVD_BYTE1 K
  · rw [decode_rsvd1 _ _ _ _ _ c6, decode_rsvd1 _ _ _ _ _ c6]
  by_cases c7 : h.state = QCAFRM_WAIT_RSVD_BYTE2 K
  · rw [decode_rsvd2 _ _ _ _ _ c7, decode_rsvd2 _ _ _ _ _ c7]
  by_cases c8 : h.state = QCAFRM_WAIT_551
  · rw [decode_wait_551 _ h13 _ _ _ _ c8, decode_wait_551 _ h13 _ _ _ _ c8]; rfl
  by_cases c9 : h.state = QCAFRM_WAIT_552
  · rw [decode_wait_552 _ h13 _ _ _ _ c9, decode_wait_552 _ h13 _ _ _ _ c9]; rfl
  exfalso
  simp only [isNamed, QCAFRM_HW_LEN0, QCAFRM_HW_LEN1, QCAFRM_HW_LEN2, QCAFRM_HW_LEN3,
    QCAFRM_WAIT_AA1, QCAFRM_WAIT_AA2, QCAFRM_WAIT_AA3, QCAFRM_WAIT_AA4,
    QCAFRM_WAIT_LEN_BYTE0, QCAFRM_WAIT_LEN_BYTE1, QCAFRM_WAIT_RSVD_BYTE1,
    QCAFRM_WAIT_RSVD_BYTE2, QCAFRM_WAIT_551, QCAFRM_WAIT_552] at *
  omega

theorem named_bytes_proc (K : QcaFrmConsts) (h13 : 13 ≤ K.HW_LEN0) (h : QcaFrmHdl)
    (buf : List Nat) (buf_len : Nat) (recvBuf : List Nat) (hn : isNamed K h.state) :
    (QcaFrmFsmDecode K h buf buf_len recvBuf).bytes_proc = 1 := by
  apply decode_elim K h13 h buf buf_len recvBuf (fun o => o.bytes_proc = 1)
  case gather => intro hh; exact absurd hn hh
  all_goals intros
  all_goals rfl

theorem gatherOK_not_named (K : QcaFrmConsts) (h : QcaFrmHdl) (hg : GatherOK K h)
    (hlt : h.offset < h.len) : ¬ isNamed K h.state := by
  simp only [GatherOK, isNamed, QCAFRM_WAIT_551, QCAFRM_WAIT_552] at *
  omega

theorem stepOK_gather (K : QcaFrmConsts) (h : QcaFrmHdl) (hs : StepOK K h)
    (hn : ¬ isNamed K h.state) : GatherOK K h ∧ h.offset < h.len := by
  have hg := hs hn
  refine ⟨hg, ?_⟩
  simp only [GatherOK, isNamed, QCAFRM_WAIT_551, QCAFRM_WAIT_552] at *
  omega

/-- One call in a gathering state, on a chunk of `rest.length + 1` bytes. -/
theorem decode_gather (K : QcaFrmConsts) (h : QcaFrmHdl) (buf : List Nat) (buf_len : Nat)
    (b : Nat) (rest : List Nat) (hg : GatherOK K h) (hlt : h.offset < h.len) :
    QcaFrmFsmDecode K h buf buf_len (b :: rest) =
      ⟨K.GATHER, min (rest.length + 1) (h.len - h.offset),
        ⟨h.state - ((min (rest.length + 1) (h.len - h.offset) : Nat) : Int),
          h.offset + min (rest.length + 1) (h.len - h.offset), h.len⟩,
        memcpy buf h.offset ((b :: rest).take (min (rest.length + 1) (h.len - h.offset)))⟩ := by
  rw [decode_default K h buf buf_len (b :: rest) (gatherOK_not_named K h hg hlt)]
  have e := gatherLen_eq h (b :: rest).length hg.1 hg.2.2.1
  rw [List.length_cons] at e
  rw [List.length_cons, e]
  have hm : min (rest.length + 1) (h.len - h.offset) ≤ h.len - h.offset := Nat.min_le_right _ _
  have e2 : (h.offset + min (rest.length + 1) (h.len - h.offset)) % 65536
      = h.offset + min (rest.length + 1) (h.len - h.offset) := by
    have := hg.2.2.1
    omega
  rw [e2]

/-- Decoding `bs` one byte per call from a gathering handle that still expects at least
`bs.length` bytes: every call copies one byte and returns `GATHER`. -/
theorem runBytes_gather (K : QcaFrmConsts) (buf_len : Nat) (bs : List Nat) (r : Run)
    (hg : GatherOK K r.frmHdl) (hl : bs.length ≤ r.frmHdl.len - r.frmHdl.offset) :
    runBytes K buf_len r bs =
      ⟨⟨r.frmHdl.state - (bs.length : Int), r.frmHdl.offset + bs.length, r.frmHdl.len⟩,
        memcpy r.buf r.frmHdl.offset bs, r.log ++ List.replicate bs.length (K.GATHER, 1)⟩
    ∧ AllOK K buf_len r bs := by
  induction bs generalizing r with
  | nil =>
    obtain ⟨⟨s, o, l⟩, buf, log⟩ := r
    simp [runBytes, memcpy, AllOK]
  | cons b bs ih =>
    have hlt : r.frmHdl.offset < r.frmHdl.len := by
      simp only [List.length_cons] at hl; omega
    have hc : r.call K buf_len [b] =
        ⟨⟨r.frmHdl.state - 1, r.frmHdl.offset + 1, r.frmHdl.len⟩,
          memcpy r.buf r.frmHdl.offset [b], r.log ++ [(K.GATHER, 1)]⟩ := by
      have hm : min (([] : List Nat).length + 1) (r.frmHdl.len - r.frmHdl.offset) = 1 := by
        simp only [List.length_nil]; omega
      simp only [Run.call, decode_gather K r.frmHdl r.buf buf_len b [] hg hlt, hm]
      simp
    have hg1 : GatherOK K (r.call K buf_len [b]).frmHdl := by
      rw [hc]
      simp only [GatherOK] at hg ⊢
      omega
    have hl1 : bs.length ≤ (r.call K buf_len [b]).frmHdl.len
        - (r.call K buf_len [b]).frmHdl.offset := by
      rw [hc]; simp only [List.length_cons] at hl ⊢; omega
    obtain ⟨i1, i2⟩ := ih (r.call K buf_len [b]) hg1 hl1
    refine ⟨?_, fun _ => hg, i2⟩
    rw [runBytes_cons, i1, hc]
    simp only [List.length_cons, memcpy, List.replicate_succ, List.append_assoc,
      List.singleton_append, Run.mk.injEq, QcaFrmHdl.mk.injEq, and_true, true_and]
    constructor
    · push_cast; omega
    · omega


/-- One call on a chunk does what byte-by-byte decoding does on the bytes it consumes. -/
theorem call_equiv_take (K : QcaFrmConsts) (h13 : 13 ≤ K.HW_LEN0) (buf_len : Nat) (r : Run)
    (b : Nat) (rest : List Nat) (hs : StepOK K r.frmHdl) :
    1 ≤ (QcaFrmFsmDecode K r.frmHdl r.buf buf_len (b :: rest)).bytes_proc
    ∧ (QcaFrmFsmDecode K r.frmHdl r.buf buf_len (b :: rest)).bytes_proc ≤ rest.length + 1
    ∧ Run.Equiv K (r.call K buf_len (b :: rest))
        (runBytes K buf_len r
          ((b :: rest).take (QcaFrmFsmDecode K r.frmHdl r.buf buf_len (b :: rest)).bytes_proc)) := by
  by_cases hn : isNamed K r.frmHdl.state
  · have e1 := named_bytes_proc K h13 r.frmHdl r.buf buf_len (b :: rest) hn
    have e2 := decode_named_head K h13 r.frmHdl r.buf buf_len b rest hn
    rw [e1]
    refine ⟨le_refl _, by omega, ?_⟩
    have : r.call K buf_len (b :: rest) = runBytes K buf_len r (List.take 1 (b :: rest)) := by
      simp [runBytes, Run.call, e2]
    rw [this]
    exact Run.Equiv.refl K _
  · obtain ⟨hg, hlt⟩ := stepOK_gather K r.frmHdl hs hn
    have hd := decode_gather K r.frmHdl r.buf buf_len b rest hg hlt
    have hc : r.call K buf_len (b :: rest) =
        ⟨⟨r.frmHdl.state - ((min (rest.length + 1) (r.frmHdl.len - r.frmHdl.offset) : Nat) : Int),
            r.frmHdl.offset + min (rest.length + 1) (r.frmHdl.len - r.frmHdl.offset),
            r.frmHdl.len⟩,
          memcpy r.buf r.frmHdl.offset
            ((b :: rest).take (min (rest.length + 1) (r.frmHdl.len - r.frmHdl.offset))),
          r.log ++ [(K.GATHER, min (rest.length + 1) (r.frmHdl.len - r.frmHdl.offset))]⟩ := by
      simp only [Run.call, hd]
    have hbp : (QcaFrmFsmDecode K r.frmHdl r.buf buf_len (b :: rest)).bytes_proc
        = min (rest.length + 1) (r.frmHdl.len - r.frmHdl.offset) := by rw [hd]
    rw [hbp, hc]
    generalize hcdef : min (rest.length + 1) (r.frmHdl.len - r.frmHdl.offset) = c
    have hc1 : 1 ≤ c := by omega
    have hc2 : c ≤ rest.length + 1 := by omega
    have hc3 : c ≤ r.frmHdl.len - r.frmHdl.offset := by omega
    have hlen : ((b :: rest).take c).length = c := by
      rw [List.length_take, List.length_cons]; omega
    obtain ⟨i1, -⟩ := runBytes_gather K buf_len ((b :: rest).take c) r hg (by rw [hlen]; exact hc3)
    rw [i1, hlen]
    refine ⟨hc1, hc2, rfl, rfl, ?_, ?_⟩
    · simp [consumed_append, consumed]
    · simp [events_append, events, events_replicate_gather]

/-- The caller's loop over one chunk ends and agrees with byte-by-byte decoding. -/
theorem feed_equiv (K : QcaFrmConsts) (h13 : 13 ≤ K.HW_LEN0) (buf_len : Nat) (fuel : Nat)
    (r : Run) (chunk : List Nat) (hf : chunk.length ≤ fuel) (ha : AllOK K buf_len r chunk) :
    ∃ r', feed K buf_len fuel r chunk = some r'
      ∧ Run.Equiv K r' (runBytes K buf_len r chunk) := by
  induction fuel generalizing r chunk with
  | zero =>
    have : chunk = [] := List.length_eq_zero.mp (by omega)
    subst this
    exact ⟨r, rfl, Run.Equiv.refl K _⟩
  | succ fuel ih =>
    cases chunk with
    | nil => exact ⟨r, rfl, Run.Equiv.refl K _⟩
    | cons b rest =>
      obtain ⟨h1, h2, heq⟩ := call_equiv_take K h13 buf_len r b rest ha.1
      generalize hbp : (QcaFrmFsmDecode K r.frmHdl r.buf buf_len (b :: rest)).bytes_proc = bp
        at h1 h2 heq
      have hsplit : (b :: rest) = (b :: rest).take bp ++ (b :: rest).drop bp :=
        (List.take_append_drop bp (b :: rest)).symm
      have ha2 : AllOK K buf_len (runBytes K buf_len r ((b :: rest).take bp))
          ((b :: rest).drop bp) := by
        have := ha
        rw [hsplit, allOK_append] at this
        exact this.2
      have ha3 := allOK_congr K buf_len _ _ _ heq.symm ha2
      have hlen : ((b :: rest).drop bp).length ≤ fuel := by
        rw [List.length_drop]; simp only [List.length_cons] at hf ⊢; omega
      obtain ⟨r', e1, e2⟩ := ih (r.call K buf_len (b :: rest)) ((b :: rest).drop bp) hlen ha3
      refine ⟨r', ?_, ?_⟩
      · simp only [feed, hbp]; exact e1
      · have e3 := runBytes_congr K buf_len ((b :: rest).drop bp) _ _ heq
        rw [← runBytes_append, ← hsplit] at e3
        exact e2.trans e3

/-- The caller's loop over a sequence of chunks ends and agrees with byte-by-byte decoding
of the concatenated chunks. -/
theorem feedChunks_equiv (K : QcaFrmConsts) (h13 : 13 ≤ K.HW_LEN0) (buf_len : Nat)
    (chunks : List (List Nat)) (r : Run) (ha : AllOK K buf_len r chunks.flatten) :
    ∃ r', feedChunks K buf_len r chunks = some r'
      ∧ Run.Equiv K r' (runBytes K buf_len r chunks.flatten) := by
  induction chunks generalizing r with
  | nil => exact ⟨r, rfl, Run.Equiv.refl K _⟩
  | cons c cs ih =>
    rw [List.flatten_cons, allOK_append] at ha
    obtain ⟨r1, e1, q1⟩ := feed_equiv K h13 buf_len c.length r c (le_refl _) ha.1
    obtain ⟨r2, e2, q2⟩ := ih r1 (allOK_congr K buf_len _ _ _ q1.symm ha.2)
    refine ⟨r2, ?_, ?_⟩
    · simp only [feedChunks, e1, Option.bind_some]; exact e2
    · rw [List.flatten_cons, runBytes_append]
      exact q2.trans (runBytes_congr K buf_len cs.flatten _ _ q1)


/-! ## Decoding one frame byte by byte -/

theorem call_eq (K : QcaFrmConsts) (buf_len : Nat) (r : Run) (c : List Nat) (o : DecodeOut)
    (h : QcaFrmFsmDecode K r.frmHdl r.buf buf_len c = o) :
    r.call K buf_len c = ⟨o.frmHdl, o.buf, r.log ++ [(o.ret, o.bytes_proc)]⟩ := by
  subst h; rfl

theorem stepOK_of_named (K : QcaFrmConsts) (h : QcaFrmHdl) (hn : isNamed K h.state) :
    StepOK K h := fun hnn => absurd hn hnn

theorem call_aa (K : QcaFrmConsts) (buf_len : Nat) (st st' : Int) (o l : Nat)
    (buf : List Nat) (log : List (Int × Nat))
    (hst : K.HW_LEN0 - 7 ≤ st ∧ st ≤ K.HW_LEN0 - 4) (h' : st' = st - 1) :
    Run.call K buf_len ⟨⟨st, o, l⟩, buf, log⟩ [0xAA]
      = ⟨⟨st', o, l⟩, buf, log ++ [(K.GATHER, 1)]⟩ := by
  rw [call_eq K buf_len _ _ _ (decode_wait_aa K ⟨st, o, l⟩ buf buf_len [0xAA]
    (by simp only [QCAFRM_WAIT_AA1, QCAFRM_WAIT_AA2, QCAFRM_WAIT_AA3, QCAFRM_WAIT_AA4]; omega))]
  subst h'
  simp

theorem call_len0 (K : QcaFrmConsts) (buf_len : Nat) (st st' : Int) (o l b : Nat)
    (buf : List Nat) (log : List (Int × Nat))
    (hst : st = K.HW_LEN0 - 8) (h' : st' = st - 1) :
    Run.call K buf_len ⟨⟨st, o, l⟩, buf, log⟩ [b]
      = ⟨⟨st', o, b % 65536⟩, buf, log ++ [(K.GATHER, 1)]⟩ := by
  rw [call_eq K buf_len _ _ _ (decode_len_byte0 K ⟨st, o, l⟩ buf buf_len [b] hst)]
  subst h'
  simp

theorem call_len1 (K : QcaFrmConsts) (buf_len : Nat) (st st' : Int) (o l b : Nat)
    (buf : List Nat) (log : List (Int × Nat))
    (hst : st = K.HW_LEN0 - 9) (h' : st' = st - 1) :
    Run.call K buf_len ⟨⟨st, o, l⟩, buf, log⟩ [b]
      = ⟨⟨st', o, (l ||| (b <<< 8)) % 65536⟩, buf, log ++ [(K.GATHER, 1)]⟩ := by
  rw [call_eq K buf_len _ _ _ (decode_len_byte1 K ⟨st, o, l⟩ buf buf_len [b] hst)]
  subst h'
  simp

theorem call_rsvd1 (K : QcaFrmConsts) (buf_len : Nat) (st st' : Int) (o l b : Nat)
    (buf : List Nat) (log : List (Int × Nat))
    (hst : st = K.HW_LEN0 - 10) (h' : st' = st - 1) :
    Run.call K buf_len ⟨⟨st, o, l⟩, buf, log⟩ [b]
      = ⟨⟨st', o, l⟩, buf, log ++ [(K.GATHER, 1)]⟩ := by
  rw [call_eq K buf_len _ _ _ (decode_rsvd1 K ⟨st, o, l⟩ buf buf_len [b] hst)]
  subst h'
  simp

theorem call_rsvd2_ok (K : QcaFrmConsts) (buf_len : Nat) (st : Int) (o l b : Nat)
    (buf : List Nat) (log : List (Int × Nat))
    (hst : st = K.HW_LEN0 - 11) (hmin : K.ETHMINLEN ≤ l) (hmax : l ≤ buf_len) :
    Run.call K buf_len ⟨⟨st, o, l⟩, buf, log⟩ [b]
      = ⟨⟨(l : Int) + 1, 0, l⟩, buf, log ++ [(K.GATHER, 1)]⟩ := by
  rw [call_eq K buf_len _ _ _ (decode_rsvd2 K ⟨st, o, l⟩ buf buf_len [b] hst)]
  have : ¬ (l > buf_len ∨ l < K.ETHMINLEN) := by omega
  simp [this]

theorem call_551 (K : QcaFrmConsts) (h13 : 13 ≤ K.HW_LEN0) (buf_len : Nat) (o l : Nat)
    (buf : List Nat) (log : List (Int × Nat)) :
    Run.call K buf_len ⟨⟨1, o, l⟩, buf, log⟩ [0x55]
      = ⟨⟨0, o, l⟩, buf, log ++ [(K.GATHER, 1)]⟩ := by
  rw [call_eq K buf_len _ _ _ (decode_wait_551 K h13 ⟨1, o, l⟩ buf buf_len [0x55] rfl)]
  simp

theorem call_552 (K : QcaFrmConsts) (h13 : 13 ≤ K.HW_LEN0) (buf_len : Nat) (o l : Nat)
    (buf : List Nat) (log : List (Int × Nat)) :
    Run.call K buf_len ⟨⟨0, o, l⟩, buf, log⟩ [0x55]
      = ⟨⟨K.HW_LEN0, o, l⟩, buf, log ++ [((o : Int), 1)]⟩ := by
  rw [call_eq K buf_len _ _ _ (decode_wait_552 K h13 ⟨0, o, l⟩ buf buf_len [0x55] rfl)]
  simp [QCAFRM_HW_LEN0]

theorem len_bytes (n : Nat) (hn : n < 65536) :
    ((n % 256) % 65536 ||| ((n / 256) <<< 8)) % 65536 = n := by
  have h1 : 2 ^ 8 * (n / 256) + n % 256 = 2 ^ 8 * (n / 256) ||| n % 256 :=
    Nat.mul_add_lt_is_or (i := 8) (by omega) (n / 256)
  have h2 : (n / 256) <<< 8 = 2 ^ 8 * (n / 256) := by rw [Nat.shiftLeft_eq, Nat.mul_comm]
  rw [Nat.lor_comm, Nat.mod_eq_of_lt (by omega : n % 256 < 65536), h2, ← h1]
  omega

/-- The eight header bytes of a frame with payload length `n`, decoded one byte per call
from `QCAFRM_WAIT_AA1`: eight `GATHER` results, then the decoder gathers `n` bytes. -/
theorem run_header (K : QcaFrmConsts) (buf_len : Nat) (o l : Nat)
    (buf : List Nat) (log : List (Int × Nat)) (n x y : Nat) (hn : n < 65536)
    (hmin : K.ETHMINLEN ≤ n) (hmax : n ≤ buf_len) :
    runBytes K buf_len ⟨⟨K.HW_LEN0 - 4, o, l⟩, buf, log⟩
        [0xAA, 0xAA, 0xAA, 0xAA, n % 256, n / 256, x, y]
      = ⟨⟨(n : Int) + 1, 0, n⟩, buf, log ++ List.replicate 8 (K.GATHER, 1)⟩
    ∧ AllOK K buf_len ⟨⟨K.HW_LEN0 - 4, o, l⟩, buf, log⟩
        [0xAA, 0xAA, 0xAA, 0xAA, n % 256, n / 256, x, y] := by
  have c1 := call_aa K buf_len (K.HW_LEN0 - 4) (K.HW_LEN0 - 5) o l buf log (by omega) (by omega)
  have c2 := call_aa K buf_len (K.HW_LEN0 - 5) (K.HW_LEN0 - 6) o l buf
    (log ++ [(K.GATHER, 1)]) (by omega) (by omega)
  have c3 := call_aa K buf_len (K.HW_LEN0 - 6) (K.HW_LEN0 - 7) o l buf
    (log ++ [(K.GATHER, 1)] ++ [(K.GATHER, 1)]) (by omega) (by omega)
  have c4 := call_aa K buf_len (K.HW_LEN0 - 7) (K.HW_LEN0 - 8) o l buf
    (log ++ [(K.GATHER, 1)] ++ [(K.GATHER, 1)] ++ [(K.GATHER, 1)]) (by omega) (by omega)
  have c5 := call_len0 K buf_len (K.HW_LEN0 - 8) (K.HW_LEN0 - 9) o l (n % 256) buf
    (log ++ [(K.GATHER, 1)] ++ [(K.GATHER, 1)] ++ [(K.GATHER, 1)] ++ [(K.GATHER, 1)])
    rfl (by omega)
  have c6 := call_len1 K buf_len (K.HW_LEN0 - 9) (K.HW_LEN0 - 10) o (n % 256 % 65536) (n / 256)
    buf (log ++ [(K.GATHER, 1)] ++ [(K.GATHER, 1)] ++ [(K.GATHER, 1)] ++ [(K.GATHER, 1)]
      ++ [(K.GATHER, 1)]) rfl (by omega)
  rw [len_bytes n hn] at c6
  have c7 := call_rsvd1 K buf_len (K.HW_LEN0 - 10) (K.HW_LEN0 - 11) o n x buf
    (log ++ [(K.GATHER, 1)] ++ [(K.GATHER, 1)] ++ [(K.GATHER, 1)] ++ [(K.GATHER, 1)]
      ++ [(K.GATHER, 1)] ++ [(K.GATHER, 1)]) rfl (by omega)
  have c8 := call_rsvd2_ok K buf_len (K.HW_LEN0 - 11) o n y buf
    (log ++ [(K.GATHER, 1)] ++ [(K.GATHER, 1)] ++ [(K.GATHER, 1)] ++ [(K.GATHER, 1)]
      ++ [(K.GATHER, 1)] ++ [(K.GATHER, 1)] ++ [(K.GATHER, 1)]) rfl hmin hmax
  constructor
  · simp only [runBytes_cons, c1, c2, c3, c4, c5, c6, c7, c8]
    simp [runBytes, List.replicate]
  · simp only [AllOK, c1, c2, c3, c4, c5, c6, c7, c8, and_true]
    refine ⟨?_, ?_, ?_, ?_, ?_, ?_, ?_, ?_⟩
    all_goals apply stepOK_of_named
    all_goals simp only [isNamed]
    all_goals omega


theorem memcpy_length (src : List Nat) (buf : List Nat) (off : Nat) :
    (memcpy buf off src).length = buf.length := by
  induction src generalizing buf off with
  | nil => rfl
  | cons b src ih => simp [memcpy, ih]

/-- `memcpy` inside the buffer: the bytes before `off` and from `off + src.length` on stay,
the bytes in between are those of `src`. -/
theorem memcpy_eq (src : List Nat) (buf : List Nat) (off : Nat)
    (h : off + src.length ≤ buf.length) :
    memcpy buf off src = buf.take off ++ src ++ buf.drop (off + src.length) := by
  induction src generalizing buf off with
  | nil => simp [memcpy]
  | cons b src ih =>
    simp only [List.length_cons] at h
    have hlt : off < buf.length := by omega
    rw [memcpy, ih (buf.set off b) (off + 1) (by rw [List.length_set]; omega)]
    rw [List.drop_set_of_lt b buf (by omega : off < off + 1 + src.length)]
    rw [List.set_eq_take_cons_drop b hlt, List.take_append_eq_append_take]
    have e1 : (List.take off buf).length = off := by rw [List.length_take]; omega
    rw [List.take_of_length_le (by omega : (List.take off buf).length ≤ off + 1), e1]
    simp only [List.length_cons, Nat.add_sub_cancel_left, List.take_succ_cons, List.take_zero,
      List.append_assoc, List.singleton_append, List.cons_append]
    rw [Nat.add_assoc, Nat.add_comm 1]
    rfl

theorem memcpy_take (payload buf : List Nat) (h : payload.length ≤ buf.length) :
    (memcpy buf 0 payload).take payload.length = payload := by
  rw [memcpy_eq payload buf 0 (by omega)]
  simp

theorem encodeFrame_zero (payload : List Nat) (hn : payload.length < 65536) :
    encodeFrame payload 0
      = [0xAA, 0xAA, 0xAA, 0xAA, payload.length % 256, payload.length / 256, 0, 0]
        ++ payload ++ [0x55, 0x55] := by
  unfold encodeFrame
  rw [createHeader_zero _ _ hn (by simp)]
  simp [QcaFrmCreateFooter]

/-- A whole frame (version 0) decoded one byte per call from `QCAFRM_WAIT_AA1`: every call
returns `GATHER` except the last, which returns the payload length; the payload is at the
start of the output buffer and the decoder is back in the initial state. -/
theorem run_frame (K : QcaFrmConsts) (h13 : 13 ≤ K.HW_LEN0) (buf_len : Nat) (o l : Nat)
    (buf : List Nat) (log : List (Int × Nat)) (payload : List Nat)
    (hn : payload.length < 65536) (hmin : K.ETHMINLEN ≤ payload.length)
    (hmax : payload.length ≤ buf_len)
    (hno : (payload.length : Int) + 1 < K.HW_LEN0 - 11) :
    runBytes K buf_len ⟨⟨K.HW_LEN0 - 4, o, l⟩, buf, log⟩ (encodeFrame payload 0)
      = ⟨⟨K.HW_LEN0, payload.length, payload.length⟩, memcpy buf 0 payload,
          log ++ List.replicate (payload.length + 9) (K.GATHER, 1)
            ++ [((payload.length : Int), 1)]⟩
    ∧ AllOK K buf_len ⟨⟨K.HW_LEN0 - 4, o, l⟩, buf, log⟩ (encodeFrame payload 0) := by
  obtain ⟨r1, a1⟩ := run_header K buf_len o l buf log payload.length 0 0 hn hmin hmax
  have hg : GatherOK K (⟨⟨(payload.length : Int) + 1, 0, payload.length⟩, buf,
      log ++ List.replicate 8 (K.GATHER, 1)⟩ : Run).frmHdl := by
    simp only [GatherOK]; omega
  obtain ⟨r2, a2⟩ := runBytes_gather K buf_len payload
    ⟨⟨(payload.length : Int) + 1, 0, payload.length⟩, buf,
      log ++ List.replicate 8 (K.GATHER, 1)⟩ hg (by simp)
  have e2 : ((payload.length : Int) + 1 - (payload.length : Int)) = 1 := by omega
  simp only [e2, Nat.zero_add] at r2
  have c1 := call_551 K h13 buf_len payload.length payload.length (memcpy buf 0 payload)
    (log ++ List.replicate 8 (K.GATHER, 1) ++ List.replicate payload.length (K.GATHER, 1))
  have c2 := call_552 K h13 buf_len payload.length payload.length (memcpy buf 0 payload)
    (log ++ List.replicate 8 (K.GATHER, 1) ++ List.replicate payload.length (K.GATHER, 1)
      ++ [(K.GATHER, 1)])
  rw [encodeFrame_zero payload hn]
  constructor
  · rw [runBytes_append, runBytes_append, r1, r2]
    simp only [runBytes_cons, c1, c2]
    simp only [runBytes, List.foldl_nil, Run.mk.injEq, true_and]
    have hr : List.replicate (payload.length + 9) (K.GATHER, (1 : Nat))
        = List.replicate 8 (K.GATHER, 1)
          ++ (List.replicate payload.length (K.GATHER, 1) ++ [(K.GATHER, 1)]) := by
      rw [show payload.length + 9 = 8 + (payload.length + 1) by omega, List.replicate_add]
      congr 1
      exact List.replicate_succ' _ _
    rw [hr]
    simp only [List.append_assoc]
  · rw [allOK_append, allOK_append, runBytes_append, r1, r2]
    refine ⟨⟨a1, a2⟩, ?_⟩
    simp only [AllOK, c1, and_true]
    constructor
    · exact stepOK_of_named K _ (Or.inr (Or.inl rfl))
    · exact stepOK_of_named K _ (Or.inr (Or.inr rfl))


/-! ## Streams in which no accepted length reaches the named states -/

theorem stepOK_decode (K : QcaFrmConsts) (h13 : 13 ≤ K.HW_LEN0) (buf_len : Nat)
    (hbl : buf_len < 65536) (hno : (buf_len : Int) + 1 < K.HW_LEN0 - 11) (h : QcaFrmHdl)
    (buf : List Nat) (recvBuf : List Nat) (hs : StepOK K h) :
    StepOK K (QcaFrmFsmDecode K h buf buf_len recvBuf).frmHdl := by
  apply decode_elim K h13 h buf buf_len recvBuf (fun o => StepOK K o.frmHdl)
  case gather =>
    intro hn
    have hg := hs hn
    have e := gatherLen_eq h recvBuf.length hg.1 hg.2.2.1
    have hm : gatherLen h recvBuf.length ≤ h.len - h.offset := by
      rw [e]; exact Nat.min_le_right _ _
    simp only [StepOK, GatherOK, isNamed, QCAFRM_WAIT_551, QCAFRM_WAIT_552] at hn hg ⊢
    omega
  all_goals intros
  all_goals simp only [StepOK, GatherOK, QCAFRM_HW_LEN0, QCAFRM_HW_LEN1, QCAFRM_HW_LEN2,
      QCAFRM_HW_LEN3, QCAFRM_WAIT_AA1, QCAFRM_WAIT_AA2, QCAFRM_WAIT_AA3, QCAFRM_WAIT_AA4,
      QCAFRM_WAIT_LEN_BYTE0, QCAFRM_WAIT_LEN_BYTE1, QCAFRM_WAIT_RSVD_BYTE1,
      QCAFRM_WAIT_RSVD_BYTE2, QCAFRM_WAIT_551, QCAFRM_WAIT_552, isNamed] at *
  all_goals omega

theorem allOK_of_stepOK (K : QcaFrmConsts) (h13 : 13 ≤ K.HW_LEN0) (buf_len : Nat)
    (hbl : buf_len < 65536) (hno : (buf_len : Int) + 1 < K.HW_LEN0 - 11) (bs : List Nat)
    (r : Run) (hs : StepOK K r.frmHdl) : AllOK K buf_len r bs := by
  induction bs generalizing r with
  | nil => trivial
  | cons b bs ih =>
    exact ⟨hs, ih _ (stepOK_decode K h13 buf_len hbl hno r.frmHdl r.buf [b] hs)⟩

theorem stepOK_init (K : QcaFrmConsts) (h : QcaFrmHdl) : StepOK K (QcaFrmFsmInit K h) := by
  apply stepOK_of_named
  simp only [isNamed, QcaFrmFsmInit, QCAFRM_HW_LEN0]
  omega

theorem decode_buf_length (K : QcaFrmConsts) (h13 : 13 ≤ K.HW_LEN0) (h : QcaFrmHdl)
    (buf : List Nat) (buf_len : Nat) (recvBuf : List Nat) :
    (QcaFrmFsmDecode K h buf buf_len recvBuf).buf.length = buf.length := by
  apply decode_elim K h13 h buf buf_len recvBuf (fun o => o.buf.length = buf.length)
  case gather => intro _; exact memcpy_length _ _ _
  all_goals intros
  all_goals rfl

theorem runBytes_buf_length (K : QcaFrmConsts) (h13 : 13 ≤ K.HW_LEN0) (buf_len : Nat)
    (bs : List Nat) (r : Run) : (runBytes K buf_len r bs).buf.length = r.buf.length := by
  induction bs generalizing r with
  | nil => rfl
  | cons b bs ih =>
    rw [runBytes_cons, ih]
    exact decode_buf_length K h13 r.frmHdl r.buf buf_len [b]

theorem consumed_runBytes (K : QcaFrmConsts) (h13 : 13 ≤ K.HW_LEN0) (buf_len : Nat)
    (bs : List Nat) (r : Run) (ha : AllOK K buf_len r bs) :
    consumed (runBytes K buf_len r bs).log = consumed r.log + bs.length := by
  induction bs generalizing r with
  | nil => rfl
  | cons b bs ih =>
    rw [runBytes_cons, ih _ ha.2]
    obtain ⟨h1, h2, -⟩ := call_equiv_take K h13 buf_len r b [] ha.1
    have : (QcaFrmFsmDecode K r.frmHdl r.buf buf_len [b]).bytes_proc = 1 := by
      simp only [List.length_nil] at h2; omega
    simp only [Run.call, consumed_append, this, List.length_cons]
    simp [consumed]
    omega

theorem events_frame_log (K : QcaFrmConsts) (hK : K.WF) (log : List (Int × Nat)) (n : Nat)
    (hmin : K.ETHMINLEN ≤ n) :
    events K 0 (log ++ List.replicate (n + 9) (K.GATHER, 1) ++ [((n : Int), 1)])
      = events K 0 log ++ [(consumed log + n + 10, (n : Int))] := by
  have hne : (n : Int) ≠ K.GATHER := by
    have := hK.2.1
    have := hK.2.2.1
    omega
  rw [events_append, events_append, events_replicate_gather, consumed_append,
    consumed_replicate_one]
  simp [events, hne]
  omega


/-! ## Round trip, chunking and resynchronisation -/

/-- C1 (as amended): take a payload of length `n` with `QCAFRM_ETHMINLEN ≤ n ≤ buf_len`
and `n + 1` below the named header states, and a decoder in the state `QCAFRM_WAIT_AA1`
(where a freshly initialised decoder is after the four hardware-length bytes).  Feeding
header (version 0), payload and footer in any split into chunks, re-invoking on the
leftover bytes, ends with all `n + 10` bytes consumed; exactly one call returns something
else than `GATHER`: it is the call that consumes the last byte and it returns `n`; the first
`n` bytes of the output buffer are the payload and the decoder is in the initial state. -/
theorem C1_round_trip (K : QcaFrmConsts) (hK : K.WF) (h : QcaFrmHdl)
    (hs : h.state = QCAFRM_WAIT_AA1 K) (buf : List Nat) (buf_len : Nat)
    (hbl : buf_len < 65536) (payload : List Nat)
    (hmin : K.ETHMINLEN ≤ payload.length) (hmax : payload.length ≤ buf_len)
    (hno : (payload.length : Int) + 1 < K.HW_LEN0 - 11)
    (hbuf : payload.length ≤ buf.length) (chunks : List (List Nat))
    (hc : chunks.flatten = encodeFrame payload 0) :
    ∃ r, feedChunks K buf_len (Run.start h buf) chunks = some r
      ∧ events K 0 r.log = [(payload.length + 10, (payload.length : Int))]
      ∧ consumed r.log = payload.length + 10
      ∧ r.buf.take payload.length = payload
      ∧ r.frmHdl.state = QCAFRM_HW_LEN0 K := by
  have h13 : 13 ≤ K.HW_LEN0 := hK.1
  obtain ⟨st, o, l⟩ := h
  simp only [QCAFRM_WAIT_AA1] at hs
  subst hs
  obtain ⟨e1, a1⟩ := run_frame K h13 buf_len o l buf [] payload (by omega) hmin hmax hno
  obtain ⟨r, e2, q⟩ := feedChunks_equiv K h13 buf_len chunks
    (Run.start ⟨K.HW_LEN0 - 4, o, l⟩ buf) (by rw [hc]; exact a1)
  rw [hc] at q
  simp only [Run.start] at q
  rw [e1] at q
  obtain ⟨q1, q2, q3, q4⟩ := q
  refine ⟨r, e2, ?_, ?_, ?_, ?_⟩
  · rw [q4, events_frame_log K hK [] payload.length hmin]
    simp [events, consumed]
  · rw [q3]
    simp [consumed_append, consumed]
  · rw [q2]; exact memcpy_take payload buf hbuf
  · rw [q1]; rfl

set_option maxRecDepth 100000 in
/-- Witness for C1: the 70-byte frame `AA AA AA AA 3C 00 00 00`, 60 zero bytes, `55 55`, fed
in one chunk to a decoder in `QCAFRM_WAIT_AA1`, completes with length 60. -/
theorem C1_round_trip_witness :
    refConsts.WF
    ∧ ∃ r, feedChunks refConsts 1522 (Run.start ⟨32764, 0, 0⟩ (List.replicate 1522 0))
          [[0xAA, 0xAA, 0xAA, 0xAA, 0x3C, 0, 0, 0] ++ List.replicate 60 0 ++ [0x55, 0x55]] = some r
      ∧ events refConsts 0 r.log = [(70, 60)] ∧ r.buf.take 60 = List.replicate 60 0 :=
  ⟨by decide, by
    obtain ⟨r, h1, h2, -, h4, -⟩ := C1_round_trip refConsts (by decide) ⟨32764, 0, 0⟩ rfl
      (List.replicate 1522 0) 1522 (by decide) (List.replicate 60 0) (by decide) (by decide)
      (by decide) (by decide)
      [[0xAA, 0xAA, 0xAA, 0xAA, 0x3C, 0, 0, 0] ++ List.replicate 60 0 ++ [0x55, 0x55]]
      (by decide)
    exact ⟨r, h1, h2, h4⟩⟩

/-- Counterexample to C1 as stated: the 70-byte frame of the spec's example, fed in one
chunk (re-invoking on the leftover bytes) to a freshly initialised decoder, is consumed
entirely without any call returning a completed frame: every result is `GATHER` or
`NOHEAD`, and the decoder ends in the initial state. -/
theorem C1_counterexample :
    encodeFrame (List.replicate 60 0) 0
      = [0xAA, 0xAA, 0xAA, 0xAA, 0x3C, 0, 0, 0] ++ List.replicate 60 0 ++ [0x55, 0x55]
    ∧ (feedChunks refConsts 1522
        (Run.start (QcaFrmFsmInit refConsts ⟨0, 0, 0⟩) (List.replicate 1522 0))
        [encodeFrame (List.replicate 60 0) 0]).map
        (fun r => (consumed r.log, (r.log.map Prod.fst).eraseDups, r.frmHdl.state))
      = some (70, [refConsts.GATHER, refConsts.NOHEAD], QCAFRM_HW_LEN0 refConsts) := by
  decide

/-- C2 (as amended): when the output capacity is so small that no accepted length reaches
the named header states (`buf_len + 1` below `QCAFRM_WAIT_RSVD_BYTE2`), any two ways of
splitting an encoded frame into chunks, each driven from a freshly initialised handle,
end (both loops finish) with the same handle, the same output buffer, the same number of
bytes consumed and the same results other than `GATHER` at the same input positions. -/
theorem C2_chunking_invariance (K : QcaFrmConsts) (hK : K.WF) (h : QcaFrmHdl)
    (buf : List Nat) (buf_len : Nat) (hbl : buf_len < 65536)
    (hno : (buf_len : Int) + 1 < K.HW_LEN0 - 11) (payload : List Nat) (v : Nat)
    (cs1 cs2 : List (List Nat)) (h1 : cs1.flatten = encodeFrame payload v)
    (h2 : cs2.flatten = encodeFrame payload v) :
    ∃ r1 r2, feedChunks K buf_len (Run.start (QcaFrmFsmInit K h) buf) cs1 = some r1
      ∧ feedChunks K buf_len (Run.start (QcaFrmFsmInit K h) buf) cs2 = some r2
      ∧ r1.frmHdl = r2.frmHdl ∧ r1.buf = r2.buf
      ∧ consumed r1.log = consumed r2.log
      ∧ events K 0 r1.log = events K 0 r2.log := by
  have h13 : 13 ≤ K.HW_LEN0 := hK.1
  have hs : StepOK K (Run.start (QcaFrmFsmInit K h) buf).frmHdl := stepOK_init K h
  obtain ⟨r1, e1, q1⟩ := feedChunks_equiv K h13 buf_len cs1 _
    (allOK_of_stepOK K h13 buf_len hbl hno cs1.flatten _ hs)
  obtain ⟨r2, e2, q2⟩ := feedChunks_equiv K h13 buf_len cs2 _
    (allOK_of_stepOK K h13 buf_len hbl hno cs2.flatten _ hs)
  rw [h1] at q1
  rw [h2] at q2
  exact ⟨r1, r2, e1, e2, q1.trans q2.symm⟩

/-- Witness for C2: the frame of a 60-byte payload fed as one chunk and fed in two chunks
(the 8 header bytes, then the rest). -/
theorem C2_chunking_invariance_witness :
    refConsts.WF ∧
    ∃ r1 r2, feedChunks refConsts 1522
          (Run.start (QcaFrmFsmInit refConsts ⟨0, 0, 0⟩) (List.replicate 1522 0))
          [encodeFrame (List.range 60) 0] = some r1
      ∧ feedChunks refConsts 1522
          (Run.start (QcaFrmFsmInit refConsts ⟨0, 0, 0⟩) (List.replicate 1522 0))
          [(encodeFrame (List.range 60) 0).take 8, (encodeFrame (List.range 60) 0).drop 8]
          = some r2
      ∧ r1.frmHdl = r2.frmHdl ∧ r1.buf = r2.buf
      ∧ consumed r1.log = consumed r2.log
      ∧ events refConsts 0 r1.log = events refConsts 0 r2.log :=
  ⟨by decide,
    C2_chunking_invariance refConsts (by decide) ⟨0, 0, 0⟩ (List.replicate 1522 0) 1522
      (by decide) (by decide) (List.range 60) 0 _ _ (by simp)
      (by simp [List.take_append_drop])⟩

/-- Counterexample to C2 as stated: with initial state `0x8000` and capacity 32770, the
valid frame whose 60-byte payload is `00 AA AA AA AA 02 80 00 00` followed by 51 zero bytes
decodes differently in one chunk and in one-byte chunks.  The payload makes the decoder
accept the length `0x8002`, so gathering starts in state `0x8003`, above the initial
state; one call on the rest of the chunk jumps over the named states (final state 32718,
`offset` 53, no result but `GATHER`), while byte by byte the countdown reaches the initial
state after 3 bytes and the remaining bytes are parsed as a header (final state `0x8000`,
`offset` 3, ten `NOHEAD` results). -/
theorem C2_counterexample :
    ([0, 0xAA, 0xAA, 0xAA, 0xAA, 0x02, 0x80, 0, 0] ++ List.replicate 51 0).length = 60
    ∧ (feedChunks refConsts 32770
        (Run.start (QcaFrmFsmInit refConsts ⟨0, 0, 0⟩) (List.replicate 32770 0))
        [encodeFrame ([0, 0xAA, 0xAA, 0xAA, 0xAA, 0x02, 0x80, 0, 0] ++ List.replicate 51 0) 0]).map
        (fun r => (r.frmHdl, (events refConsts 0 r.log).map Prod.snd))
      = some (⟨32718, 53, 32770⟩, [])
    ∧ (feedChunks refConsts 32770
        (Run.start (QcaFrmFsmInit refConsts ⟨0, 0, 0⟩) (List.replicate 32770 0))
        ((encodeFrame ([0, 0xAA, 0xAA, 0xAA, 0xAA, 0x02, 0x80, 0, 0] ++ List.replicate 51 0)
          0).map (fun b => [b]))).map
        (fun r => (r.frmHdl, (events refConsts 0 r.log).map Prod.snd))
      = some (⟨32768, 3, 32770⟩, List.replicate 10 refConsts.NOHEAD) := by
  decide


/-- C3 (as amended): let the output capacity be so small that no accepted length reaches
the named header states, and let the noise be such that the freshly initialised decoder,
after the noise, waits for the first preamble byte (`QCAFRM_WAIT_AA1`).  Then feeding
noise followed by a valid frame (version 0), in any split into chunks, ends with all bytes
consumed; the last result other than `GATHER` is the payload length, returned by the call
that consumes the frame's last footer byte; the first `n` bytes of the output buffer are
the payload and the decoder is in the initial state. -/
theorem C3_resynchronization (K : QcaFrmConsts) (hK : K.WF) (h : QcaFrmHdl)
    (buf : List Nat) (buf_len : Nat) (hbl : buf_len < 65536)
    (hno : (buf_len : Int) + 1 < K.HW_LEN0 - 11) (noise payload : List Nat)
    (hmin : K.ETHMINLEN ≤ payload.length) (hmax : payload.length ≤ buf_len)
    (hbuf : payload.length ≤ buf.length)
    (hnoise : (runBytes K buf_len (Run.start (QcaFrmFsmInit K h) buf) noise).frmHdl.state
      = QCAFRM_WAIT_AA1 K)
    (chunks : List (List Nat)) (hc : chunks.flatten = noise ++ encodeFrame payload 0) :
    ∃ r, feedChunks K buf_len (Run.start (QcaFrmFsmInit K h) buf) chunks = some r
      ∧ (events K 0 r.log).getLast?
          = some (noise.length + payload.length + 10, (payload.length : Int))
      ∧ consumed r.log = noise.length + payload.length + 10
      ∧ r.buf.take payload.length = payload
      ∧ r.frmHdl.state = QCAFRM_HW_LEN0 K := by
  have h13 : 13 ≤ K.HW_LEN0 := hK.1
  have hs : StepOK K (Run.start (QcaFrmFsmInit K h) buf).frmHdl := stepOK_init K h
  have ha := allOK_of_stepOK K h13 buf_len hbl hno chunks.flatten _ hs
  obtain ⟨r, e, q⟩ := feedChunks_equiv K h13 buf_len chunks _ ha
  rw [hc, runBytes_append] at q
  have hcn := consumed_runBytes K h13 buf_len noise _
    (allOK_of_stepOK K h13 buf_len hbl hno noise _ hs)
  have hbn := runBytes_buf_length K h13 buf_len noise (Run.start (QcaFrmFsmInit K h) buf)
  generalize runBytes K buf_len (Run.start (QcaFrmFsmInit K h) buf) noise = rn
    at q hnoise hcn hbn
  obtain ⟨⟨st, o, l⟩, bufn, logn⟩ := rn
  simp only [QCAFRM_WAIT_AA1] at hnoise
  subst hnoise
  obtain ⟨e1, -⟩ := run_frame K h13 buf_len o l bufn logn payload (by omega) hmin hmax
    (by omega)
  rw [e1] at q
  obtain ⟨q1, q2, q3, q4⟩ := q
  simp only [Run.start, consumed] at hcn hbn
  refine ⟨r, e, ?_, ?_, ?_, ?_⟩
  · rw [q4, events_frame_log K hK logn payload.length hmin]
    simp [consumed, hcn]
  · rw [q3]
    simp [consumed_append, consumed, hcn]
    omega
  · rw [q2]; exact memcpy_take payload bufn (by rw [hbn]; exact hbuf)
  · rw [q1]; rfl

set_option maxRecDepth 100000 in
/-- Witness for C3: the noise `13 37 00 00 00 00` (two bytes skipped in the initial state,
then the four hardware-length bytes) followed by the frame of a 60-byte payload. -/
theorem C3_resynchronization_witness :
    refConsts.WF
    ∧ ∃ r, feedChunks refConsts 1522
          (Run.start (QcaFrmFsmInit refConsts ⟨0, 0, 0⟩) (List.replicate 1522 0))
          [[0x13, 0x37, 0, 0, 0, 0] ++ encodeFrame (List.range 60) 0] = some r
      ∧ (events refConsts 0 r.log).getLast? = some (76, 60)
      ∧ r.buf.take 60 = List.range 60 :=
  ⟨by decide, by
    obtain ⟨r, h1, h2, -, h4, -⟩ := C3_resynchronization refConsts (by decide) ⟨0, 0, 0⟩
      (List.replicate 1522 0) 1522 (by decide) (by decide) [0x13, 0x37, 0, 0, 0, 0]
      (List.range 60) (by decide) (by decide) (by decide) (by decide)
      [[0x13, 0x37, 0, 0, 0, 0] ++ encodeFrame (List.range 60) 0] (by simp)
    exact ⟨r, h1, h2, h4⟩⟩

/-- Counterexample to C3 as stated: after the single noise byte `00`, neither the valid
70-byte frame of the spec's example nor the same frame behind the four hardware-length
bytes `00 00 00 00` is decoded by a freshly initialised decoder: all bytes are consumed,
every result is `GATHER` or `NOHEAD`, and no call returns a completed frame. -/
theorem C3_counterexample :
    (feedChunks refConsts 1522
        (Run.start (QcaFrmFsmInit refConsts ⟨0, 0, 0⟩) (List.replicate 1522 0))
        [[0] ++ encodeFrame (List.replicate 60 0) 0]).map
        (fun r => (consumed r.log, (r.log.map Prod.fst).eraseDups))
      = some (71, [refConsts.GATHER, refConsts.NOHEAD])
    ∧ (feedChunks refConsts 1522
        (Run.start (QcaFrmFsmInit refConsts ⟨0, 0, 0⟩) (List.replicate 1522 0))
        [[0] ++ ([0, 0, 0, 0] ++ encodeFrame (List.replicate 60 0) 0)]).map
        (fun r => (consumed r.log, (r.log.map Prod.fst).eraseDups))
      = some (75, [refConsts.GATHER, refConsts.NOHEAD]) := by
  decide


/-! ## Footer and queue-identifier emitters -/

/-- C11: for every buffer of at least 2 bytes, `QcaFrmCreateFooter` writes `55 55` at
indices 0..1 and returns 2, and `QcaFrmAddQID` writes `00, qid` at indices 0..1 and returns
2; both leave every byte at index 2 and above as it was.  Both are functions of their
arguments alone (no handle, no state). -/
theorem C11_two_byte_emitters (buf : List Nat) (qid : Nat) (hbuf : 2 ≤ buf.length) :
    QcaFrmCreateFooter buf = ([0x55, 0x55] ++ buf.drop 2, 2)
    ∧ QcaFrmAddQID buf qid = ([0x00, qid] ++ buf.drop 2, 2)
    ∧ (∀ i, 2 ≤ i → (QcaFrmCreateFooter buf).1[i]? = buf[i]?
        ∧ (QcaFrmAddQID buf qid).1[i]? = buf[i]?) := by
  match buf, hbuf with
  | a0 :: a1 :: t, _ =>
    refine ⟨rfl, rfl, ?_⟩
    intro i hi
    obtain ⟨j, rfl⟩ : ∃ j, i = j + 1 + 1 := ⟨i - 2, by omega⟩
    exact ⟨rfl, rfl⟩

/-- Witness for C11: on the buffer `1 2 3` the footer is `55 55 3` and the queue tag with
`qid = 7` is `00 07 3`. -/
theorem C11_two_byte_emitters_witness :
    QcaFrmCreateFooter [1, 2, 3] = ([0x55, 0x55, 3], 2)
    ∧ QcaFrmAddQID [1, 2, 3] 7 = ([0x00, 7, 3], 2) :=
  ⟨(C11_two_byte_emitters [1, 2, 3] 7 (by decide)).1,
   (C11_two_byte_emitters [1, 2, 3] 7 (by decide)).2.1⟩

/-! ## The gathering step -/

theorem memcpy_getElem_outside (src : List Nat) (buf : List Nat) (off i : Nat)
    (h : i < off ∨ off + src.length ≤ i) : (memcpy buf off src)[i]? = buf[i]? := by
  induction src generalizing buf off with
  | nil => rfl
  | cons b src ih =>
    simp only [List.length_cons] at h
    rw [memcpy, ih (buf.set off b) (off + 1) (by omega)]
    exact List.getElem?_set_ne (by omega)

/-- C13: in a gathering state with `offset ≤ len` (`len` a 16-bit value) and an input chunk
of `m` bytes, the call computes `c = min m (len - offset)`, returns `GATHER` with
`bytes_proc = c`, adds `c` to `offset`, subtracts `c` from the state and keeps `len`; the
output buffer gets input bytes `0..c-1` at indices `offset..offset+c-1` and is unchanged
elsewhere. -/
theorem C13_gathering_step (K : QcaFrmConsts) (h : QcaFrmHdl) (buf : List Nat)
    (buf_len : Nat) (recvBuf : List Nat) (hs : ¬ isNamed K h.state)
    (hol : h.offset ≤ h.len) (hl : h.len < 65536) (hbuf : h.len ≤ buf.length) (o : DecodeOut)
    (ho : QcaFrmFsmDecode K h buf buf_len recvBuf = o) :
    o.ret = K.GATHER
    ∧ o.bytes_proc = min recvBuf.length (h.len - h.offset)
    ∧ o.frmHdl = ⟨h.state - (o.bytes_proc : Int), h.offset + o.bytes_proc, h.len⟩
    ∧ o.buf = buf.take h.offset ++ recvBuf.take o.bytes_proc
        ++ buf.drop (h.offset + o.bytes_proc)
    ∧ (∀ i, i < h.offset ∨ h.offset + o.bytes_proc ≤ i → o.buf[i]? = buf[i]?)
    ∧ (∀ j, j < o.bytes_proc → o.buf[h.offset + j]? = recvBuf[j]?) := by
  subst ho
  rw [decode_default K h buf buf_len recvBuf hs]
  have e := gatherLen_eq h recvBuf.length hol hl
  have hc1 : gatherLen h recvBuf.length ≤ recvBuf.length := by rw [e]; exact Nat.min_le_left _ _
  have hc2 : gatherLen h recvBuf.length ≤ h.len - h.offset := by
    rw [e]; exact Nat.min_le_right _ _
  have hlen : (recvBuf.take (gatherLen h recvBuf.length)).length = gatherLen h recvBuf.length := by
    rw [List.length_take]; omega
  have hm := memcpy_eq (recvBuf.take (gatherLen h recvBuf.length)) buf h.offset
    (by rw [hlen]; omega)
  rw [hlen] at hm
  dsimp only
  refine ⟨rfl, e, ?_, hm, ?_, ?_⟩
  · have : (h.offset + gatherLen h recvBuf.length) % 65536
        = h.offset + gatherLen h recvBuf.length := by omega
    rw [this]
  · intro i hi
    exact memcpy_getElem_outside _ buf h.offset i (by rw [hlen]; exact hi)
  · intro j hj
    rw [hm, List.append_assoc, List.getElem?_append_right (by rw [List.length_take]; omega)]
    have e1 : (List.take h.offset buf).length = h.offset := by rw [List.length_take]; omega
    rw [e1, Nat.add_sub_cancel_left, List.getElem?_append_left (by rw [hlen]; exact hj),
      List.getElem?_take_of_lt hj]

/-- Witness for C13: gathering state 61 with `len = 60`, `offset = 0`, a 3-byte chunk and
a 60-byte buffer: `GATHER` is returned and `min 3 60` bytes are consumed. -/
theorem C13_gathering_step_witness :
    ¬ isNamed refConsts 61
    ∧ (QcaFrmFsmDecode refConsts ⟨61, 0, 60⟩ (List.replicate 60 0) 1522 [7, 8, 9]).ret
        = refConsts.GATHER
    ∧ (QcaFrmFsmDecode refConsts ⟨61, 0, 60⟩ (List.replicate 60 0) 1522 [7, 8, 9]).bytes_proc
        = min 3 60 :=
  ⟨by decide,
    (C13_gathering_step refConsts ⟨61, 0, 60⟩ (List.replicate 60 0) 1522 [7, 8, 9]
      (by decide) (by decide) (by decide) (by decide) _ rfl).1,
    (C13_gathering_step refConsts ⟨61, 0, 60⟩ (List.replicate 60 0) 1522 [7, 8, 9]
      (by decide) (by decide) (by decide) (by decide) _ rfl).2.1⟩


/-! ## Invariants of the reachable handles -/

theorem footInv_decode (K : QcaFrmConsts) (hK : K.WF) (h : QcaFrmHdl) (buf : List Nat)
    (buf_len : Nat) (recvBuf : List Nat) (hi : HdlInv K h) (hf : FootInv h) :
    FootInv (QcaFrmFsmDecode K h buf buf_len recvBuf).frmHdl := by
  obtain ⟨h13, hmin, -⟩ := hK
  apply decode_elim K h13 h buf buf_len recvBuf (fun o => FootInv o.frmHdl)
  case gather =>
    intro hn
    obtain ⟨i1, i2⟩ := hi
    have i3 := i2 hn
    have i4 : h.len < 65536 := by
      simp only [isNamed, QCAFRM_WAIT_551, QCAFRM_WAIT_552] at hn; omega
    have hg := gatherLen_eq h recvBuf.length i3.1 i4
    have hg2 : gatherLen h recvBuf.length ≤ h.len - h.offset := by
      rw [hg]; exact Nat.min_le_right _ _
    simp only [FootInv, isNamed, QCAFRM_WAIT_551, QCAFRM_WAIT_552] at hn ⊢
    omega
  all_goals intros
  all_goals simp only [FootInv, QCAFRM_HW_LEN0, QCAFRM_HW_LEN1, QCAFRM_HW_LEN2, QCAFRM_HW_LEN3,
      QCAFRM_WAIT_AA1, QCAFRM_WAIT_AA2, QCAFRM_WAIT_AA3, QCAFRM_WAIT_AA4,
      QCAFRM_WAIT_LEN_BYTE0, QCAFRM_WAIT_LEN_BYTE1, QCAFRM_WAIT_RSVD_BYTE1,
      QCAFRM_WAIT_RSVD_BYTE2, QCAFRM_WAIT_551, QCAFRM_WAIT_552, isNamed] at *
  all_goals omega

theorem capInv_decode (K : QcaFrmConsts) (h13 : 13 ≤ K.HW_LEN0) (C : Nat) (h : QcaFrmHdl)
    (buf : List Nat) (recvBuf : List Nat) (hc : CapInv K C h) :
    CapInv K C (QcaFrmFsmDecode K h buf C recvBuf).frmHdl := by
  apply decode_elim K h13 h buf C recvBuf (fun o => CapInv K C o.frmHdl)
  all_goals intros
  all_goals simp only [CapInv, QCAFRM_HW_LEN0, QCAFRM_HW_LEN1, QCAFRM_HW_LEN2, QCAFRM_HW_LEN3,
      QCAFRM_WAIT_AA1, QCAFRM_WAIT_AA2, QCAFRM_WAIT_AA3, QCAFRM_WAIT_AA4,
      QCAFRM_WAIT_LEN_BYTE0, QCAFRM_WAIT_LEN_BYTE1, QCAFRM_WAIT_RSVD_BYTE1,
      QCAFRM_WAIT_RSVD_BYTE2, QCAFRM_WAIT_551, QCAFRM_WAIT_552, isNamed] at *
  all_goals omega

theorem footInv_of_reach (K : QcaFrmConsts) (hK : K.WF) (h : QcaFrmHdl) (hr : Reach K h) :
    HdlInv K h ∧ FootInv h := by
  induction hr with
  | init h =>
    refine ⟨hdlInv_init K hK.1 h, ?_⟩
    have := hK.1
    simp only [FootInv, QcaFrmFsmInit, QCAFRM_HW_LEN0, QCAFRM_WAIT_551, QCAFRM_WAIT_552]
    omega
  | decode h buf buf_len recvBuf _ ih =>
    exact ⟨hdlInv_decode K hK.1 h buf buf_len recvBuf ih.1,
      footInv_decode K hK h buf buf_len recvBuf ih.1 ih.2⟩

theorem reach_of_reachCap (K : QcaFrmConsts) (C : Nat) (h : QcaFrmHdl)
    (hr : ReachCap K C h) : Reach K h := by
  induction hr with
  | init h => exact Reach.init h
  | decode h buf recvBuf _ ih => exact Reach.decode h buf C recvBuf ih

theorem capInv_of_reachCap (K : QcaFrmConsts) (h13 : 13 ≤ K.HW_LEN0) (C : Nat)
    (h : QcaFrmHdl) (hr : ReachCap K C h) : CapInv K C h := by
  induction hr with
  | init h =>
    simp only [CapInv, QcaFrmFsmInit, QCAFRM_HW_LEN0]
    omega
  | decode h buf recvBuf _ ih => exact capInv_decode K h13 C h buf recvBuf ih

/-- C12 (as amended): in every handle reachable from `QcaFrmFsmInit` by `QcaFrmFsmDecode`
calls, `offset ≤ len` holds whenever the decoder is gathering payload or waiting for a
footer byte (the states in which `offset` is read), and `offset = len` in the two footer
states. -/
theorem C12_offset_le_len (K : QcaFrmConsts) (hK : K.WF) (h : QcaFrmHdl) (hr : Reach K h) :
    ((¬ isNamed K h.state ∨ h.state = QCAFRM_WAIT_551 ∨ h.state = QCAFRM_WAIT_552) →
      h.offset ≤ h.len)
    ∧ ((h.state = QCAFRM_WAIT_551 ∨ h.state = QCAFRM_WAIT_552) → h.offset = h.len) := by
  obtain ⟨⟨-, i2⟩, hf⟩ := footInv_of_reach K hK h hr
  refine ⟨?_, hf⟩
  rintro (hn | hs)
  · exact (i2 hn).1
  · exact le_of_eq (hf hs)

set_option maxRecDepth 100000 in
/-- Witness for C12: after the hardware-length bytes, the header of a 60-byte frame and 10
payload bytes the decoder gathers with `offset = 10 ≤ len = 60`. -/
theorem C12_offset_le_len_witness :
    refConsts.WF
    ∧ (runBytes refConsts 1522 (Run.start (QcaFrmFsmInit refConsts ⟨0, 0, 0⟩) [])
        ([0, 0, 0, 0, 0xAA, 0xAA, 0xAA, 0xAA, 0x3C, 0, 0, 0] ++ List.replicate 10 7)).frmHdl
        = ⟨51, 10, 60⟩
    ∧ (runBytes refConsts 1522 (Run.start (QcaFrmFsmInit refConsts ⟨0, 0, 0⟩) [])
        ([0, 0, 0, 0, 0xAA, 0xAA, 0xAA, 0xAA, 0x3C, 0, 0, 0] ++ List.replicate 10 7)).frmHdl.offset
        ≤ (runBytes refConsts 1522 (Run.start (QcaFrmFsmInit refConsts ⟨0, 0, 0⟩) [])
        ([0, 0, 0, 0, 0xAA, 0xAA, 0xAA, 0xAA, 0x3C, 0, 0, 0] ++ List.replicate 10 7)).frmHdl.len :=
  ⟨by decide, by decide,
    (C12_offset_le_len refConsts (by decide) _
      (reach_runBytes refConsts 1522 _ _ (Reach.init _))).1 (Or.inl (by decide))⟩

set_option maxRecDepth 100000 in
/-- Counterexample to C12 as stated.  First, `QcaFrmFsmInit` writes only the state, so a
handle whose memory held `offset = 5`, `len = 0` is reachable with `offset > len`.  Second,
from a zeroed handle: after a complete 60-byte frame (behind the hardware-length bytes) the
next frame's hardware-length bytes, preamble and first length byte `00` leave the decoder
in `QCAFRM_WAIT_LEN_BYTE1` with `offset = 60` and `len = 0`. -/
theorem C12_counterexample :
    Reach refConsts (QcaFrmFsmInit refConsts ⟨7, 5, 0⟩)
    ∧ ¬ ((QcaFrmFsmInit refConsts ⟨7, 5, 0⟩).offset ≤ (QcaFrmFsmInit refConsts ⟨7, 5, 0⟩).len)
    ∧ Reach refConsts
        (runBytes refConsts 1522
          (Run.start (QcaFrmFsmInit refConsts ⟨0, 0, 0⟩) (List.replicate 1522 0))
          ([0, 0, 0, 0] ++ encodeFrame (List.replicate 60 0) 0
            ++ [0, 0, 0, 0, 0xAA, 0xAA, 0xAA, 0xAA, 0x00])).frmHdl
    ∧ (runBytes refConsts 1522
          (Run.start (QcaFrmFsmInit refConsts ⟨0, 0, 0⟩) (List.replicate 1522 0))
          ([0, 0, 0, 0] ++ encodeFrame (List.replicate 60 0) 0
            ++ [0, 0, 0, 0, 0xAA, 0xAA, 0xAA, 0xAA, 0x00])).frmHdl
        = ⟨QCAFRM_WAIT_LEN_BYTE1 refConsts, 60, 0⟩ :=
  ⟨Reach.init _, by decide, reach_runBytes refConsts 1522 _ _ (Reach.init _), by decide⟩

/-- C14 (as amended): in every payload-gathering state reachable from `QcaFrmFsmInit`, the
numeric value of the state is one more than the number of payload bytes still to be
received: `state = (len - offset) + 1`, with `offset ≤ len`. -/
theorem C14_countdown_overlay (K : QcaFrmConsts) (hK : K.WF) (h : QcaFrmHdl)
    (hr : Reach K h) (hn : ¬ isNamed K h.state) :
    h.state = ((h.len - h.offset : Nat) : Int) + 1 ∧ h.offset ≤ h.len ∧ 1 ≤ h.len - h.offset := by
  obtain ⟨-, i2⟩ := hdlInv_of_reach K hK.1 h hr
  obtain ⟨j1, j2⟩ := i2 hn
  simp only [isNamed, QCAFRM_WAIT_551, QCAFRM_WAIT_552] at hn
  omega

set_option maxRecDepth 100000 in
/-- Witness for C14: after the hardware-length bytes and the header of a 60-byte frame the
decoder is in the gathering state 61 with 60 bytes still to come. -/
theorem C14_countdown_overlay_witness :
    refConsts.WF
    ∧ (runBytes refConsts 1522 (Run.start (QcaFrmFsmInit refConsts ⟨0, 0, 0⟩) [])
        [0, 0, 0, 0, 0xAA, 0xAA, 0xAA, 0xAA, 0x3C, 0, 0, 0]).frmHdl = ⟨61, 0, 60⟩
    ∧ (runBytes refConsts 1522 (Run.start (QcaFrmFsmInit refConsts ⟨0, 0, 0⟩) [])
        [0, 0, 0, 0, 0xAA, 0xAA, 0xAA, 0xAA, 0x3C, 0, 0, 0]).frmHdl.state
      = (((runBytes refConsts 1522 (Run.start (QcaFrmFsmInit refConsts ⟨0, 0, 0⟩) [])
        [0, 0, 0, 0, 0xAA, 0xAA, 0xAA, 0xAA, 0x3C, 0, 0, 0]).frmHdl.len
        - (runBytes refConsts 1522 (Run.start (QcaFrmFsmInit refConsts ⟨0, 0, 0⟩) [])
        [0, 0, 0, 0, 0xAA, 0xAA, 0xAA, 0xAA, 0x3C, 0, 0, 0]).frmHdl.offset : Nat) : Int) + 1 :=
  ⟨by decide, by decide,
    (C14_countdown_overlay refConsts (by decide) _
      (reach_runBytes refConsts 1522 _ _ (Reach.init _)) (by decide)).1⟩

set_option maxRecDepth 100000 in
/-- Counterexample to C14 as stated: the reachable gathering handle after the header of a
60-byte frame has state 61, while `len - offset = 60` bytes are still to be received. -/
theorem C14_counterexample :
    Reach refConsts
      (runBytes refConsts 1522 (Run.start (QcaFrmFsmInit refConsts ⟨0, 0, 0⟩) [])
        [0, 0, 0, 0, 0xAA, 0xAA, 0xAA, 0xAA, 0x3C, 0, 0, 0]).frmHdl
    ∧ ¬ isNamed refConsts
      (runBytes refConsts 1522 (Run.start (QcaFrmFsmInit refConsts ⟨0, 0, 0⟩) [])
        [0, 0, 0, 0, 0xAA, 0xAA, 0xAA, 0xAA, 0x3C, 0, 0, 0]).frmHdl.state
    ∧ (runBytes refConsts 1522 (Run.start (QcaFrmFsmInit refConsts ⟨0, 0, 0⟩) [])
        [0, 0, 0, 0, 0xAA, 0xAA, 0xAA, 0xAA, 0x3C, 0, 0, 0]).frmHdl = ⟨61, 0, 60⟩
    ∧ (61 : Int) ≠ ((60 - 0 : Nat) : Int) :=
  ⟨reach_runBytes refConsts 1522 _ _ (Reach.init _), by decide, by decide, by decide⟩


/-! ## Output bounds and the range of completed-frame results -/

/-- C17: let the handle be reachable from `QcaFrmFsmInit` by `QcaFrmFsmDecode` calls that
all pass the capacity `C`, and consider one more call with capacity `C` on a non-empty
chunk.  In a gathering state the call satisfies `offset + bytes_proc ≤ len ≤ C` and changes
the output buffer only at indices from `offset` up to `offset + bytes_proc`, all below
`len`.  A result that is none of `GATHER`, `NOHEAD`, `INVLEN`, `NOTAIL` (a completed frame)
equals both `len` and `offset` and lies between `QCAFRM_ETHMINLEN` and `C`; it is what
`0x55` in `QCAFRM_WAIT_552` returns, and it is positive, so it differs from `GATHER`. -/
theorem C17_output_bounds (K : QcaFrmConsts) (hK : K.WF) (C : Nat) (h : QcaFrmHdl)
    (hr : ReachCap K C h) (buf : List Nat) (b : Nat) (rest : List Nat) (o : DecodeOut)
    (ho : QcaFrmFsmDecode K h buf C (b :: rest) = o) :
    (¬ isNamed K h.state →
      h.offset + o.bytes_proc ≤ h.len ∧ h.len ≤ C
      ∧ ∀ i, o.buf[i]? ≠ buf[i]? → h.offset ≤ i ∧ i < h.offset + o.bytes_proc ∧ i < h.len)
    ∧ ((o.ret ≠ K.GATHER ∧ o.ret ≠ K.NOHEAD ∧ o.ret ≠ K.INVLEN ∧ o.ret ≠ K.NOTAIL) →
      o.ret = (h.len : Int) ∧ o.ret = (h.offset : Int)
      ∧ K.ETHMINLEN ≤ h.len ∧ h.len ≤ C ∧ 0 < o.ret)
    ∧ (h.state = QCAFRM_WAIT_552 → b = 0x55 →
      o.ret = (h.len : Int) ∧ o.ret = (h.offset : Int)
      ∧ K.ETHMINLEN ≤ h.len ∧ h.len ≤ C ∧ o.ret ≠ K.GATHER) := by
  obtain ⟨h13, hmin, hg, hnh, hil, hnt, d1, d2, d3, d4, d5, d6⟩ := hK
  have hK : K.WF := ⟨h13, hmin, hg, hnh, hil, hnt, d1, d2, d3, d4, d5, d6⟩
  obtain ⟨⟨i1, i2⟩, hf⟩ := footInv_of_reach K hK h (reach_of_reachCap K C h hr)
  have hc := capInv_of_reachCap K h13 C h hr
  subst ho
  apply decode_elim K h13 h buf C (b :: rest)
    (fun o => (¬ isNamed K h.state →
      h.offset + o.bytes_proc ≤ h.len ∧ h.len ≤ C
      ∧ ∀ i, o.buf[i]? ≠ buf[i]? → h.offset ≤ i ∧ i < h.offset + o.bytes_proc ∧ i < h.len)
    ∧ ((o.ret ≠ K.GATHER ∧ o.ret ≠ K.NOHEAD ∧ o.ret ≠ K.INVLEN ∧ o.ret ≠ K.NOTAIL) →
      o.ret = (h.len : Int) ∧ o.ret = (h.offset : Int)
      ∧ K.ETHMINLEN ≤ h.len ∧ h.len ≤ C ∧ 0 < o.ret)
    ∧ (h.state = QCAFRM_WAIT_552 → b = 0x55 →
      o.ret = (h.len : Int) ∧ o.ret = (h.offset : Int)
      ∧ K.ETHMINLEN ≤ h.len ∧ h.len ≤ C ∧ o.ret ≠ K.GATHER))
  case gather =>
    intro hn
    have i3 := i2 hn
    have i4 : h.len < 65536 := by
      simp only [isNamed, QCAFRM_WAIT_551, QCAFRM_WAIT_552] at hn; omega
    have e := gatherLen_eq h (b :: rest).length i3.1 i4
    have hc2 : gatherLen h (b :: rest).length ≤ h.len - h.offset := by
      rw [e]; exact Nat.min_le_right _ _
    have hc1 : gatherLen h (b :: rest).length ≤ (b :: rest).length := by
      rw [e]; exact Nat.min_le_left _ _
    have hcap : K.ETHMINLEN ≤ h.len ∧ h.len ≤ C := by
      apply hc
      simp only [isNamed] at hn
      omega
    have hlen : ((b :: rest).take (gatherLen h (b :: rest).length)).length
        = gatherLen h (b :: rest).length := by
      rw [List.length_take]; omega
    refine ⟨fun _ => ⟨?_, hcap.2, ?_⟩, ?_, ?_⟩
    · dsimp only; omega
    · intro i hi
      dsimp only at hi ⊢
      by_contra hcon
      apply hi
      apply memcpy_getElem_outside
      rw [hlen]
      omega
    · intro hh; exact absurd rfl hh.1
    · intro hs; simp only [isNamed] at hn; exact absurd (Or.inr (Or.inr hs)) hn
  all_goals intros
  all_goals simp only [CapInv, FootInv, QCAFRM_HW_LEN0, QCAFRM_HW_LEN1, QCAFRM_HW_LEN2,
      QCAFRM_HW_LEN3, QCAFRM_WAIT_AA1, QCAFRM_WAIT_AA2, QCAFRM_WAIT_AA3, QCAFRM_WAIT_AA4,
      QCAFRM_WAIT_LEN_BYTE0, QCAFRM_WAIT_LEN_BYTE1, QCAFRM_WAIT_RSVD_BYTE1,
      QCAFRM_WAIT_RSVD_BYTE2, QCAFRM_WAIT_551, QCAFRM_WAIT_552, isNamed, List.headD_cons,
      ne_eq, not_true_eq_false, false_and, and_false, false_implies, true_and] at *
  all_goals omega

theorem reachCap_runBytes (K : QcaFrmConsts) (C : Nat) (bs : List Nat) (r : Run)
    (hr : ReachCap K C r.frmHdl) : ReachCap K C (runBytes K C r bs).frmHdl := by
  induction bs generalizing r with
  | nil => exact hr
  | cons b bs ih => exact ih _ (ReachCap.decode r.frmHdl r.buf [b] hr)

set_option maxRecDepth 100000 in
/-- Witness for C17: after the hardware-length bytes, the header of a 60-byte frame, the
payload and the first footer byte (all with capacity 1522) the handle is in
`QCAFRM_WAIT_552` with `offset = len = 60`; the byte `0x55` then returns `len`. -/
theorem C17_output_bounds_witness :
    refConsts.WF
    ∧ (runBytes refConsts 1522 (Run.start (QcaFrmFsmInit refConsts ⟨0, 0, 0⟩) [])
        ([0, 0, 0, 0, 0xAA, 0xAA, 0xAA, 0xAA, 0x3C, 0, 0, 0] ++ List.replicate 60 0
          ++ [0x55])).frmHdl = ⟨0, 60, 60⟩
    ∧ (QcaFrmFsmDecode refConsts
        (runBytes refConsts 1522 (Run.start (QcaFrmFsmInit refConsts ⟨0, 0, 0⟩) [])
          ([0, 0, 0, 0, 0xAA, 0xAA, 0xAA, 0xAA, 0x3C, 0, 0, 0] ++ List.replicate 60 0
            ++ [0x55])).frmHdl [] 1522 [0x55]).ret
      = ((runBytes refConsts 1522 (Run.start (QcaFrmFsmInit refConsts ⟨0, 0, 0⟩) [])
          ([0, 0, 0, 0, 0xAA, 0xAA, 0xAA, 0xAA, 0x3C, 0, 0, 0] ++ List.replicate 60 0
            ++ [0x55])).frmHdl.len : Int) :=
  ⟨by decide, by decide,
    ((C17_output_bounds refConsts (by decide) 1522 _
      (reachCap_runBytes refConsts 1522 _ _ (ReachCap.init _)) [] 0x55 [] _ rfl).2.2
      (by decide) rfl).1⟩


/-! ## The hardware-length states -/

theorem call_hw0 (K : QcaFrmConsts) (buf_len : Nat) (o l b : Nat) (buf : List Nat)
    (log : List (Int × Nat)) :
    Run.call K buf_len ⟨⟨K.HW_LEN0, o, l⟩, buf, log⟩ [b]
      = ⟨⟨if b = 0 then K.HW_LEN0 - 1 else K.HW_LEN0, o, l⟩, buf, log ++ [(K.GATHER, 1)]⟩ := by
  rw [call_eq K buf_len _ _ _ (decode_hw_len01 K ⟨K.HW_LEN0, o, l⟩ buf buf_len [b] (Or.inl rfl))]
  by_cases hb : b = 0 <;> simp [hb, QCAFRM_HW_LEN0]

theorem call_hw1 (K : QcaFrmConsts) (buf_len : Nat) (o l b : Nat) (buf : List Nat)
    (log : List (Int × Nat)) :
    Run.call K buf_len ⟨⟨K.HW_LEN0 - 1, o, l⟩, buf, log⟩ [b]
      = ⟨⟨if b = 0 then K.HW_LEN0 - 2 else K.HW_LEN0, o, l⟩, buf, log ++ [(K.GATHER, 1)]⟩ := by
  rw [call_eq K buf_len _ _ _
    (decode_hw_len01 K ⟨K.HW_LEN0 - 1, o, l⟩ buf buf_len [b] (Or.inr rfl))]
  by_cases hb : b = 0
  · simp only [hb, List.headD_cons, ne_eq, not_true_eq_false, if_false, if_true,
      Run.mk.injEq, QcaFrmHdl.mk.injEq, and_true, true_and]
    omega
  · simp [hb, QCAFRM_HW_LEN0]

theorem call_hw2 (K : QcaFrmConsts) (buf_len : Nat) (o l b : Nat) (buf : List Nat)
    (log : List (Int × Nat)) :
    Run.call K buf_len ⟨⟨K.HW_LEN0 - 2, o, l⟩, buf, log⟩ [b]
      = ⟨⟨K.HW_LEN0 - 3, o, l⟩, buf, log ++ [(K.GATHER, 1)]⟩ := by
  rw [call_eq K buf_len _ _ _
    (decode_hw_len23 K ⟨K.HW_LEN0 - 2, o, l⟩ buf buf_len [b] (Or.inl rfl))]
  simp only [Run.mk.injEq, QcaFrmHdl.mk.injEq, and_true, true_and]
  omega

theorem call_hw3 (K : QcaFrmConsts) (buf_len : Nat) (o l b : Nat) (buf : List Nat)
    (log : List (Int × Nat)) :
    Run.call K buf_len ⟨⟨K.HW_LEN0 - 3, o, l⟩, buf, log⟩ [b]
      = ⟨⟨K.HW_LEN0 - 4, o, l⟩, buf, log ++ [(K.GATHER, 1)]⟩ := by
  rw [call_eq K buf_len _ _ _
    (decode_hw_len23 K ⟨K.HW_LEN0 - 3, o, l⟩ buf buf_len [b] (Or.inr rfl))]
  simp only [Run.mk.injEq, QcaFrmHdl.mk.injEq, and_true, true_and]
  omega

/-- Four bytes decoded one per call from the initial state end in `QCAFRM_WAIT_AA1` exactly
when the first two are `00`. -/
theorem run_hw_four (K : QcaFrmConsts) (buf_len : Nat) (o l : Nat) (buf : List Nat)
    (log : List (Int × Nat)) (b0 b1 b2 b3 : Nat) :
    (runBytes K buf_len ⟨⟨K.HW_LEN0, o, l⟩, buf, log⟩ [b0, b1, b2, b3]).frmHdl.state
        = K.HW_LEN0 - 4 ↔ b0 = 0 ∧ b1 = 0 := by
  simp only [runBytes_cons, call_hw0]
  by_cases h0 : b0 = 0
  · simp only [h0, if_true, call_hw1]
    by_cases h1 : b1 = 0
    · simp [h1, call_hw2, call_hw3, runBytes]
    · simp only [h1, if_false, call_hw0]
      by_cases h2 : b2 = 0
      · simp only [h2, if_true, call_hw1]
        by_cases h3 : b3 = 0 <;> (simp [h3, runBytes]; try omega)
      · simp only [h2, if_false, call_hw0]
        by_cases h3 : b3 = 0 <;> (simp [h3, runBytes]; try omega)
  · simp only [h0, if_false, call_hw0]
    by_cases h1 : b1 = 0
    · simp only [h1, if_true, call_hw1]
      by_cases h2 : b2 = 0
      · simp [h2, call_hw2, runBytes, h0]
      · simp only [h2, if_false, call_hw0]
        by_cases h3 : b3 = 0 <;> (simp [h3, runBytes, h0]; try omega)
    · simp only [h1, if_false, call_hw0]
      by_cases h2 : b2 = 0
      · simp only [h2, if_true, call_hw1]
        by_cases h3 : b3 = 0 <;> (simp [h3, runBytes, h0]; try omega)
      · simp only [h2, if_false, call_hw0]
        by_cases h3 : b3 = 0 <;> (simp [h3, runBytes, h0]; try omega)

theorem hwHistory_decode (K : QcaFrmConsts) (h13 : 13 ≤ K.HW_LEN0) (buf_len : Nat)
    (hno : (buf_len : Int) + 1 < K.HW_LEN0 - 11) (h : QcaFrmHdl) (buf : List Nat)
    (bs : List Nat) (b : Nat) (hh : HwHistory K bs h.state) (hs : StepOK K h) :
    HwHistory K (bs ++ [b]) (QcaFrmFsmDecode K h buf buf_len [b]).frmHdl.state := by
  obtain ⟨j1, j2, j3, j4⟩ := hh
  apply decode_elim K h13 h buf buf_len [b] (fun o => HwHistory K (bs ++ [b]) o.frmHdl.state)
  case hw_next =>
    intro hst hb
    have hb0 : b = 0 := hb
    subst hb0
    simp only [HwHistory, QCAFRM_HW_LEN0, QCAFRM_HW_LEN1, QCAFRM_HW_LEN2, QCAFRM_HW_LEN3,
      QCAFRM_WAIT_AA1] at hst j1 ⊢
    refine ⟨fun _ => ⟨bs, rfl⟩, ?_, ?_, ?_⟩
    · intro e
      obtain ⟨pre, rfl⟩ := j1 (by omega)
      exact ⟨pre, by simp⟩
    · intro e; exfalso; omega
    · intro e; exfalso; omega
  case hw_skip =>
    intro hst
    simp only [HwHistory, QCAFRM_HW_LEN0, QCAFRM_HW_LEN1, QCAFRM_HW_LEN2, QCAFRM_HW_LEN3,
      QCAFRM_WAIT_AA1] at hst j2 j3 ⊢
    refine ⟨?_, ?_, ?_, ?_⟩
    · intro e; exfalso; omega
    · intro e; exfalso; omega
    · intro e
      obtain ⟨pre, rfl⟩ := j2 (by omega)
      exact ⟨pre, b, by simp⟩
    · intro e
      obtain ⟨pre, x, rfl⟩ := j3 (by omega)
      exact ⟨pre, x, b, by simp⟩
  case gather =>
    intro hn
    have hg := hs hn
    simp only [HwHistory, GatherOK, QCAFRM_HW_LEN0, QCAFRM_HW_LEN1, QCAFRM_HW_LEN2,
      QCAFRM_HW_LEN3, QCAFRM_WAIT_AA1] at hg ⊢
    refine ⟨?_, ?_, ?_, ?_⟩ <;> intro e <;> exfalso <;> omega
  all_goals intros
  all_goals simp only [HwHistory, QCAFRM_HW_LEN0, QCAFRM_HW_LEN1, QCAFRM_HW_LEN2,
      QCAFRM_HW_LEN3, QCAFRM_WAIT_AA1, QCAFRM_WAIT_AA2, QCAFRM_WAIT_AA3, QCAFRM_WAIT_AA4,
      QCAFRM_WAIT_LEN_BYTE0, QCAFRM_WAIT_LEN_BYTE1, QCAFRM_WAIT_RSVD_BYTE1,
      QCAFRM_WAIT_RSVD_BYTE2, QCAFRM_WAIT_551, QCAFRM_WAIT_552] at *
  all_goals refine ⟨?_, ?_, ?_, ?_⟩
  all_goals intro e
  all_goals exfalso
  all_goals omega

/-- With a capacity below the named states, a freshly initialised decoder that has been
fed `bytes` one byte per call satisfies `HwHistory`. -/
theorem hwHistory_run (K : QcaFrmConsts) (h13 : 13 ≤ K.HW_LEN0) (buf_len : Nat)
    (hbl : buf_len < 65536) (hno : (buf_len : Int) + 1 < K.HW_LEN0 - 11) (h : QcaFrmHdl)
    (buf : List Nat) (bytes : List Nat) :
    HwHistory K bytes
        (runBytes K buf_len (Run.start (QcaFrmFsmInit K h) buf) bytes).frmHdl.state
    ∧ StepOK K (runBytes K buf_len (Run.start (QcaFrmFsmInit K h) buf) bytes).frmHdl := by
  induction bytes using List.reverseRecOn with
  | nil =>
    refine ⟨?_, stepOK_init K h⟩
    simp only [HwHistory, runBytes, List.foldl_nil, Run.start, QcaFrmFsmInit, QCAFRM_HW_LEN0,
      QCAFRM_HW_LEN1, QCAFRM_HW_LEN2, QCAFRM_HW_LEN3, QCAFRM_WAIT_AA1]
    refine ⟨?_, ?_, ?_, ?_⟩ <;> intro e <;> exfalso <;> omega
  | append_singleton bs b ih =>
    rw [runBytes_append]
    exact ⟨hwHistory_decode K h13 buf_len hno _ _ bs b ih.1 ih.2,
      stepOK_decode K h13 buf_len hbl hno _ _ [b] ih.2⟩

/-- C15 (as amended): in `QCAFRM_HW_LEN0` and `QCAFRM_HW_LEN1` a `0x00` byte moves the state
one step down and any other byte sets it to the initial state, in both cases with `GATHER`
and one byte consumed; in `QCAFRM_HW_LEN2` and `QCAFRM_HW_LEN3` every byte moves the state
one step down with `GATHER`.  Hence four bytes from the initial state lead to
`QCAFRM_WAIT_AA1` exactly when the first two are `0x00`; and, when the capacity keeps every
accepted length below the named states (`buf_len + 1 < QCAFRM_HW_LEN0 - 11`), a freshly
initialised decoder is in `QCAFRM_WAIT_AA1` only after two `0x00` bytes followed by two
arbitrary bytes, whether the stream is decoded one byte per call or in any split into
chunks. -/
theorem C15_length_prefix_states (K : QcaFrmConsts) (hK : K.WF) (h : QcaFrmHdl)
    (buf : List Nat) (buf_len : Nat) (b : Nat) (rest : List Nat) :
    (∀ o : DecodeOut, QcaFrmFsmDecode K h buf buf_len (b :: rest) = o →
      ((h.state = QCAFRM_HW_LEN0 K ∨ h.state = QCAFRM_HW_LEN1 K) →
        o.ret = K.GATHER ∧ o.bytes_proc = 1
        ∧ (b = 0x00 → o.frmHdl.state = h.state - 1)
        ∧ (b ≠ 0x00 → o.frmHdl.state = QCAFRM_HW_LEN0 K))
      ∧ ((h.state = QCAFRM_HW_LEN2 K ∨ h.state = QCAFRM_HW_LEN3 K) →
        o.ret = K.GATHER ∧ o.bytes_proc = 1 ∧ o.frmHdl.state = h.state - 1))
    ∧ (∀ b0 b1 b2 b3 : Nat, h.state = QCAFRM_HW_LEN0 K →
        ((runBytes K buf_len (Run.start h buf) [b0, b1, b2, b3]).frmHdl.state
          = QCAFRM_WAIT_AA1 K ↔ b0 = 0x00 ∧ b1 = 0x00))
    ∧ (∀ bytes : List Nat, buf_len < 65536 → (buf_len : Int) + 1 < K.HW_LEN0 - 11 →
        (runBytes K buf_len (Run.start (QcaFrmFsmInit K h) buf) bytes).frmHdl.state
          = QCAFRM_WAIT_AA1 K →
        ∃ pre x y, bytes = pre ++ [0x00, 0x00, x, y])
    ∧ (∀ chunks : List (List Nat), buf_len < 65536 → (buf_len : Int) + 1 < K.HW_LEN0 - 11 →
        ∃ r, feedChunks K buf_len (Run.start (QcaFrmFsmInit K h) buf) chunks = some r
          ∧ (r.frmHdl.state = QCAFRM_WAIT_AA1 K →
              ∃ pre x y, chunks.flatten = pre ++ [0x00, 0x00, x, y])) := by
  have h13 : 13 ≤ K.HW_LEN0 := hK.1
  refine ⟨?_, ?_, ?_, ?_⟩
  · intro o ho
    subst ho
    apply decode_elim K h13 h buf buf_len (b :: rest)
      (fun o => ((h.state = QCAFRM_HW_LEN0 K ∨ h.state = QCAFRM_HW_LEN1 K) →
        o.ret = K.GATHER ∧ o.bytes_proc = 1
        ∧ (b = 0x00 → o.frmHdl.state = h.state - 1)
        ∧ (b ≠ 0x00 → o.frmHdl.state = QCAFRM_HW_LEN0 K))
      ∧ ((h.state = QCAFRM_HW_LEN2 K ∨ h.state = QCAFRM_HW_LEN3 K) →
        o.ret = K.GATHER ∧ o.bytes_proc = 1 ∧ o.frmHdl.state = h.state - 1))
    all_goals intros
    all_goals dsimp only [QCAFRM_HW_LEN0, QCAFRM_HW_LEN1, QCAFRM_HW_LEN2, QCAFRM_HW_LEN3,
      QCAFRM_WAIT_AA1, QCAFRM_WAIT_AA2, QCAFRM_WAIT_AA3, QCAFRM_WAIT_AA4,
      QCAFRM_WAIT_LEN_BYTE0, QCAFRM_WAIT_LEN_BYTE1, QCAFRM_WAIT_RSVD_BYTE1,
      QCAFRM_WAIT_RSVD_BYTE2, QCAFRM_WAIT_551, QCAFRM_WAIT_552, isNamed, List.headD_cons] at *
    all_goals omega
  · intro b0 b1 b2 b3 hs
    obtain ⟨st, o, l⟩ := h
    simp only [QCAFRM_HW_LEN0] at hs
    subst hs
    exact run_hw_four K buf_len o l buf [] b0 b1 b2 b3
  · intro bytes hbl hno hst
    exact (hwHistory_run K h13 buf_len hbl hno h buf bytes).1.2.2.2 hst
  · intro chunks hbl hno
    obtain ⟨r, e, q⟩ := feedChunks_equiv K h13 buf_len chunks
      (Run.start (QcaFrmFsmInit K h) buf)
      (allOK_of_stepOK K h13 buf_len hbl hno _ _ (stepOK_init K h))
    refine ⟨r, e, fun hst => ?_⟩
    rw [q.1] at hst
    exact (hwHistory_run K h13 buf_len hbl hno h buf chunks.flatten).1.2.2.2 hst

/-- Witness for C15: from the initial state the bytes `00 00 12 34` lead to
`QCAFRM_WAIT_AA1`. -/
theorem C15_length_prefix_states_witness :
    refConsts.WF
    ∧ (runBytes refConsts 1522 (Run.start ⟨32768, 0, 0⟩ []) [0, 0, 0x12, 0x34]).frmHdl.state
        = QCAFRM_WAIT_AA1 refConsts :=
  ⟨by decide,
    ((C15_length_prefix_states refConsts (by decide) ⟨32768, 0, 0⟩ [] 1522 0 []).2.1
      0 0 0x12 0x34 rfl).mpr ⟨rfl, rfl⟩⟩

/-- Counterexample to C15 as stated (without the bound on the capacity): initial state
`0x8000`, capacity 32763.  After `00 00 00 00 AA AA AA AA FB 7F 11 22` the length
`0x7FFB = 32763` has been accepted and the state is `len + 1 = 32764`, which is
`QCAFRM_WAIT_AA1`: the decoder looks for a preamble, every call has returned `GATHER`, and
the last four bytes it has seen are `FB 7F 11 22`, not two `0x00` bytes followed by two
more. -/
theorem C15_counterexample :
    (runBytes refConsts 32763
        (Run.start (QcaFrmFsmInit refConsts ⟨0, 0, 0⟩) (List.replicate 32763 0))
        [0, 0, 0, 0, 0xAA, 0xAA, 0xAA, 0xAA, 0xFB, 0x7F, 0x11, 0x22]).frmHdl
      = ⟨QCAFRM_WAIT_AA1 refConsts, 0, 32763⟩
    ∧ (runBytes refConsts 32763
        (Run.start (QcaFrmFsmInit refConsts ⟨0, 0, 0⟩) (List.replicate 32763 0))
        [0, 0, 0, 0, 0xAA, 0xAA, 0xAA, 0xAA, 0xFB, 0x7F, 0x11, 0x22]).log
      = List.replicate 12 (refConsts.GATHER, 1)
    ∧ ¬ ∃ (pre : List Nat) (x y : Nat),
        [0, 0, 0, 0, 0xAA, 0xAA, 0xAA, 0xAA, 0xFB, 0x7F, 0x11, 0x22] = pre ++ [0, 0, x, y] := by
  refine ⟨by decide, by decide, ?_⟩
  rintro ⟨pre, x, y, e⟩
  have hr := congrArg List.reverse e
  simp at hr


/-! ## The stream a freshly initialised decoder accepts -/

/-- Under `AllOK` a call on a chunk consumes at least one byte and leaves a run for which
the rest of the chunk is again fine. -/
theorem feed_step (K : QcaFrmConsts) (h13 : 13 ≤ K.HW_LEN0) (buf_len : Nat) (r : Run)
    (b : Nat) (rest : List Nat) (ha : AllOK K buf_len r (b :: rest)) :
    1 ≤ (QcaFrmFsmDecode K r.frmHdl r.buf buf_len (b :: rest)).bytes_proc
    ∧ AllOK K buf_len (r.call K buf_len (b :: rest))
        ((b :: rest).drop (QcaFrmFsmDecode K r.frmHdl r.buf buf_len (b :: rest)).bytes_proc) := by
  obtain ⟨h1, -, heq⟩ := call_equiv_take K h13 buf_len r b rest ha.1
  refine ⟨h1, ?_⟩
  generalize (QcaFrmFsmDecode K r.frmHdl r.buf buf_len (b :: rest)).bytes_proc = bp at heq
  have hsplit : (b :: rest) = (b :: rest).take bp ++ (b :: rest).drop bp :=
    (List.take_append_drop bp (b :: rest)).symm
  have ha2 := ha
  rw [hsplit, allOK_append] at ha2
  exact allOK_congr K buf_len _ _ _ heq.symm ha2.2

/-- Every call made by the caller's loop consumes at least one byte. -/
theorem feed_pos (K : QcaFrmConsts) (h13 : 13 ≤ K.HW_LEN0) (buf_len : Nat) (fuel : Nat)
    (r r' : Run) (chunk : List Nat) (ha : AllOK K buf_len r chunk)
    (hf : feed K buf_len fuel r chunk = some r') (hp : ∀ e ∈ r.log, 1 ≤ e.2) :
    ∀ e ∈ r'.log, 1 ≤ e.2 := by
  induction fuel generalizing r chunk with
  | zero =>
    cases chunk with
    | nil =>
      simp only [feed, Option.some.injEq] at hf
      subst hf; exact hp
    | cons b rest => simp [feed] at hf
  | succ fuel ih =>
    cases chunk with
    | nil =>
      simp only [feed, Option.some.injEq] at hf
      subst hf; exact hp
    | cons b rest =>
      obtain ⟨h1, ha2⟩ := feed_step K h13 buf_len r b rest ha
      simp only [feed] at hf
      refine ih _ _ ha2 hf ?_
      intro e he
      simp only [Run.call, List.mem_append, List.mem_singleton] at he
      rcases he with he | he
      · exact hp e he
      · rw [he]; exact h1

theorem feedChunks_pos (K : QcaFrmConsts) (h13 : 13 ≤ K.HW_LEN0) (buf_len : Nat)
    (chunks : List (List Nat)) (r r' : Run) (ha : AllOK K buf_len r chunks.flatten)
    (hf : feedChunks K buf_len r chunks = some r') (hp : ∀ e ∈ r.log, 1 ≤ e.2) :
    ∀ e ∈ r'.log, 1 ≤ e.2 := by
  induction chunks generalizing r with
  | nil =>
    simp only [feedChunks, Option.some.injEq] at hf
    subst hf; exact hp
  | cons c cs ih =>
    rw [List.flatten_cons, allOK_append] at ha
    obtain ⟨r1, e1, q1⟩ := feed_equiv K h13 buf_len c.length r c (le_refl _) ha.1
    simp only [feedChunks, e1, Option.bind_some] at hf
    exact ih r1 (allOK_congr K buf_len _ _ _ q1.symm ha.2) hf
      (feed_pos K h13 buf_len c.length r r1 c ha.1 e1 hp)

/-- A log of calls that each consume at least one byte, whose only result other than
`GATHER` is `v`, returned by the call that consumes the last byte: every call but the last
returns `GATHER` and the last returns `v`. -/
theorem log_shape (K : QcaFrmConsts) (log : List (Int × Nat)) (pos : Nat) (v : Int)
    (hp : ∀ e ∈ log, 1 ≤ e.2) (he : events K pos log = [(pos + consumed log, v)]) :
    ∃ k, log.map Prod.fst = List.replicate k K.GATHER ++ [v] := by
  induction log generalizing pos with
  | nil => simp [events] at he
  | cons x t ih =>
    obtain ⟨ret, n⟩ := x
    have hc : consumed ((ret, n) :: t) = n + consumed t := by simp [consumed]
    rw [hc] at he
    simp only [events] at he
    by_cases hr : ret = K.GATHER
    · rw [if_pos hr] at he
      obtain ⟨k, hk⟩ := ih (pos + n) (fun e h => hp e (List.mem_cons_of_mem _ h))
        (by rw [he]; simp; omega)
      exact ⟨k + 1, by simp [hk, hr, List.replicate_succ]⟩
    · rw [if_neg hr] at he
      simp only [List.cons.injEq, Prod.mk.injEq] at he
      obtain ⟨⟨h1, h2⟩, h3⟩ := he
      have hz : consumed t = 0 := by omega
      have ht : t = [] := by
        cases t with
        | nil => rfl
        | cons y t' =>
          have := hp y (List.mem_cons_of_mem _ (List.mem_cons_self _ _))
          simp [consumed] at hz
          omega
      subst ht
      exact ⟨0, by simp [h2]⟩

/-- The four hardware-length bytes `00 00 a b` decoded one byte per call from the initial
state: four `GATHER` results, then the decoder waits for the preamble. -/
theorem run_hw_prefix (K : QcaFrmConsts) (buf_len : Nat) (o l a b : Nat) (buf : List Nat)
    (log : List (Int × Nat)) :
    runBytes K buf_len ⟨⟨K.HW_LEN0, o, l⟩, buf, log⟩ [0, 0, a, b]
      = ⟨⟨K.HW_LEN0 - 4, o, l⟩, buf, log ++ List.replicate 4 (K.GATHER, 1)⟩
    ∧ AllOK K buf_len ⟨⟨K.HW_LEN0, o, l⟩, buf, log⟩ [0, 0, a, b] := by
  constructor
  · simp [runBytes_cons, call_hw0, call_hw1, call_hw2, call_hw3, runBytes, List.replicate]
  · simp only [AllOK, call_hw0, call_hw1, call_hw2, if_true, and_true]
    refine ⟨?_, ?_, ?_, ?_⟩
    all_goals apply stepOK_of_named
    all_goals simp only [isNamed]
    all_goals omega


/-- C16: for every payload of length `n` with `QCAFRM_ETHMINLEN ≤ n ≤ buf_len` and `n + 1`
below every header state, every pair of bytes `a`, `b` and every split into chunks,
feeding `00 00 a b`, the header (version 0), the payload and the footer to a freshly
initialised decoder (re-invoking on the leftover bytes) consumes exactly `n + 14` bytes,
every call consumes at least one byte, every call but the last returns `GATHER`, the last
call returns `n`, the first `n` bytes of the output buffer are the payload and the handle
is in the initial state. -/
theorem C16_prefixed_round_trip (K : QcaFrmConsts) (hK : K.WF) (h : QcaFrmHdl)
    (buf : List Nat) (buf_len : Nat) (hbl : buf_len < 65536) (payload : List Nat)
    (hmin : K.ETHMINLEN ≤ payload.length) (hmax : payload.length ≤ buf_len)
    (hno : (payload.length : Int) + 1 < K.HW_LEN0 - 11)
    (hbuf : payload.length ≤ buf.length) (a b : Nat) (chunks : List (List Nat))
    (hc : chunks.flatten = [0x00, 0x00, a, b] ++ encodeFrame payload 0) :
    ∃ r, feedChunks K buf_len (Run.start (QcaFrmFsmInit K h) buf) chunks = some r
      ∧ consumed r.log = payload.length + 14
      ∧ (∀ e ∈ r.log, 1 ≤ e.2)
      ∧ (∃ k, r.log.map Prod.fst = List.replicate k K.GATHER ++ [(payload.length : Int)])
      ∧ r.buf.take payload.length = payload
      ∧ r.frmHdl.state = QCAFRM_HW_LEN0 K := by
  have h13 : 13 ≤ K.HW_LEN0 := hK.1
  obtain ⟨st, o, l⟩ := h
  have hinit : Run.start (QcaFrmFsmInit K ⟨st, o, l⟩) buf = ⟨⟨K.HW_LEN0, o, l⟩, buf, []⟩ := rfl
  obtain ⟨e0, a0⟩ := run_hw_prefix K buf_len o l a b buf []
  obtain ⟨e1, a1⟩ := run_frame K h13 buf_len o l buf ([] ++ List.replicate 4 (K.GATHER, 1))
    payload (by omega) hmin hmax hno
  have hall : AllOK K buf_len ⟨⟨K.HW_LEN0, o, l⟩, buf, []⟩
      ([0x00, 0x00, a, b] ++ encodeFrame payload 0) := by
    rw [allOK_append, e0]
    exact ⟨a0, a1⟩
  have hrun : runBytes K buf_len ⟨⟨K.HW_LEN0, o, l⟩, buf, []⟩
      ([0x00, 0x00, a, b] ++ encodeFrame payload 0)
      = ⟨⟨K.HW_LEN0, payload.length, payload.length⟩, memcpy buf 0 payload,
          [] ++ List.replicate 4 (K.GATHER, 1) ++ List.replicate (payload.length + 9) (K.GATHER, 1)
            ++ [((payload.length : Int), 1)]⟩ := by
    rw [runBytes_append, e0, e1]
  rw [hinit]
  obtain ⟨r, e2, q⟩ := feedChunks_equiv K h13 buf_len chunks _ (by rw [hc]; exact hall)
  rw [hc, hrun] at q
  obtain ⟨q1, q2, q3, q4⟩ := q
  have hpos := feedChunks_pos K h13 buf_len chunks _ r (by rw [hc]; exact hall) e2
    (by intro e he; simp at he)
  have hcons : consumed r.log = payload.length + 14 := by
    rw [q3]
    simp [consumed_append, consumed]
    omega
  have hev : events K 0 r.log = [(0 + consumed r.log, (payload.length : Int))] := by
    rw [q4, hcons, events_frame_log K hK _ payload.length hmin]
    simp [events_append, events_replicate_gather, consumed_replicate_one, events, consumed]
    omega
  refine ⟨r, e2, hcons, hpos, log_shape K r.log 0 _ hpos hev, ?_, ?_⟩
  · rw [q2]; exact memcpy_take payload buf hbuf
  · rw [q1]; rfl

set_option maxRecDepth 100000 in
/-- Witness for C16: `00 00 12 34` followed by the frame of the payload `0, 1, .., 59`, fed
as two chunks, completes with length 60. -/
theorem C16_prefixed_round_trip_witness :
    refConsts.WF
    ∧ ∃ r, feedChunks refConsts 1522
          (Run.start (QcaFrmFsmInit refConsts ⟨0, 0, 0⟩) (List.replicate 1522 0))
          [[0, 0, 0x12, 0x34], encodeFrame (List.range 60) 0] = some r
      ∧ consumed r.log = 74
      ∧ (∃ k, r.log.map Prod.fst = List.replicate k refConsts.GATHER ++ [60])
      ∧ r.buf.take 60 = List.range 60 :=
  ⟨by decide, by
    obtain ⟨r, h1, h2, -, h4, h5, -⟩ := C16_prefixed_round_trip refConsts (by decide)
      ⟨0, 0, 0⟩ (List.replicate 1522 0) 1522 (by decide) (List.range 60) (by decide)
      (by decide) (by decide) (by decide) 0x12 0x34
      [[0, 0, 0x12, 0x34], encodeFrame (List.range 60) 0] (by simp)
    exact ⟨r, h1, h2, h4, h5⟩⟩


/-! ## The overlay of gathering states and named states -/

theorem named_buf_same (K : QcaFrmConsts) (h13 : 13 ≤ K.HW_LEN0) (h : QcaFrmHdl)
    (buf : List Nat) (buf_len : Nat) (recvBuf : List Nat) (hn : isNamed K h.state) :
    (QcaFrmFsmDecode K h buf buf_len recvBuf).buf = buf := by
  apply decode_elim K h13 h buf buf_len recvBuf (fun o => o.buf = buf)
  case gather => intro hh; exact absurd hn hh
  all_goals intros
  all_goals rfl

theorem overlayInv_decode (K : QcaFrmConsts) (h13 : 13 ≤ K.HW_LEN0) (h : QcaFrmHdl)
    (buf : List Nat) (buf_len : Nat) (recvBuf : List Nat) (hc : OverlayInv K h) :
    OverlayInv K (QcaFrmFsmDecode K h buf buf_len recvBuf).frmHdl := by
  apply decode_elim K h13 h buf buf_len recvBuf (fun o => OverlayInv K o.frmHdl)
  all_goals intros
  all_goals simp only [OverlayInv, QCAFRM_HW_LEN0, QCAFRM_HW_LEN1, QCAFRM_HW_LEN2,
      QCAFRM_HW_LEN3, QCAFRM_WAIT_AA1, QCAFRM_WAIT_AA2, QCAFRM_WAIT_AA3, QCAFRM_WAIT_AA4,
      QCAFRM_WAIT_LEN_BYTE0, QCAFRM_WAIT_LEN_BYTE1, QCAFRM_WAIT_RSVD_BYTE1,
      QCAFRM_WAIT_RSVD_BYTE2, QCAFRM_WAIT_551, QCAFRM_WAIT_552, isNamed] at *
  all_goals omega

theorem overlayInv_of_reach (K : QcaFrmConsts) (h13 : 13 ≤ K.HW_LEN0) (h : QcaFrmHdl)
    (hr : Reach K h) : OverlayInv K h := by
  induction hr with
  | init h =>
    simp only [OverlayInv, QcaFrmFsmInit, QCAFRM_HW_LEN0]
    omega
  | decode h buf buf_len recvBuf _ ih => exact overlayInv_decode K h13 h buf buf_len recvBuf ih

/-- C18 (as amended): let the handle be in `QCAFRM_WAIT_RSVD_BYTE2` with a length that
passes the check (`QCAFRM_ETHMINLEN ≤ len ≤ buf_len`).  The call returns `GATHER` and sets
the state to `len + 1`, `offset` to 0.  If `len + 1` is below `QCAFRM_WAIT_RSVD_BYTE2`,
this is a gathering state, and feeding `k ≤ len` payload bytes in any chunking leaves the
state `len + 1 - k` and `offset = k` with nothing but `GATHER` returned, so that
`QCAFRM_WAIT_551` is reached exactly when `offset = len`.  If instead
`HW_LEN0 - 12 ≤ len ≤ HW_LEN0 - 1`, the state after the call is one of the twelve named
header states, not a gathering state, although the validation returned no error code.
The byte that follows is then parsed as a header byte and not gathered: the next call
consumes one byte and copies nothing to the output buffer; with the same capacity it
returns `NOHEAD` exactly when the state is one of the four preamble states and the byte is
not `0xAA`, and `GATHER` otherwise.  A frame of such a length is never delivered: in every
handle reachable from `QcaFrmFsmInit` that is in a gathering or footer state, `len` is none
of the lengths `HW_LEN0 - 12 .. HW_LEN0 - 1`, and no call on a reachable handle returns a
completed-frame length in that range. -/
theorem C18_state_overlay (K : QcaFrmConsts) (hK : K.WF) (h : QcaFrmHdl)
    (hs : h.state = QCAFRM_WAIT_RSVD_BYTE2 K) (buf : List Nat) (buf_len : Nat)
    (hbl : buf_len < 65536) (b : Nat) (rest : List Nat)
    (hmin : K.ETHMINLEN ≤ h.len) (hmax : h.len ≤ buf_len) :
    (QcaFrmFsmDecode K h buf buf_len (b :: rest)).ret = K.GATHER
    ∧ (QcaFrmFsmDecode K h buf buf_len (b :: rest)).frmHdl = ⟨(h.len : Int) + 1, 0, h.len⟩
    ∧ ((h.len : Int) + 1 < K.HW_LEN0 - 11 →
        ¬ isNamed K (QcaFrmFsmDecode K h buf buf_len (b :: rest)).frmHdl.state
        ∧ ∀ (chunks : List (List Nat)) (out : List Nat), chunks.flatten.length ≤ h.len →
            ∃ r, feedChunks K buf_len
                (Run.start (QcaFrmFsmDecode K h buf buf_len (b :: rest)).frmHdl out) chunks
                = some r
              ∧ r.frmHdl = ⟨(h.len : Int) + 1 - (chunks.flatten.length : Int),
                  chunks.flatten.length, h.len⟩
              ∧ events K 0 r.log = []
              ∧ (r.frmHdl.state = QCAFRM_WAIT_551 ↔ r.frmHdl.offset = h.len))
    ∧ ((K.HW_LEN0 - 12 ≤ (h.len : Int) ∧ (h.len : Int) ≤ K.HW_LEN0 - 1) →
        isNamed K (QcaFrmFsmDecode K h buf buf_len (b :: rest)).frmHdl.state
        ∧ K.HW_LEN0 - 11 ≤ (QcaFrmFsmDecode K h buf buf_len (b :: rest)).frmHdl.state
        ∧ (QcaFrmFsmDecode K h buf buf_len (b :: rest)).frmHdl.state ≤ K.HW_LEN0
        ∧ ∀ (out : List Nat) (buf_len2 : Nat) (recvBuf : List Nat),
            (QcaFrmFsmDecode K (QcaFrmFsmDecode K h buf buf_len (b :: rest)).frmHdl out
              buf_len2 recvBuf).buf = out
            ∧ (QcaFrmFsmDecode K (QcaFrmFsmDecode K h buf buf_len (b :: rest)).frmHdl out
              buf_len2 recvBuf).bytes_proc = 1
            ∧ ((QcaFrmFsmDecode K (QcaFrmFsmDecode K h buf buf_len (b :: rest)).frmHdl out
                buf_len recvBuf).ret = K.NOHEAD
              ↔ (QCAFRM_WAIT_AA4 K ≤ (h.len : Int) + 1 ∧ (h.len : Int) + 1 ≤ QCAFRM_WAIT_AA1 K
                  ∧ recvBuf.headD 0 ≠ 0xAA))
            ∧ ((QcaFrmFsmDecode K (QcaFrmFsmDecode K h buf buf_len (b :: rest)).frmHdl out
                buf_len recvBuf).ret ≠ K.NOHEAD →
              (QcaFrmFsmDecode K (QcaFrmFsmDecode K h buf buf_len (b :: rest)).frmHdl out
                buf_len recvBuf).ret = K.GATHER))
    ∧ (∀ g : QcaFrmHdl, Reach K g →
        (¬ (K.HW_LEN0 - 11 ≤ g.state ∧ g.state ≤ K.HW_LEN0) →
          ¬ (K.HW_LEN0 - 12 ≤ (g.len : Int) ∧ (g.len : Int) ≤ K.HW_LEN0 - 1))
        ∧ ∀ (out : List Nat) (buf_len2 : Nat) (recvBuf : List Nat),
            (QcaFrmFsmDecode K g out buf_len2 recvBuf).ret ≠ K.GATHER →
            (QcaFrmFsmDecode K g out buf_len2 recvBuf).ret ≠ K.NOHEAD →
            (QcaFrmFsmDecode K g out buf_len2 recvBuf).ret ≠ K.INVLEN →
            (QcaFrmFsmDecode K g out buf_len2 recvBuf).ret ≠ K.NOTAIL →
            ¬ (K.HW_LEN0 - 12 ≤ (QcaFrmFsmDecode K g out buf_len2 recvBuf).ret
                ∧ (QcaFrmFsmDecode K g out buf_len2 recvBuf).ret ≤ K.HW_LEN0 - 1)) := by
  have h13 : 13 ≤ K.HW_LEN0 := hK.1
  have hglob : ∀ g : QcaFrmHdl, Reach K g →
      (¬ (K.HW_LEN0 - 11 ≤ g.state ∧ g.state ≤ K.HW_LEN0) →
        ¬ (K.HW_LEN0 - 12 ≤ (g.len : Int) ∧ (g.len : Int) ≤ K.HW_LEN0 - 1))
      ∧ ∀ (out : List Nat) (buf_len2 : Nat) (recvBuf : List Nat),
          (QcaFrmFsmDecode K g out buf_len2 recvBuf).ret ≠ K.GATHER →
          (QcaFrmFsmDecode K g out buf_len2 recvBuf).ret ≠ K.NOHEAD →
          (QcaFrmFsmDecode K g out buf_len2 recvBuf).ret ≠ K.INVLEN →
          (QcaFrmFsmDecode K g out buf_len2 recvBuf).ret ≠ K.NOTAIL →
          ¬ (K.HW_LEN0 - 12 ≤ (QcaFrmFsmDecode K g out buf_len2 recvBuf).ret
              ∧ (QcaFrmFsmDecode K g out buf_len2 recvBuf).ret ≤ K.HW_LEN0 - 1) := by
    intro g hg
    have ho : OverlayInv K g := overlayInv_of_reach K h13 g hg
    have hf : FootInv g := (footInv_of_reach K hK g hg).2
    refine ⟨ho, ?_⟩
    intro out buf_len2 recvBuf
    apply decode_elim K h13 g out buf_len2 recvBuf
      (fun o => o.ret ≠ K.GATHER → o.ret ≠ K.NOHEAD → o.ret ≠ K.INVLEN → o.ret ≠ K.NOTAIL →
        ¬ (K.HW_LEN0 - 12 ≤ o.ret ∧ o.ret ≤ K.HW_LEN0 - 1))
    all_goals intros
    all_goals simp only [OverlayInv, FootInv, QCAFRM_WAIT_551, QCAFRM_WAIT_552] at *
    all_goals omega
  have hd : QcaFrmFsmDecode K h buf buf_len (b :: rest)
      = ⟨K.GATHER, 1, ⟨(h.len : Int) + 1, 0, h.len⟩, buf⟩ := by
    rw [decode_rsvd2 K h buf buf_len (b :: rest) hs, if_neg (by omega)]
  rw [hd]
  refine ⟨rfl, rfl, ?_, ?_, hglob⟩
  · intro hno
    have hpos := hK.2.1
    refine ⟨?_, ?_⟩
    · simp only [isNamed, QCAFRM_WAIT_551, QCAFRM_WAIT_552]; omega
    · intro chunks out hlen
      have hg : GatherOK K (Run.start ⟨(h.len : Int) + 1, 0, h.len⟩ out).frmHdl := by
        simp only [GatherOK, Run.start]; omega
      obtain ⟨e1, a1⟩ := runBytes_gather K buf_len chunks.flatten
        (Run.start ⟨(h.len : Int) + 1, 0, h.len⟩ out) hg (by simpa [Run.start] using hlen)
      obtain ⟨r, e2, q⟩ := feedChunks_equiv K h13 buf_len chunks _ a1
      rw [e1] at q
      obtain ⟨q1, -, -, q4⟩ := q
      refine ⟨r, e2, ?_, ?_, ?_⟩
      · rw [q1]; simp [Run.start]
      · rw [q4]; simp [Run.start, events_replicate_gather, events]
      · rw [q1]
        simp only [Run.start, QCAFRM_WAIT_551, Nat.zero_add]
        omega
  · intro hcol
    have hn : isNamed K ((h.len : Int) + 1) := by
      simp only [isNamed]; omega
    refine ⟨hn, by dsimp only; omega, by dsimp only; omega, ?_⟩
    intro out buf_len2 recvBuf
    refine ⟨named_buf_same K h13 _ out buf_len2 recvBuf hn,
      named_bytes_proc K h13 _ out buf_len2 recvBuf hn, ?_⟩
    obtain ⟨-, -, -, -, -, -, g1, g2, g3, -, -, -⟩ := hK
    apply decode_elim K h13 ⟨(h.len : Int) + 1, 0, h.len⟩ out buf_len recvBuf
      (fun o => (o.ret = K.NOHEAD
          ↔ (QCAFRM_WAIT_AA4 K ≤ (h.len : Int) + 1 ∧ (h.len : Int) + 1 ≤ QCAFRM_WAIT_AA1 K
              ∧ recvBuf.headD 0 ≠ 0xAA))
        ∧ (o.ret ≠ K.NOHEAD → o.ret = K.GATHER))
    case gather => intro hh; exact absurd hn hh
    all_goals intros
    all_goals dsimp only [QCAFRM_HW_LEN0, QCAFRM_HW_LEN1, QCAFRM_HW_LEN2, QCAFRM_HW_LEN3,
      QCAFRM_WAIT_AA1, QCAFRM_WAIT_AA2, QCAFRM_WAIT_AA3, QCAFRM_WAIT_AA4,
      QCAFRM_WAIT_LEN_BYTE0, QCAFRM_WAIT_LEN_BYTE1, QCAFRM_WAIT_RSVD_BYTE1,
      QCAFRM_WAIT_RSVD_BYTE2, QCAFRM_WAIT_551, QCAFRM_WAIT_552] at *
    all_goals omega

/-- Witness for C18: initial state `0x8000`, capacity and length `0x7FFF`: the length is
accepted with `GATHER` and the state after the call is `0x8000`, the initial state. -/
theorem C18_state_overlay_witness :
    refConsts.WF
    ∧ (QcaFrmFsmDecode refConsts ⟨32757, 0, 32767⟩ [] 32767 [0]).ret = refConsts.GATHER
    ∧ (QcaFrmFsmDecode refConsts ⟨32757, 0, 32767⟩ [] 32767 [0]).frmHdl = ⟨32768, 0, 32767⟩
    ∧ isNamed refConsts (QcaFrmFsmDecode refConsts ⟨32757, 0, 32767⟩ [] 32767 [0]).frmHdl.state :=
  ⟨by decide,
    (C18_state_overlay refConsts (by decide) ⟨32757, 0, 32767⟩ rfl [] 32767 (by decide) 0 []
      (by decide) (by decide)).1,
    (C18_state_overlay refConsts (by decide) ⟨32757, 0, 32767⟩ rfl [] 32767 (by decide) 0 []
      (by decide) (by decide)).2.1,
    ((C18_state_overlay refConsts (by decide) ⟨32757, 0, 32767⟩ rfl [] 32767 (by decide) 0 []
      (by decide) (by decide)).2.2.2.1 (by decide)).1⟩

set_option maxRecDepth 100000 in
/-- Counterexample to C18 as stated ("the frame's payload is never copied and no error code
is returned for it"): initial state `0x8000`, capacity 32767.  After
`00 00 00 00 AA AA AA AA FB 7F 00 00` the length 32763 has been accepted without an error
and the state is `QCAFRM_WAIT_AA1`; the first payload byte `11` then returns `NOHEAD`.
After `00 00 00 00 AA AA AA AA FF 7F 00 00` the length 32767 has been accepted and the
state is the initial state; when the payload starts with `00 00 00 00` and the frame of the
bytes `0, 1, .., 59`, these 60 payload bytes are copied to the output buffer and the
result 60 is returned. -/
theorem C18_counterexample :
    (runBytes refConsts 32767
        (Run.start (QcaFrmFsmInit refConsts ⟨0, 0, 0⟩) (List.replicate 32767 0))
        [0, 0, 0, 0, 0xAA, 0xAA, 0xAA, 0xAA, 0xFB, 0x7F, 0, 0]).frmHdl
      = ⟨QCAFRM_WAIT_AA1 refConsts, 0, 32763⟩
    ∧ events refConsts 0 (runBytes refConsts 32767
        (Run.start (QcaFrmFsmInit refConsts ⟨0, 0, 0⟩) (List.replicate 32767 0))
        ([0, 0, 0, 0, 0xAA, 0xAA, 0xAA, 0xAA, 0xFB, 0x7F, 0, 0] ++ [0x11])).log
      = [(13, refConsts.NOHEAD)]
    ∧ (runBytes refConsts 32767
        (Run.start (QcaFrmFsmInit refConsts ⟨0, 0, 0⟩) (List.replicate 32767 0))
        [0, 0, 0, 0, 0xAA, 0xAA, 0xAA, 0xAA, 0xFF, 0x7F, 0, 0]).frmHdl
      = ⟨QCAFRM_HW_LEN0 refConsts, 0, 32767⟩
    ∧ events refConsts 0 (runBytes refConsts 32767
        (Run.start (QcaFrmFsmInit refConsts ⟨0, 0, 0⟩) (List.replicate 32767 0))
        ([0, 0, 0, 0, 0xAA, 0xAA, 0xAA, 0xAA, 0xFF, 0x7F, 0, 0]
          ++ ([0, 0, 0, 0] ++ encodeFrame (List.range 60) 0))).log
      = [(86, 60)]
    ∧ (runBytes refConsts 32767
        (Run.start (QcaFrmFsmInit refConsts ⟨0, 0, 0⟩) (List.replicate 32767 0))
        ([0, 0, 0, 0, 0xAA, 0xAA, 0xAA, 0xAA, 0xFF, 0x7F, 0, 0]
          ++ ([0, 0, 0, 0] ++ encodeFrame (List.range 60) 0))).buf.take 60
      = List.range 60 := by
  decide


/-! ## Ignored bytes and stale handle fields -/

theorem decode_ignoring (K : QcaFrmConsts) (h : QcaFrmHdl) (buf : List Nat) (buf_len : Nat)
    (c c' : List Nat) (hi : isIgnoring K h.state) :
    QcaFrmFsmDecode K h buf buf_len c = QcaFrmFsmDecode K h buf buf_len c' := by
  rcases hi with h2 | h3 | r1 | r2
  · rw [decode_hw_len23 K h buf buf_len c (Or.inl h2),
      decode_hw_len23 K h buf buf_len c' (Or.inl h2)]
  · rw [decode_hw_len23 K h buf buf_len c (Or.inr h3),
      decode_hw_len23 K h buf buf_len c' (Or.inr h3)]
  · rw [decode_rsvd1 K h buf buf_len c r1, decode_rsvd1 K h buf buf_len c' r1]
  · rw [decode_rsvd2 K h buf buf_len c r2, decode_rsvd2 K h buf buf_len c' r2]

/-- The branch `case QCAFRM_WAIT_551` for any value of the initial state: it is taken when
the state is 1 and none of the twelve header labels. -/
theorem decode_foot_551 (K : QcaFrmConsts) (frmHdl : QcaFrmHdl) (buf : List Nat)
    (buf_len : Nat) (recvBuf : List Nat)
    (hh : ¬ (K.HW_LEN0 - 11 ≤ frmHdl.state ∧ frmHdl.state ≤ K.HW_LEN0))
    (hs : frmHdl.state = QCAFRM_WAIT_551) :
    QcaFrmFsmDecode K frmHdl buf buf_len recvBuf =
      if recvBuf.headD 0 ≠ 0x55 then
        ⟨K.NOTAIL, 1, { frmHdl with state := QCAFRM_HW_LEN0 K }, buf⟩
      else ⟨K.GATHER, 1, { frmHdl with state := frmHdl.state - 1 }, buf⟩ := by
  unfold QcaFrmFsmDecode
  simp only [QCAFRM_HW_LEN0, QCAFRM_HW_LEN1, QCAFRM_HW_LEN2, QCAFRM_HW_LEN3, QCAFRM_WAIT_AA1,
    QCAFRM_WAIT_AA2, QCAFRM_WAIT_AA3, QCAFRM_WAIT_AA4, QCAFRM_WAIT_LEN_BYTE0,
    QCAFRM_WAIT_LEN_BYTE1, QCAFRM_WAIT_RSVD_BYTE1, QCAFRM_WAIT_RSVD_BYTE2, QCAFRM_WAIT_551]
    at hs ⊢
  repeat rw [if_neg (by omega)]
  rw [if_pos (by omega)]

/-- The branch `case QCAFRM_WAIT_552` for any value of the initial state: it is taken when
the state is 0 and none of the twelve header labels. -/
theorem decode_foot_552 (K : QcaFrmConsts) (frmHdl : QcaFrmHdl) (buf : List Nat)
    (buf_len : Nat) (recvBuf : List Nat)
    (hh : ¬ (K.HW_LEN0 - 11 ≤ frmHdl.state ∧ frmHdl.state ≤ K.HW_LEN0))
    (hs : frmHdl.state = QCAFRM_WAIT_552) :
    QcaFrmFsmDecode K frmHdl buf buf_len recvBuf =
      if recvBuf.headD 0 ≠ 0x55 then
        ⟨K.NOTAIL, 1, { frmHdl with state := QCAFRM_HW_LEN0 K }, buf⟩
      else ⟨(frmHdl.offset : Int), 1, { frmHdl with state := QCAFRM_HW_LEN0 K }, buf⟩ := by
  unfold QcaFrmFsmDecode
  simp only [QCAFRM_HW_LEN0, QCAFRM_HW_LEN1, QCAFRM_HW_LEN2, QCAFRM_HW_LEN3, QCAFRM_WAIT_AA1,
    QCAFRM_WAIT_AA2, QCAFRM_WAIT_AA3, QCAFRM_WAIT_AA4, QCAFRM_WAIT_LEN_BYTE0,
    QCAFRM_WAIT_LEN_BYTE1, QCAFRM_WAIT_RSVD_BYTE1, QCAFRM_WAIT_RSVD_BYTE2, QCAFRM_WAIT_551,
    QCAFRM_WAIT_552] at hs ⊢
  repeat rw [if_neg (by omega)]
  rw [if_pos (by omega)]

/-- In a named state a call looks at the first byte of the chunk only and consumes one
byte, whatever the value of the initial state is. -/
theorem decode_head_only (K : QcaFrmConsts) (h : QcaFrmHdl) (buf : List Nat) (buf_len : Nat)
    (b : Nat) (rest rest' : List Nat) (hn : isNamed K h.state) :
    QcaFrmFsmDecode K h buf buf_len (b :: rest) = QcaFrmFsmDecode K h buf buf_len (b :: rest')
    ∧ (QcaFrmFsmDecode K h buf buf_len (b :: rest)).bytes_proc = 1 := by
  by_cases c1 : h.state = QCAFRM_HW_LEN0 K ∨ h.state = QCAFRM_HW_LEN1 K
  · rw [decode_hw_len01 _ _ _ _ _ c1, decode_hw_len01 _ _ _ _ _ c1]
    refine ⟨rfl, ?_⟩
    split_ifs <;> rfl
  by_cases c2 : h.state = QCAFRM_HW_LEN2 K ∨ h.state = QCAFRM_HW_LEN3 K
  · rw [decode_hw_len23 _ _ _ _ _ c2, decode_hw_len23 _ _ _ _ _ c2]
    exact ⟨rfl, rfl⟩
  by_cases c3 : h.state = QCAFRM_WAIT_AA1 K ∨ h.state = QCAFRM_WAIT_AA2 K
        ∨ h.state = QCAFRM_WAIT_AA3 K ∨ h.state = QCAFRM_WAIT_AA4 K
  · rw [decode_wait_aa _ _ _ _ _ c3, decode_wait_aa _ _ _ _ _ c3]
    refine ⟨rfl, ?_⟩
    split_ifs <;> rfl
  by_cases c4 : h.state = QCAFRM_WAIT_LEN_BYTE0 K
  · rw [decode_len_byte0 _ _ _ _ _ c4, decode_len_byte0 _ _ _ _ _ c4]
    exact ⟨rfl, rfl⟩
  by_cases c5 : h.state = QCAFRM_WAIT_LEN_BYTE1 K
  · rw [decode_len_byte1 _ _ _ _ _ c5, decode_len_byte1 _ _ _ _ _ c5]
    exact ⟨rfl, rfl⟩
  by_cases c6 : h.state = QCAFRM_WAIT_RSVD_BYTE1 K
  · rw [decode_rsvd1 _ _ _ _ _ c6, decode_rsvd1 _ _ _ _ _ c6]
    exact ⟨rfl, rfl⟩
  by_cases c7 : h.state = QCAFRM_WAIT_RSVD_BYTE2 K
  · rw [decode_rsvd2 _ _ _ _ _ c7, decode_rsvd2 _ _ _ _ _ c7]
    refine ⟨rfl, ?_⟩
    split_ifs <;> rfl
  have hh : ¬ (K.HW_LEN0 - 11 ≤ h.state ∧ h.state ≤ K.HW_LEN0) := by
    simp only [QCAFRM_HW_LEN0, QCAFRM_HW_LEN1, QCAFRM_HW_LEN2, QCAFRM_HW_LEN3,
      QCAFRM_WAIT_AA1, QCAFRM_WAIT_AA2, QCAFRM_WAIT_AA3, QCAFRM_WAIT_AA4,
      QCAFRM_WAIT_LEN_BYTE0, QCAFRM_WAIT_LEN_BYTE1, QCAFRM_WAIT_RSVD_BYTE1,
      QCAFRM_WAIT_RSVD_BYTE2] at c1 c2 c3 c4 c5 c6 c7
    omega
  by_cases c8 : h.state = QCAFRM_WAIT_551
  · rw [decode_foot_551 _ _ _ _ _ hh c8, decode_foot_551 _ _ _ _ _ hh c8]
    refine ⟨rfl, ?_⟩
    split_ifs <;> rfl
  by_cases c9 : h.state = QCAFRM_WAIT_552
  · rw [decode_foot_552 _ _ _ _ _ hh c9, decode_foot_552 _ _ _ _ _ hh c9]
    refine ⟨rfl, ?_⟩
    split_ifs <;> rfl
  exfalso
  simp only [isNamed] at hn
  tauto

/-- A call gives the same outcome on two chunks of the same length that agree on the bytes
the call consumes, or when the handle is in one of the four ignoring states. -/
theorem decode_same (K : QcaFrmConsts) (h : QcaFrmHdl)
    (buf : List Nat) (buf_len : Nat) (b : Nat) (rest c' : List Nat)
    (hl : c'.length = (b :: rest).length)
    (hc : isIgnoring K h.state
      ∨ c'.take (QcaFrmFsmDecode K h buf buf_len (b :: rest)).bytes_proc
          = (b :: rest).take (QcaFrmFsmDecode K h buf buf_len (b :: rest)).bytes_proc) :
    QcaFrmFsmDecode K h buf buf_len c' = QcaFrmFsmDecode K h buf buf_len (b :: rest) := by
  rcases hc with hi | ht
  · exact decode_ignoring K h buf buf_len c' (b :: rest) hi
  · by_cases hn : isNamed K h.state
    · rw [(decode_head_only K h buf buf_len b rest rest hn).2] at ht
      cases c' with
      | nil => simp at hl
      | cons b' rest' =>
        simp only [List.take_succ_cons, List.take_zero, List.cons.injEq, and_true] at ht
        subst ht
        exact (decode_head_only K h buf buf_len b' rest' rest hn).1
    · rw [decode_default K h buf buf_len (b :: rest) hn] at ht
      dsimp only at ht
      rw [decode_default K h buf buf_len c' hn, decode_default K h buf buf_len (b :: rest) hn,
        hl, ht]

theorem feedTrace_same (K : QcaFrmConsts) (buf_len : Nat) (fuel : Nat)
    (t : Trace) (c c' : List Nat) (hs : SameFed K buf_len fuel t.frmHdl t.buf c c') :
    feedTrace K buf_len fuel t c' = feedTrace K buf_len fuel t c := by
  induction fuel generalizing t c c' with
  | zero =>
    cases c with
    | nil => simp only [SameFed] at hs; subst hs; rfl
    | cons b rest => simp only [SameFed] at hs; subst hs; rfl
  | succ fuel ih =>
    cases c with
    | nil => simp only [SameFed] at hs; subst hs; rfl
    | cons b rest =>
      simp only [SameFed] at hs
      obtain ⟨hl, hc, hrest⟩ := hs
      have e := decode_same K t.frmHdl t.buf buf_len b rest c' hl hc
      cases c' with
      | nil => simp at hl
      | cons b' rest' =>
        simp only [feedTrace, Trace.call]
        rw [e]
        exact ih _ _ _ hrest

theorem feedChunksTrace_same (K : QcaFrmConsts) (buf_len : Nat)
    (cs cs' : List (List Nat)) (t : Trace) (hs : SameStream K buf_len t cs cs') :
    feedChunksTrace K buf_len t cs' = feedChunksTrace K buf_len t cs := by
  induction cs generalizing t cs' with
  | nil => simp only [SameStream] at hs; subst hs; rfl
  | cons c cs ih =>
    cases cs' with
    | nil => exact absurd hs (by simp [SameStream])
    | cons c' cs' =>
      simp only [SameStream] at hs
      obtain ⟨h1, h2, h3⟩ := hs
      have hlen : c'.length = c.length := by
        cases c with
        | nil => simp only [SameFed] at h1; subst h1; rfl
        | cons b rest =>
          simp only [List.length_cons, SameFed] at h1
          exact h1.1
      simp only [feedChunksTrace]
      rw [hlen, feedTrace_same K buf_len c.length t c c' h1]
      cases hf : feedTrace K buf_len c.length t c with
      | none => rw [h3 hf]
      | some t1 => exact ih _ _ (h2 t1 hf)

theorem call_toRun (K : QcaFrmConsts) (buf_len : Nat) (t : Trace) (c : List Nat) :
    (t.call K buf_len c).toRun = t.toRun.call K buf_len c := by
  simp [Trace.call, Trace.toRun, Run.call]

theorem feed_toRun (K : QcaFrmConsts) (buf_len : Nat) (fuel : Nat) (t : Trace) (c : List Nat) :
    feed K buf_len fuel t.toRun c = (feedTrace K buf_len fuel t c).map Trace.toRun := by
  induction fuel generalizing t c with
  | zero => cases c <;> rfl
  | succ fuel ih =>
    cases c with
    | nil => rfl
    | cons b rest =>
      simp only [feed, feedTrace]
      rw [← call_toRun]
      exact ih _ _

theorem feedChunks_toRun (K : QcaFrmConsts) (buf_len : Nat) (cs : List (List Nat))
    (t : Trace) :
    feedChunks K buf_len t.toRun cs = (feedChunksTrace K buf_len t cs).map Trace.toRun := by
  induction cs generalizing t with
  | nil => rfl
  | cons c cs ih =>
    simp only [feedChunks, feedChunksTrace, feed_toRun]
    cases feedTrace K buf_len c.length t c with
    | none => rfl
    | some t1 => exact ih t1

/-- C19: the bytes consumed in `QCAFRM_HW_LEN2`, `QCAFRM_HW_LEN3`,
`QCAFRM_WAIT_RSVD_BYTE1` and `QCAFRM_WAIT_RSVD_BYTE2` do not influence the decoder.  A
call in one of these states leaves the same result, `bytes_proc`, handle and output buffer
whatever the input chunk is; two sequences of calls that differ only in the chunks of
calls made in these states give identical sequences of results, `bytes_proc` values,
handles and output buffers; and two input streams, split into chunks in the same way and
fed through the caller's loop (re-invoking on the leftover bytes), that differ only in
bytes consumed in these states give the same calls with identical results, `bytes_proc`
values, handles and output buffers, call by call.  The loop that records every call in
full makes the calls of the caller's loop. -/
theorem C19_ignored_bytes (K : QcaFrmConsts) (h : QcaFrmHdl) (buf : List Nat) :
    (∀ (buf_len : Nat) (c c' : List Nat), isIgnoring K h.state →
      QcaFrmFsmDecode K h buf buf_len c = QcaFrmFsmDecode K h buf buf_len c')
    ∧ (∀ calls calls' : List (Nat × List Nat), SameButIgnored K h buf calls calls' →
      decodeCalls K h buf calls = decodeCalls K h buf calls')
    ∧ (∀ (buf_len : Nat) (cs cs' : List (List Nat)),
        SameStream K buf_len (Trace.start h buf) cs cs' →
        feedChunksTrace K buf_len (Trace.start h buf) cs'
          = feedChunksTrace K buf_len (Trace.start h buf) cs
        ∧ feedChunks K buf_len (Run.start h buf) cs' = feedChunks K buf_len (Run.start h buf) cs)
    ∧ (∀ (buf_len : Nat) (cs : List (List Nat)),
        feedChunks K buf_len (Run.start h buf) cs
          = (feedChunksTrace K buf_len (Trace.start h buf) cs).map Trace.toRun) := by
  refine ⟨fun buf_len c c' hi => decode_ignoring K h buf buf_len c c' hi, ?_, ?_, ?_⟩
  · intro calls
    induction calls generalizing h buf with
    | nil =>
      intro calls' hs
      cases calls' with
      | nil => rfl
      | cons x t => exact absurd hs (by simp [SameButIgnored])
    | cons x t ih =>
      intro calls' hs
      obtain ⟨bl, c⟩ := x
      cases calls' with
      | nil => exact absurd hs (by simp [SameButIgnored])
      | cons y t' =>
        obtain ⟨bl', c'⟩ := y
        simp only [SameButIgnored] at hs
        obtain ⟨rfl, hc, hrest⟩ := hs
        have e : QcaFrmFsmDecode K h buf bl c = QcaFrmFsmDecode K h buf bl c' := by
          rcases hc with rfl | hi
          · rfl
          · exact decode_ignoring K h buf bl c c' hi
        simp only [decodeCalls]
        rw [ih _ _ t' hrest, e]
  · intro buf_len cs cs' hs
    have e := feedChunksTrace_same K buf_len cs cs' (Trace.start h buf) hs
    refine ⟨e, ?_⟩
    have q := feedChunks_toRun K buf_len cs (Trace.start h buf)
    have q' := feedChunks_toRun K buf_len cs' (Trace.start h buf)
    rw [e] at q'
    exact q'.trans q.symm
  · intro buf_len cs
    exact feedChunks_toRun K buf_len cs (Trace.start h buf)

set_option maxRecDepth 100000 in
/-- Witness for C19: the hardware-length bytes, the header, the payload `0, 1, .., 59` and
the footer, fed from the initial state in three chunks that cut through the header and the
payload.  With the bytes `12 34` and the version tag `E0 FF` in the ignored positions the
caller's loop makes the same calls with the same outcomes as with zeroes there. -/
theorem C19_ignored_bytes_witness :
    SameStream refConsts 1522
        (Trace.start (QcaFrmFsmInit refConsts ⟨0, 0, 0⟩) (List.replicate 1522 0))
        [[0, 0, 0, 0, 0xAA, 0xAA], [0xAA, 0xAA, 0x3C, 0, 0, 0] ++ List.range 30,
          (List.range 60).drop 30 ++ [0x55, 0x55]]
        [[0, 0, 0x12, 0x34, 0xAA, 0xAA], [0xAA, 0xAA, 0x3C, 0, 0xE0, 0xFF] ++ List.range 30,
          (List.range 60).drop 30 ++ [0x55, 0x55]]
    ∧ feedChunksTrace refConsts 1522
        (Trace.start (QcaFrmFsmInit refConsts ⟨0, 0, 0⟩) (List.replicate 1522 0))
        [[0, 0, 0x12, 0x34, 0xAA, 0xAA], [0xAA, 0xAA, 0x3C, 0, 0xE0, 0xFF] ++ List.range 30,
          (List.range 60).drop 30 ++ [0x55, 0x55]]
      = feedChunksTrace refConsts 1522
        (Trace.start (QcaFrmFsmInit refConsts ⟨0, 0, 0⟩) (List.replicate 1522 0))
        [[0, 0, 0, 0, 0xAA, 0xAA], [0xAA, 0xAA, 0x3C, 0, 0, 0] ++ List.range 30,
          (List.range 60).drop 30 ++ [0x55, 0x55]] :=
  ⟨by decide,
    ((C19_ignored_bytes refConsts (QcaFrmFsmInit refConsts ⟨0, 0, 0⟩)
      (List.replicate 1522 0)).2.2.1 1522 _ _ (by decide)).1⟩


theorem staleRel_refl (K : QcaFrmConsts) (h : QcaFrmHdl) : StaleRel K h h :=
  ⟨rfl, fun _ => rfl, fun _ => rfl⟩

/-- One call on two handles related by `StaleRel`: same result, same `bytes_proc`, same
output buffer, and the handles are related again. -/
theorem staleRel_decode (K : QcaFrmConsts) (h1 h2 : QcaFrmHdl)
    (buf : List Nat) (buf_len : Nat) (c : List Nat) (hr : StaleRel K h1 h2) :
    (QcaFrmFsmDecode K h1 buf buf_len c).ret = (QcaFrmFsmDecode K h2 buf buf_len c).ret
    ∧ (QcaFrmFsmDecode K h1 buf buf_len c).bytes_proc
        = (QcaFrmFsmDecode K h2 buf buf_len c).bytes_proc
    ∧ (QcaFrmFsmDecode K h1 buf buf_len c).buf = (QcaFrmFsmDecode K h2 buf buf_len c).buf
    ∧ StaleRel K (QcaFrmFsmDecode K h1 buf buf_len c).frmHdl
        (QcaFrmFsmDecode K h2 buf buf_len c).frmHdl := by
  obtain ⟨st, o1, l1⟩ := h1
  obtain ⟨st2, o2, l2⟩ := h2
  obtain ⟨hst, hl, ho⟩ := hr
  dsimp only at hst hl ho
  subst hst
  by_cases c1 : st = QCAFRM_HW_LEN0 K ∨ st = QCAFRM_HW_LEN1 K
  · rw [decode_hw_len01 K ⟨st, o1, l1⟩ _ _ _ c1, decode_hw_len01 K ⟨st, o2, l2⟩ _ _ _ c1]
    simp only [QCAFRM_HW_LEN0, QCAFRM_HW_LEN1] at c1
    split_ifs <;> refine ⟨rfl, rfl, rfl, rfl, ?_, ?_⟩ <;> intro hh <;>
      dsimp only [QCAFRM_HW_LEN0] at hh ⊢ <;> exfalso <;> omega
  by_cases c2 : st = QCAFRM_HW_LEN2 K ∨ st = QCAFRM_HW_LEN3 K
  · rw [decode_hw_len23 K ⟨st, o1, l1⟩ _ _ _ c2, decode_hw_len23 K ⟨st, o2, l2⟩ _ _ _ c2]
    simp only [QCAFRM_HW_LEN2, QCAFRM_HW_LEN3] at c2
    refine ⟨rfl, rfl, rfl, rfl, ?_, ?_⟩ <;> intro hh <;>
      dsimp only at hh ⊢ <;> exfalso <;> omega
  by_cases c3 : st = QCAFRM_WAIT_AA1 K ∨ st = QCAFRM_WAIT_AA2 K
        ∨ st = QCAFRM_WAIT_AA3 K ∨ st = QCAFRM_WAIT_AA4 K
  · rw [decode_wait_aa K ⟨st, o1, l1⟩ _ _ _ c3, decode_wait_aa K ⟨st, o2, l2⟩ _ _ _ c3]
    simp only [QCAFRM_WAIT_AA1, QCAFRM_WAIT_AA2, QCAFRM_WAIT_AA3, QCAFRM_WAIT_AA4] at c3
    split_ifs <;> refine ⟨rfl, rfl, rfl, rfl, ?_, ?_⟩ <;> intro hh <;>
      dsimp only [QCAFRM_HW_LEN0] at hh ⊢ <;> exfalso <;> omega
  by_cases c4 : st = QCAFRM_WAIT_LEN_BYTE0 K
  · rw [decode_len_byte0 K ⟨st, o1, l1⟩ _ _ _ c4, decode_len_byte0 K ⟨st, o2, l2⟩ _ _ _ c4]
    simp only [QCAFRM_WAIT_LEN_BYTE0] at c4
    refine ⟨rfl, rfl, rfl, rfl, fun _ => rfl, ?_⟩
    intro hh; exfalso; dsimp only at hh; omega
  by_cases c5 : st = QCAFRM_WAIT_LEN_BYTE1 K
  · rw [decode_len_byte1 K ⟨st, o1, l1⟩ _ _ _ c5, decode_len_byte1 K ⟨st, o2, l2⟩ _ _ _ c5]
    simp only [QCAFRM_WAIT_LEN_BYTE1] at c5
    have e : l1 = l2 := hl (by omega)
    subst e
    refine ⟨rfl, rfl, rfl, rfl, fun _ => rfl, ?_⟩
    intro hh; exfalso; dsimp only at hh; omega
  by_cases c6 : st = QCAFRM_WAIT_RSVD_BYTE1 K
  · rw [decode_rsvd1 K ⟨st, o1, l1⟩ _ _ _ c6, decode_rsvd1 K ⟨st, o2, l2⟩ _ _ _ c6]
    simp only [QCAFRM_WAIT_RSVD_BYTE1] at c6
    have e : l1 = l2 := hl (by omega)
    subst e
    refine ⟨rfl, rfl, rfl, rfl, fun _ => rfl, ?_⟩
    intro hh; exfalso; dsimp only at hh; omega
  by_cases c7 : st = QCAFRM_WAIT_RSVD_BYTE2 K
  · rw [decode_rsvd2 K ⟨st, o1, l1⟩ _ _ _ c7, decode_rsvd2 K ⟨st, o2, l2⟩ _ _ _ c7]
    simp only [QCAFRM_WAIT_RSVD_BYTE2] at c7
    have e : l1 = l2 := hl (by omega)
    subst e
    dsimp only
    split_ifs
    · refine ⟨rfl, rfl, rfl, rfl, fun _ => rfl, ?_⟩
      intro hh; exfalso; dsimp only [QCAFRM_HW_LEN0] at hh; omega
    · exact ⟨rfl, rfl, rfl, rfl, fun _ => rfl, fun _ => rfl⟩
  have hout : st < K.HW_LEN0 - 11 ∨ K.HW_LEN0 < st := by
    simp only [QCAFRM_HW_LEN0, QCAFRM_HW_LEN1, QCAFRM_HW_LEN2, QCAFRM_HW_LEN3,
      QCAFRM_WAIT_AA1, QCAFRM_WAIT_AA2, QCAFRM_WAIT_AA3, QCAFRM_WAIT_AA4,
      QCAFRM_WAIT_LEN_BYTE0, QCAFRM_WAIT_LEN_BYTE1, QCAFRM_WAIT_RSVD_BYTE1,
      QCAFRM_WAIT_RSVD_BYTE2] at *
    omega
  have e1 : l1 = l2 := hl (by omega)
  have e2 : o1 = o2 := ho hout
  subst e1 e2
  exact ⟨rfl, rfl, rfl, staleRel_refl K _⟩

theorem staleRel_calls (K : QcaFrmConsts)
    (calls : List (Nat × List Nat)) (h1 h2 : QcaFrmHdl) (buf : List Nat)
    (hr : StaleRel K h1 h2) :
    (decodeCalls K h1 buf calls).map (fun o => (o.ret, o.bytes_proc, o.buf, o.frmHdl.state))
      = (decodeCalls K h2 buf calls).map
          (fun o => (o.ret, o.bytes_proc, o.buf, o.frmHdl.state)) := by
  induction calls generalizing h1 h2 buf with
  | nil => rfl
  | cons x t ih =>
    obtain ⟨bl, c⟩ := x
    obtain ⟨e1, e2, e3, e4⟩ := staleRel_decode K h1 h2 buf bl c hr
    simp only [decodeCalls, List.map_cons, e1, e2, e3, e4.1, List.cons.injEq, true_and]
    rw [← e3]
    exact ih _ _ _ e4

/-- C20: `QcaFrmFsmInit` writes only the state (`QCAFRM_HW_LEN0`) and leaves `len` and
`offset` as they were; nevertheless, for any two handles, after `QcaFrmFsmInit` on both,
every sequence of `QcaFrmFsmDecode` calls with the same arguments gives the same results,
the same `bytes_proc` values, the same output buffers and the same states. -/
theorem C20_init_suffices (K : QcaFrmConsts) (h1 h2 : QcaFrmHdl)
    (buf : List Nat) (calls : List (Nat × List Nat)) :
    (QcaFrmFsmInit K h1).state = QCAFRM_HW_LEN0 K
    ∧ (QcaFrmFsmInit K h1).len = h1.len ∧ (QcaFrmFsmInit K h1).offset = h1.offset
    ∧ (decodeCalls K (QcaFrmFsmInit K h1) buf calls).map
          (fun o => (o.ret, o.bytes_proc, o.buf, o.frmHdl.state))
        = (decodeCalls K (QcaFrmFsmInit K h2) buf calls).map
          (fun o => (o.ret, o.bytes_proc, o.buf, o.frmHdl.state)) := by
  refine ⟨rfl, rfl, rfl, ?_⟩
  apply staleRel_calls K
  refine ⟨rfl, ?_, ?_⟩
  · intro hh; exfalso
    simp only [QcaFrmFsmInit, QCAFRM_HW_LEN0] at hh
    omega
  · intro hh; exfalso
    simp only [QcaFrmFsmInit, QCAFRM_HW_LEN0] at hh
    omega

/-- Witness for C20: a zeroed handle and a handle with stale `offset = 999`, `len = 7`
decode the hardware-length bytes, the header of a 60-byte frame and three payload bytes
with the same results and the same output buffers. -/
theorem C20_init_suffices_witness :
    (decodeCalls refConsts (QcaFrmFsmInit refConsts ⟨0, 0, 0⟩) (List.replicate 60 0)
        [(1522, [0, 0]), (1522, [0]), (1522, [0]), (1522, [0]), (1522, [0xAA]), (1522, [0xAA]),
          (1522, [0xAA]), (1522, [0xAA]), (1522, [0x3C]), (1522, [0]), (1522, [0]),
          (1522, [0]), (1522, [1, 2, 3])]).map
          (fun o => (o.ret, o.bytes_proc, o.buf, o.frmHdl.state))
      = (decodeCalls refConsts (QcaFrmFsmInit refConsts ⟨5, 999, 7⟩) (List.replicate 60 0)
        [(1522, [0, 0]), (1522, [0]), (1522, [0]), (1522, [0]), (1522, [0xAA]), (1522, [0xAA]),
          (1522, [0xAA]), (1522, [0xAA]), (1522, [0x3C]), (1522, [0]), (1522, [0]),
          (1522, [0]), (1522, [1, 2, 3])]).map
          (fun o => (o.ret, o.bytes_proc, o.buf, o.frmHdl.state)) :=
  (C20_init_suffices refConsts ⟨0, 0, 0⟩ ⟨5, 999, 7⟩ (List.replicate 60 0) _).2.2.2

end QcaFraming
